import Mathlib

/-!
# Senate: the deliberation engine and the precedent index

A shallow embedding of `internal/core/types.go`, `internal/core/id.go`,
`internal/deliberation/panel.go`, `internal/deliberation/engine.go`,
`internal/precedent/store.go` and `internal/handoff/beads.go`.

Conventions of the embedding:

* a Go `string` is a Lean `String` (a sequence of Unicode code points; Go strings
  that are not valid UTF-8 are outside the model), and `len(s)` is its number of
  bytes, `String.utf8ByteSize`;
* a Go slice is a `List`;
* a Go `int` is an `Int`; the only integers computed here are list lengths, vote
  counts and token scores, which stay far below `2^63`;
* a Go `map[core.Decision]int` is the total function `Decision → Int` that a
  lookup `counts[k]` computes (an absent key reads as `0`);
* the standard-library functions whose behaviour rests on tables that are not part
  of this repository (`unicode.ToLower` outside ASCII, `time.Parse`,
  `time.Time.Format`, `strconv.Quote`) are the fields of a `Stdlib` value that every
  definition using them takes as its first argument;
* `time.Time.Add` is addition of instants (its saturation at the two ends of the
  representable range is not modelled);
* the log file of the precedent index is a value that `Store.Add` and `Store.LoadAll`
  take as an argument: `none` when the file does not exist, and its content otherwise;
  `Store.Add` returns the log file that it leaves, and `Store.Search` takes the result
  of `Store.LoadAll` as an argument;
* the errors that the operating system returns to the calls of these two methods, and
  the functions of `encoding/json`, are arguments too; the line scanner of `bufio` is
  embedded with the limit of its buffer; the instance `refJson` of the JSON functions
  embeds `json.Marshal` and `json.Unmarshal` on the struct `Record`: the escaping of
  strings, the scanner of JSON texts, and the decoder of an object into the fields;
* the runner of `CreateBeadForVerdict` is a function, and the calls that are made to it
  are returned next to the result.
-/

set_option linter.dupNamespace false
set_option maxRecDepth 100000

namespace Senate

/-! ## Standard-library functions -/

/-- An instant of time (a Go `time.Time`), in nanoseconds since the Unix epoch. Every
time the code formats has been moved to UTC first, so the location is not kept. -/
abbrev Time := Int

/-- The standard-library functions that rest on tables or parsers which are not part
of this repository. -/
structure Stdlib where
  /-- The function `unicode.ToLower` on the runes above `unicode.MaxASCII`. -/
  unicodeToLower : Char → Char
  /-- The call `time.Parse(time.RFC3339, s)`: the instant, or the error message. -/
  parseRFC3339 : String → Except String Time
  /-- The call `t.UTC().Format(time.RFC3339)`. -/
  formatRFC3339 : Time → String
  /-- The verb `%q` of `fmt` on a string (`strconv.Quote`). -/
  quote : String → String
  /-- The call `t.UTC().Format("20060102-150405")`. -/
  formatStamp : Time → String

/-- The function `unicode.IsSpace`. -/
def isSpace (c : Char) : Bool :=
  let n := c.toNat
  n = 0x09 || n = 0x0A || n = 0x0B || n = 0x0C || n = 0x0D || n = 0x20 ||
  n = 0x85 || n = 0xA0 || n = 0x1680 || (0x2000 ≤ n && n ≤ 0x200A) ||
  n = 0x2028 || n = 0x2029 || n = 0x202F || n = 0x205F || n = 0x3000

/-- The function `strings.TrimSpace`: leading and trailing white space removed. -/
def TrimSpace (s : String) : String :=
  String.mk ((s.data.dropWhile isSpace).reverse.dropWhile isSpace).reverse

/-- The function `unicode.ToLower`: the ASCII letters are handled by the function
itself, the other runes by the case tables. The white-space runes above ASCII have no
entry in the case tables, which leave them as they are. -/
def toLowerRune (L : Stdlib) (c : Char) : Char :=
  if c.toNat ≤ 0x7F then
    if 'A'.toNat ≤ c.toNat ∧ c.toNat ≤ 'Z'.toNat then Char.ofNat (c.toNat + 32) else c
  else if isSpace c then c
  else L.unicodeToLower c

/-- The function `strings.ToLower`: every rune mapped through `unicode.ToLower`. -/
def ToLower (L : Stdlib) (s : String) : String :=
  String.mk (s.data.map (toLowerRune L))

/-- Whether `sub` occurs in `text` as a contiguous block. -/
def containsChars (text sub : List Char) : Bool :=
  text.tails.any (fun t => sub.isPrefixOf t)

/-- The function `strings.Contains`. -/
def Contains (s substr : String) : Bool :=
  containsChars s.data substr.data

/-- The function `strings.Join`. -/
def Join (elems : List String) (sep : String) : String :=
  sep.intercalate elems

/-- The verb `%d` of `fmt.Sprintf` on a non-negative integer. -/
def formatNat (n : Nat) : String := toString n

/-! ## `internal/core/types.go` -/

/-- The Go type `core.Decision`, a named `string` type. -/
abbrev Decision := String

def DecisionApprove : Decision := "approved"
def DecisionReject : Decision := "rejected"
def DecisionAmend : Decision := "amended"
def DecisionDefer : Decision := "deferred"

/-- The method `Decision.Validate`: `none` is the nil error. -/
def Decision.Validate (L : Stdlib) (d : Decision) : Option String :=
  if d = DecisionApprove ∨ d = DecisionReject ∨ d = DecisionAmend ∨ d = DecisionDefer then none
  else some ("invalid decision " ++ L.quote d)

/-- The Go struct `core.Case`; the field `Type` is spelled `Type_` here. -/
structure Case where
  ID : String
  Type_ : String
  Summary : String
  Question : String
  Evidence : List String
  RequestedDecision : String
  FiledAt : String
  FiledBy : String
  deriving DecidableEq, Repr

/-- The index of the first entry that is blank after trimming, counted from `i`. -/
def firstBlankFrom (i : Nat) : List String → Option Nat
  | [] => none
  | e :: rest => if TrimSpace e = "" then some i else firstBlankFrom (i + 1) rest

/-- The method `Case.Validate`: `none` is the nil error, `some msg` an error with
that message. -/
def Case.Validate (L : Stdlib) (c : Case) : Option String :=
  if TrimSpace c.ID = "" then some "case.id is required"
  else if TrimSpace c.Type_ = "" then some "case.type is required"
  else if TrimSpace c.Summary = "" then some "case.summary is required"
  else if TrimSpace c.Question = "" then some "case.question is required"
  else if TrimSpace c.FiledAt = "" then some "case.filed_at is required"
  else
    match L.parseRFC3339 c.FiledAt with
    | .error msg => some ("case.filed_at must be RFC3339: " ++ msg)
    | .ok _ =>
      match firstBlankFrom 0 c.Evidence with
      | some i => some ("case.evidence[" ++ formatNat i ++ "] must not be empty")
      | none => none

/-- The function `NewCaseID` of `internal/core/id.go`. -/
def NewCaseID (L : Stdlib) (now : Time) : String :=
  "senate-" ++ L.formatStamp now

/-- The method `Case.Normalize`: the case that the call leaves in its receiver. -/
def Case.Normalize (L : Stdlib) (c : Case) (now : Time) : Case :=
  let c := { c with ID := TrimSpace c.ID }
  let c := if c.ID = "" then { c with ID := NewCaseID L now } else c
  let c := { c with Type_ := TrimSpace c.Type_ }
  let c := if c.Type_ = "" then { c with Type_ := "general" } else c
  let c := { c with Summary := TrimSpace c.Summary }
  let c := { c with Question := TrimSpace c.Question }
  let c := if c.Summary = "" then { c with Summary := c.Question } else c
  let c := if c.Question = "" then { c with Question := c.Summary } else c
  if TrimSpace c.FiledAt = "" then { c with FiledAt := L.formatRFC3339 now } else c

/-- The Go struct `core.PanelMember`. -/
structure PanelMember where
  AgentID : String
  Model : String
  Perspective : String
  deriving DecidableEq, Repr

/-- The Go struct `core.Position`. -/
structure Position where
  AgentID : String
  Model : String
  Perspective : String
  Round : String
  Stance : Decision
  Reasoning : String
  Concerns : String
  deriving DecidableEq, Repr

/-- The Go struct `core.Challenge`. -/
structure Challenge where
  From : String
  To : String
  Challenge : String
  deriving DecidableEq, Repr

/-- The Go struct `core.Transcript`. -/
structure Transcript where
  CaseID : String
  StartedAt : String
  CompletedAt : String
  Panel : List PanelMember
  InitialPositions : List Position
  Challenges : List Challenge
  FinalPositions : List Position
  JudgeModel : String
  deriving DecidableEq, Repr

/-- The Go struct `core.Handoff`. -/
structure Handoff where
  System : String
  BeadID : String
  Status : String
  CreatedAt : String
  deriving DecidableEq, Repr

/-- The Go struct `core.Verdict`; the pointer field `Handoff` is an `Option`. -/
structure Verdict where
  CaseID : String
  FiledAt : String
  VerdictAt : String
  Type_ : String
  Summary : String
  Verdict : Decision
  Reasoning : String
  Implementation : String
  Dissent : String
  Binding : Bool
  Judge : String
  FinalPositions : List Position
  Handoff : Option Handoff
  deriving DecidableEq, Repr

/-- The method `Verdict.Validate`: `none` is the nil error. -/
def Verdict.Validate (L : Stdlib) (v : Senate.Verdict) : Option String :=
  if TrimSpace v.CaseID = "" then some "verdict.case_id is required"
  else if TrimSpace v.FiledAt = "" then some "verdict.filed_at is required"
  else
    match L.parseRFC3339 v.FiledAt with
    | .error msg => some ("verdict.filed_at must be RFC3339: " ++ msg)
    | .ok _ =>
      if TrimSpace v.VerdictAt = "" then some "verdict.verdict_at is required"
      else
        match L.parseRFC3339 v.VerdictAt with
        | .error msg => some ("verdict.verdict_at must be RFC3339: " ++ msg)
        | .ok _ =>
          if TrimSpace v.Type_ = "" then some "verdict.type is required"
          else if TrimSpace v.Summary = "" then some "verdict.summary is required"
          else
            match Decision.Validate L v.Verdict with
            | some msg => some ("verdict.verdict: " ++ msg)
            | none =>
              if TrimSpace v.Reasoning = "" then some "verdict.reasoning is required"
              else if TrimSpace v.Judge = "" then some "verdict.judge is required"
              else none

/-! ## Majority and tie-break (`engine.go`, `countDecisions`, `majorityDecision`) -/

/-- A Go `map[core.Decision]int`, read through lookups only. -/
abbrev Counts := Decision → Int

/-- The statement `counts[k]++`. -/
def Counts.incr (counts : Counts) (k : Decision) : Counts :=
  fun d => if d = k then counts d + 1 else counts d

/-- The map literal of `countDecisions`: the four decisions at zero. -/
def zeroCounts : Counts := fun _ => 0

/-- The function `countDecisions`: one increment per position, in list order. -/
def countDecisions (positions : List Position) : Counts :=
  positions.foldl (fun counts p => counts.incr p.Stance) zeroCounts

/-- The local struct `pair` of `majorityDecision`. -/
structure Pair where
  decision : Decision
  count : Int
  deriving DecidableEq, Repr

/-- One pass of the inner loop of the insertion sort that `sort.SliceStable` runs on
slices shorter than 20 elements: `x` moves left past each neighbour `y` for which
`less x y` holds and stops at the first one for which it does not. The list is the
sorted prefix in reverse order (nearest neighbour first). -/
def siftLeft {α : Type} (less : α → α → Bool) (x : α) : List α → List α
  | [] => [x]
  | y :: rest => if less x y then y :: siftLeft less x rest else x :: y :: rest

/-- The call `sort.SliceStable(s, less)`. On a slice of at most 20 elements the
library runs exactly this insertion sort; on a longer slice it sorts blocks of 20 this
way and merges them, keeping equal elements in their original order, which for a
`less` that is a strict weak ordering gives the same slice. -/
def sliceStable {α : Type} (less : α → α → Bool) (s : List α) : List α :=
  (s.foldl (fun sortedRev x => siftLeft less x sortedRev) []).reverse

/-- The slice `ordered` of `majorityDecision` after the stable sort. -/
def orderedPairs (counts : Counts) : List Pair :=
  sliceStable (fun a b => decide (a.count > b.count))
    [ { decision := DecisionApprove, count := counts DecisionApprove },
      { decision := DecisionReject, count := counts DecisionReject },
      { decision := DecisionAmend, count := counts DecisionAmend },
      { decision := DecisionDefer, count := counts DecisionDefer } ]

/-- The function `majorityDecision`. The slice always has four elements, so the
fall-through arms of the matches are never taken. -/
def majorityDecision (counts : Counts) : Decision :=
  match orderedPairs counts with
  | [] => ""
  | first :: rest =>
    if first.count = 0 then ""
    else
      match rest with
      | [] => first.decision
      | second :: _ =>
        if first.count = second.count then DecisionDefer else first.decision

/-! ## `internal/deliberation/panel.go` -/

/-- The Go struct `Perspective`: one panel seat. -/
structure Perspective where
  Name : String
  Model : String
  Directive : String
  deriving DecidableEq, Repr

/-- The package variable `defaultCatalog`. -/
def defaultCatalog : List Perspective :=
  [ { Name := "pragmatist", Model := "claude:sonnet",
      Directive := "Prioritize velocity and practical outcomes while keeping risk acceptable." },
    { Name := "purist", Model := "claude:sonnet",
      Directive := "Prioritize correctness, consistency, and long-term maintainability." },
    { Name := "skeptic", Model := "claude:sonnet",
      Directive := "Challenge assumptions and focus on hidden risks and missing evidence." },
    { Name := "steward", Model := "claude:haiku",
      Directive := "Prioritize operational stability and low blast-radius implementation." },
    { Name := "advocate", Model := "claude:haiku",
      Directive := "Prioritize user value and impact while preserving trust." } ]

/-- The first loop of `BuildPanel`: one seat per name that is not blank. -/
def customCatalog : List String → List Perspective
  | [] => []
  | name :: rest =>
    let clean := TrimSpace name
    if clean = "" then customCatalog rest
    else
      { Name := clean, Model := "claude:sonnet",
        Directive := "Represent the " ++ clean ++ " perspective with rigorous argumentation." }
        :: customCatalog rest

/-- The catalog that `BuildPanel` draws seats from, with the fact that makes the
index expression `catalog[i%len(catalog)]` stay in range. -/
def buildCatalog (names : List String) : { catalog : List Perspective // 0 < catalog.length } :=
  if names.length > 0 then
    if h : (customCatalog names).length = 0 then ⟨defaultCatalog, by decide⟩
    else ⟨customCatalog names, Nat.pos_of_ne_zero h⟩
  else ⟨defaultCatalog, by decide⟩

/-- The body of the second loop of `BuildPanel` at index `i`. -/
def buildSeat (catalog : { catalog : List Perspective // 0 < catalog.length })
    (models : List String) (i : Nat) : Perspective :=
  let seat := catalog.val.get ⟨i % catalog.val.length, Nat.mod_lt i catalog.property⟩
  let model :=
    if h : models.length > 0 then
      let m := TrimSpace (models.get ⟨i % models.length, Nat.mod_lt i h⟩)
      if m ≠ "" then m else seat.Model
    else seat.Model
  { Name := seat.Name, Model := model, Directive := seat.Directive }

/-- The function `BuildPanel`. -/
def BuildPanel (n : Int) (names : List String) (models : List String) : List Perspective :=
  let n := if n ≤ 0 then 3 else n
  (List.range n.toNat).map (buildSeat (buildCatalog names) models)

/-- The loop of `toPanelMembers`, from index `i` on. -/
def toPanelMembersFrom (i : Nat) : List Perspective → List PanelMember
  | [] => []
  | p :: rest =>
    { AgentID := "agent-" ++ formatNat (i + 1), Model := p.Model, Perspective := p.Name }
      :: toPanelMembersFrom (i + 1) rest

/-- The function `toPanelMembers`. -/
def toPanelMembers (panel : List Perspective) : List PanelMember :=
  toPanelMembersFrom 0 panel

/-! ## `internal/deliberation/engine.go` -/

/-- The Go struct `Engine`. -/
structure Engine where
  Panel : List Perspective
  JudgeModel : String
  deriving DecidableEq, Repr

/-- The function `New`. -/
def New (panel : List Perspective) : Engine :=
  let panel := if panel.length = 0 then BuildPanel 3 [] [] else panel
  { Panel := panel, JudgeModel := "claude:opus" }

/-- The function `tokenScore`. -/
def tokenScore (L : Stdlib) (text : String) (tokens : List String) : Int :=
  let text := ToLower L text
  tokens.foldl (fun score tok => if Contains text tok then score + 1 else score) 0

/-- The risk tokens of `evaluateInitial`. -/
def riskTokens : List String :=
  ["security", "unsafe", "drop", "delete", "disable", "bypass", "without tests", "rollback"]

/-- The urgency tokens of `evaluateInitial`. -/
def urgencyTokens : List String :=
  ["urgent", "blocker", "ship", "today", "immediately", "unblock"]

/-- The function `evaluateInitial`: the decision, the reasoning and the concerns. -/
def evaluateInitial (L : Stdlib) (c : Case) (p : Perspective) : Decision × String × String :=
  let risk := tokenScore L (c.Question ++ " " ++ c.Summary) riskTokens
  let urgency := tokenScore L (c.Question ++ " " ++ c.Summary) urgencyTokens
  let evidenceWeight : Int := c.Evidence.length
  if p.Name = "pragmatist" then
    if risk ≥ 2 then
      (DecisionReject, "The change introduces high risk compared to delivery value.",
        "Risk reduction plan is missing.")
    else if urgency ≥ 1 ∨ evidenceWeight ≥ 2 then
      (DecisionApprove, "The path is actionable now and clears immediate delivery constraints.",
        "Document rollback and ownership.")
    else
      (DecisionAmend, "Direction is viable but needs tighter scope before execution.",
        "Define measurable acceptance criteria.")
  else if p.Name = "purist" then
    if risk ≥ 1 then
      (DecisionReject, "Correctness and safety guarantees are not strong enough for approval.",
        "Failure modes are under-specified.")
    else if evidenceWeight = 0 then
      (DecisionDefer, "There is not enough evidence to make a durable decision.",
        "Need concrete examples or data.")
    else
      (DecisionAmend, "The proposal is directionally sound but requires stronger invariants.",
        "Specify exact rule boundaries.")
  else if p.Name = "skeptic" then
    if evidenceWeight = 0 then
      (DecisionDefer, "The case lacks objective evidence and should not be bound yet.",
        "Gather incidents, diffs, or metrics first.")
    else if risk ≥ 1 then
      (DecisionReject, "Edge-case risk remains unresolved under realistic failure scenarios.",
        "Mitigations are implied but not explicit.")
    else
      (DecisionAmend, "Adopt with guardrails to contain unknowns.",
        "Time-box follow-up validation.")
  else
    if risk ≥ 2 then
      (DecisionReject, "Risk exceeds confidence in current plan.", "Need safer rollout shape.")
    else if evidenceWeight ≥ 1 then
      (DecisionAmend, "Proceed with modifications grounded in the provided evidence.",
        "Capture precedent terms explicitly.")
    else
      (DecisionDefer, "Insufficient evidence for a binding conclusion.",
        "Collect at least one concrete artifact.")

/-- The zero value of `core.Position`. -/
def zeroPosition : Position :=
  { AgentID := "", Model := "", Perspective := "", Round := "", Stance := "",
    Reasoning := "", Concerns := "" }

/-- The function `strongestCounter`: the first position whose stance differs. -/
def strongestCounter (stance : Decision) : List Position → Position
  | [] => zeroPosition
  | p :: rest => if p.Stance ≠ stance then p else strongestCounter stance rest

/-- The loop of `buildChallenges` over the positions `todo`, each compared against
the whole list `initial`. -/
def buildChallengesLoop (L : Stdlib) (c : Case) (initial : List Position) :
    List Position → List Challenge
  | [] => []
  | pos :: rest =>
    let target := strongestCounter pos.Stance initial
    if target.AgentID = "" then buildChallengesLoop L c initial rest
    else
      { From := pos.AgentID, To := target.AgentID,
        Challenge := "Your " ++ ToLower L target.Stance ++ " stance underweights " ++
          ToLower L pos.Stance ++ " tradeoffs for case " ++ c.ID ++ "." }
        :: buildChallengesLoop L c initial rest

/-- The function `buildChallenges`. -/
def buildChallenges (L : Stdlib) (c : Case) (initial : List Position) : List Challenge :=
  buildChallengesLoop L c initial initial

/-- The body of the first loop of `finalizePositions`. -/
def finalizeOne (majority : Decision) (p : Position) : Position :=
  let out := { p with Round := "final" }
  if majority ≠ "" ∧ p.Stance ≠ majority then
    let out :=
      if p.Stance = DecisionApprove ∧ (majority = DecisionReject ∨ majority = DecisionDefer) then
        { out with
          Stance := DecisionAmend,
          Reasoning := "After challenge review, approval is too broad; amendment better matches observed risk." }
      else out
    if p.Stance = DecisionReject ∧ majority = DecisionApprove then
      { out with
        Stance := DecisionAmend,
        Reasoning := "After challenge review, bounded amendment is safer than outright rejection." }
    else out
  else out

/-- The body of the second loop of `finalizePositions`. -/
def forceAmend (p : Position) : Position :=
  if p.Stance = DecisionApprove then
    { p with
      Stance := DecisionAmend,
      Reasoning := "Without challenges or evidence, amendment is the safer consensus posture." }
  else p

/-- The slice `final` of `finalizePositions` after its first loop. -/
def finalizeFirstPass (initial : List Position) : List Position :=
  let counts := countDecisions initial
  let majority := majorityDecision counts
  initial.map (finalizeOne majority)

/-- The function `finalizePositions`. -/
def finalizePositions (c : Case) (initial : List Position) (challenges : List Challenge) :
    List Position :=
  let final := finalizeFirstPass initial
  if challenges.length = 0 ∧ c.Evidence.length = 0 then final.map forceAmend else final

/-- The loop of `uniqueFirstN`; the keys of the map `seen` are the elements of `out`. -/
def uniqueFirstNLoop (n : Int) (out : List String) : List String → List String
  | [] => out
  | item :: rest =>
    let clean := TrimSpace item
    if clean = "" then uniqueFirstNLoop n out rest
    else if clean ∈ out then uniqueFirstNLoop n out rest
    else
      let out := out ++ [clean]
      if (out.length : Int) = n then out else uniqueFirstNLoop n out rest

/-- The function `uniqueFirstN`. -/
def uniqueFirstN (items : List String) (n : Int) : List String :=
  if n ≤ 0 then [] else uniqueFirstNLoop n [] items

/-- The function `buildImplementationText`. -/
def buildImplementationText (c : Case) (decision : Decision) : String :=
  if TrimSpace c.RequestedDecision ≠ "" then c.RequestedDecision
  else if decision = DecisionApprove then
    "Proceed with implementation as proposed and document this verdict as precedent."
  else if decision = DecisionReject then
    "Do not implement the requested change; file a follow-up with safer alternatives."
  else if decision = DecisionAmend then
    "Implement a narrowed version with explicit guardrails and measurable acceptance criteria."
  else "Collect additional evidence and re-file the case for renewed deliberation."

/-- The decision of `synthesizeVerdict`: the majority, or deferred when it is empty. -/
def synthesizeDecision (final : List Position) : Decision :=
  let decision := majorityDecision (countDecisions final)
  if decision = "" then DecisionDefer else decision

/-- The function `synthesizeVerdict`. -/
def synthesizeVerdict (L : Stdlib) (c : Case) (final : List Position) (judge : String)
    (verdictAt : Time) : Verdict :=
  let decision := synthesizeDecision final
  let majorityReasons := (final.filter (fun p => decide (p.Stance = decision))).map
    (fun p => p.Reasoning)
  let minorityReasons := (final.filter (fun p => !decide (p.Stance = decision))).map
    (fun p => p.AgentID ++ ": " ++ p.Reasoning)
  let reasoning := TrimSpace (Join (uniqueFirstN majorityReasons 2) " ")
  let reasoning :=
    if reasoning = "" then "Panel did not converge strongly; defaulting to defer for safety."
    else reasoning
  let implementation := buildImplementationText c decision
  let binding := decide (decision ≠ DecisionDefer)
  { CaseID := c.ID,
    FiledAt := c.FiledAt,
    VerdictAt := L.formatRFC3339 verdictAt,
    Type_ := c.Type_,
    Summary := c.Summary,
    Verdict := decision,
    Reasoning := reasoning,
    Implementation := implementation,
    Dissent := Join (uniqueFirstN minorityReasons 2) " | ",
    Binding := binding,
    Judge := judge,
    FinalPositions := final,
    Handoff := none }

/-- The duration `2*time.Minute`, in nanoseconds. -/
def twoMinutes : Int := 2 * 60 * 1000000000

/-- The first loop of `Engine.Deliberate`: the initial position of each seat. -/
def initialPositions (L : Stdlib) (c : Case) (panel : List Perspective) : List Position :=
  List.zipWith
    (fun (seat : PanelMember) (p : Perspective) =>
      let r := evaluateInitial L c p
      { AgentID := seat.AgentID, Model := seat.Model, Perspective := seat.Perspective,
        Round := "initial", Stance := r.1, Reasoning := r.2.1, Concerns := r.2.2 })
    (toPanelMembers panel) panel

/-- The method `Engine.Deliberate`. -/
def Engine.Deliberate (L : Stdlib) (e : Engine) (c : Case) (now : Time) :
    Except String (Transcript × Verdict) :=
  match c.Validate L with
  | some err => .error err
  | none =>
    let started := now
    let panelMembers := toPanelMembers e.Panel
    let initial := initialPositions L c e.Panel
    let challenges := buildChallenges L c initial
    let final := finalizePositions c initial challenges
    let verdict := synthesizeVerdict L c final e.JudgeModel (started + twoMinutes)
    let transcript : Transcript :=
      { CaseID := c.ID,
        StartedAt := L.formatRFC3339 started,
        CompletedAt := L.formatRFC3339 (started + twoMinutes),
        Panel := panelMembers,
        InitialPositions := initial,
        Challenges := challenges,
        FinalPositions := final,
        JudgeModel := e.JudgeModel }
    .ok (transcript, verdict)

/-! ## `internal/precedent/store.go` -/

/-- The Go struct `precedent.Record`; the field `Type` is spelled `Type_` here. -/
structure Record where
  CaseID : String
  Type_ : String
  Summary : String
  Verdict : Decision
  Reasoning : String
  Implementation : String
  Dissent : String
  Binding : Bool
  VerdictAt : String
  Judge : String
  BeadID : String
  Keywords : List String
  deriving DecidableEq, Repr

/-- The Go struct `SearchOptions`. -/
structure SearchOptions where
  Type_ : String
  Verdict : Decision
  Limit : Int
  deriving DecidableEq, Repr

/-- The runes that the replacer of `extractKeywords` turns into a space: comma, full
stop, colon, semicolon, round and square brackets, slash, backslash, newline, tab. -/
def replacedRunes : List Char :=
  [',', '.', ':', ';', '(', ')', '[', ']', '/', Char.ofNat 0x5C, Char.ofNat 0x0A,
    Char.ofNat 0x09]

/-- The call `replacer.Replace(text)` of `extractKeywords`. -/
def replacePunctuation (text : String) : String :=
  String.mk (text.data.map (fun c => if c ∈ replacedRunes then ' ' else c))

/-- The loop of `strings.Fields`: `cur` holds the runes of the field being read, in
reverse order. -/
def fieldsFrom (cur : List Char) : List Char → List String
  | [] => if cur = [] then [] else [String.mk cur.reverse]
  | c :: rest =>
    if isSpace c then
      if cur = [] then fieldsFrom [] rest else String.mk cur.reverse :: fieldsFrom [] rest
    else fieldsFrom (c :: cur) rest

/-- The function `strings.Fields`: the maximal runs of runes that are not white space. -/
def Fields (s : String) : List String :=
  fieldsFrom [] s.data

/-- The keys of the map `stop` of `extractKeywords`. -/
def stopWords : List String :=
  ["the", "and", "for", "with", "that", "this", "from", "into", "were", "been", "will",
    "case", "verdict"]

/-- The loop of `extractKeywords`; the keys of the map `seen` are the elements of
`out`, and `len(p)` is the length of `p` in bytes. -/
def keywordLoop (out : List String) : List String → List String
  | [] => out
  | p :: rest =>
    if p.utf8ByteSize < 3 then keywordLoop out rest
    else if p ∈ stopWords then keywordLoop out rest
    else if p ∈ out then keywordLoop out rest
    else keywordLoop (out ++ [p]) rest

/-- The function `extractKeywords`. -/
def extractKeywords (L : Stdlib) (text : String) : List String :=
  let text := ToLower L text
  let text := replacePunctuation text
  let parts := Fields text
  if parts.length = 0 then [] else keywordLoop [] parts

/-- The function `FromVerdict`. -/
def FromVerdict (L : Stdlib) (v : Senate.Verdict) : Record :=
  let keywords :=
    extractKeywords L (Join [v.Summary, v.Reasoning, v.Implementation, v.Dissent] " ")
  let record : Record :=
    { CaseID := v.CaseID, Type_ := v.Type_, Summary := v.Summary, Verdict := v.Verdict,
      Reasoning := v.Reasoning, Implementation := v.Implementation, Dissent := v.Dissent,
      Binding := v.Binding, VerdictAt := v.VerdictAt, Judge := v.Judge, BeadID := "",
      Keywords := keywords }
  match v.Handoff with
  | some h => { record with BeadID := h.BeadID }
  | none => record

/-- The method `Record.Validate`: `none` is the nil error. -/
def Record.Validate (L : Stdlib) (r : Record) : Option String :=
  if TrimSpace r.CaseID = "" then some "record.case_id is required"
  else if TrimSpace r.Type_ = "" then some "record.type is required"
  else if TrimSpace r.Summary = "" then some "record.summary is required"
  else
    match Decision.Validate L r.Verdict with
    | some err => some ("record.verdict: " ++ err)
    | none =>
      if TrimSpace r.VerdictAt = "" then some "record.verdict_at is required"
      else
        match L.parseRFC3339 r.VerdictAt with
        | .error msg => some ("record.verdict_at must be RFC3339: " ++ msg)
        | .ok _ => none

/-- The string `bag` of `scoreRecord`. -/
def recordBag (L : Stdlib) (rec : Record) : String :=
  ToLower L (Join [rec.CaseID, rec.Type_, rec.Summary, rec.Reasoning, rec.Implementation,
    rec.Dissent, Join rec.Keywords " "] " ")

/-- The function `scoreRecord`. -/
def scoreRecord (L : Stdlib) (rec : Record) (queryTokens : List String) : Int :=
  if queryTokens.length = 0 then 1
  else
    let bag := recordBag L rec
    queryTokens.foldl (fun score q => if Contains bag q then score + 1 else score) 0

/-- The local struct `scored` of `Store.Search`. -/
structure Scored where
  record : Record
  score : Int
  time : Time
  deriving DecidableEq, Repr

/-- The zero value of `time.Time`: January 1 of year 1, 00:00:00 UTC. -/
def zeroTime : Time := -62135596800 * 1000000000

/-- The value `tm` of `tm, _ := time.Parse(time.RFC3339, s)`: the zero time when
parsing fails. -/
def parseOrZero (L : Stdlib) (s : String) : Time :=
  match L.parseRFC3339 s with
  | .ok t => t
  | .error _ => zeroTime

/-- The body of the first loop of `Store.Search`: the entry appended for `rec`, or
`none` when the loop continues without appending. -/
def searchEntry (L : Stdlib) (queryTokens : List String) (opts : SearchOptions)
    (rec : Record) : Option Scored :=
  if opts.Type_ ≠ "" ∧ rec.Type_ ≠ opts.Type_ then none
  else if opts.Verdict ≠ "" ∧ rec.Verdict ≠ opts.Verdict then none
  else
    let score := scoreRecord L rec queryTokens
    if queryTokens.length > 0 ∧ score = 0 then none
    else some { record := rec, score := score, time := parseOrZero L rec.VerdictAt }

/-- The slice `results` of `Store.Search` after its first loop. -/
def searchCandidates (L : Stdlib) (queryTokens : List String) (opts : SearchOptions) :
    List Record → List Scored
  | [] => []
  | rec :: rest =>
    match searchEntry L queryTokens opts rec with
    | none => searchCandidates L queryTokens opts rest
    | some entry => entry :: searchCandidates L queryTokens opts rest

/-- The comparison function that `Store.Search` sorts with. -/
def searchLess (a b : Scored) : Bool :=
  if a.score = b.score then decide (a.time > b.time) else decide (a.score > b.score)

/-- The slice `results` of `Store.Search` after the sort. -/
def searchSorted (L : Stdlib) (records : List Record) (query : String)
    (opts : SearchOptions) : List Scored :=
  sliceStable searchLess (searchCandidates L (extractKeywords L query) opts records)

/-- The value of `limit` that `Store.Search` truncates to. -/
def searchLimit (opts : SearchOptions) : Int :=
  if opts.Limit ≤ 0 then 20 else opts.Limit

/-- The method `Store.Search`, given the result `loaded` of its call `s.LoadAll()`. -/
def Store.Search (L : Stdlib) (loaded : Except String (List Record)) (query : String)
    (opts : SearchOptions) : Except String (List Record) :=
  match loaded with
  | .error err => .error err
  | .ok records =>
    let results := searchSorted L records query opts
    let limit := searchLimit opts
    let results :=
      if (results.length : Int) > limit then results.take limit.toNat else results
    .ok (results.map (fun r => r.record))

/-! ## `internal/handoff/beads.go` -/

/-- The newline rune. -/
def newline : Char := Char.ofNat 0x0A

/-- The character class `[A-Za-z0-9]` of `beadIDPattern`. -/
def isAlnum (c : Char) : Bool :=
  ('A'.toNat ≤ c.toNat && c.toNat ≤ 'Z'.toNat) || ('a'.toNat ≤ c.toNat && c.toNat ≤ 'z'.toNat) ||
  ('0'.toNat ≤ c.toNat && c.toNat ≤ '9'.toNat)

/-- The character class `[A-Za-z0-9-]` of `beadIDPattern`. -/
def isAlnumDash (c : Char) : Bool :=
  isAlnum c || c = '-'

/-- The match of `beadIDPattern` that starts at the first rune, if there is one: the
longest run of `[A-Za-z0-9]`, then a hyphen, then a rune of `[A-Za-z0-9]`, then the
longest run of `[A-Za-z0-9-]`. A shorter first run is followed by a rune of the same
class, never by the hyphen, so the greedy choice is the only one that can match. -/
def matchHere (l : List Char) : Option (List Char) :=
  match l.takeWhile isAlnum, l.dropWhile isAlnum with
  | _ :: _, '-' :: b :: rest =>
    if isAlnum b then some (l.takeWhile isAlnum ++ '-' :: b :: rest.takeWhile isAlnumDash)
    else none
  | _, _ => none

/-- The leftmost match of `beadIDPattern` in a run of runes, if there is one. -/
def findMatch : List Char → Option (List Char)
  | [] => none
  | c :: rest =>
    match matchHere (c :: rest) with
    | some m => some m
    | none => findMatch rest

/-- The call `beadIDPattern.MatchString(s)`. -/
def beadIDPattern.MatchString (s : String) : Bool :=
  (findMatch s.data).isSome

/-- The call `beadIDPattern.FindString(s)`: the text of the leftmost match, or the
empty string when there is none. -/
def beadIDPattern.FindString (s : String) : String :=
  match findMatch s.data with
  | some m => String.mk m
  | none => ""

/-- The Go struct `handoff.Result`. -/
structure Result where
  BeadID : String
  Title : String
  Status : String
  deriving DecidableEq, Repr

/-- The arguments of one call of `Runner.Run`, the context apart. -/
structure Invocation where
  name : String
  args : List String
  dir : String
  deriving DecidableEq, Repr

/-- The interface `Runner`: the output and the error (`none` is nil) that `Run`
returns for a command name, its arguments and a directory. A nil runner stands for the
runner that executes the command, which is such a function too. -/
abbrev Runner := String → List String → String → String × Option String

/-- The runs of runes between the newlines: the call `strings.Split(s, "\n")`. -/
def splitNewline : List Char → List (List Char)
  | [] => [[]]
  | c :: rest =>
    if c = newline then [] :: splitNewline rest
    else
      match splitNewline rest with
      | [] => [[c]]
      | l :: ls => (c :: l) :: ls

/-- The function `parseBeadID`. -/
def parseBeadID (out : String) : String :=
  let clean := TrimSpace out
  if clean = "" then ""
  else
    let lines := splitNewline clean.data
    let last := TrimSpace (String.mk (lines.getLast?.getD []))
    if beadIDPattern.MatchString last then beadIDPattern.FindString last
    else if beadIDPattern.MatchString clean then beadIDPattern.FindString clean
    else ""

/-- The function `inferTargetSystem`. -/
def inferTargetSystem (caseType : String) : String :=
  if TrimSpace caseType = "rule_evolution" then "truthsayer"
  else if TrimSpace caseType = "gate_criteria" then "centurion"
  else if TrimSpace caseType = "priority_triage" then "athena"
  else if TrimSpace caseType = "dispute_resolution" then "athena"
  else "athena"

/-- The function `trimTo`. -/
def trimTo (s : String) (max : Int) : String :=
  let r := (TrimSpace s).data
  if (r.length : Int) ≤ max then String.mk r
  else if max ≤ 1 then ""
  else String.mk (r.take (max - 1).toNat) ++ "..."

/-- The function `defaultWorkspaceDir`; `athenaWorkspace` is the value of the
environment variable `ATHENA_WORKSPACE` (empty when it is not set), and the path
separator is the slash. -/
def defaultWorkspaceDir (athenaWorkspace : String) : String :=
  if TrimSpace athenaWorkspace ≠ "" then TrimSpace athenaWorkspace
  else "/home/chrote/athena/workspace"

/-- The function `CreateBeadForVerdict`: the result and the error (`none` is nil) that
it returns, and the calls that it makes to the runner, in order. -/
def CreateBeadForVerdict (L : Stdlib) (athenaWorkspace : String) (runner : Runner)
    (workspaceDir : String) (verdict : Senate.Verdict) :
    (Result × Option String) × List Invocation :=
  if !verdict.Binding || verdict.Verdict = DecisionDefer then
    (({ BeadID := "", Title := "", Status := "skipped" }, none), [])
  else
    let workspaceDir :=
      if workspaceDir = "" then defaultWorkspaceDir athenaWorkspace else workspaceDir
    let target := inferTargetSystem verdict.Type_
    let title := "[" ++ target ++ "] Senate " ++ verdict.CaseID ++ ": " ++
      trimTo verdict.Summary 80
    let description := TrimSpace ("Binding Senate verdict for case " ++ verdict.CaseID ++
      String.mk [newline, newline] ++ "Verdict: " ++ verdict.Verdict ++
      String.mk [newline] ++ "Reasoning: " ++ verdict.Reasoning ++
      String.mk [newline] ++ "Implementation: " ++ verdict.Implementation ++
      String.mk [newline])
    let args := ["create", "--title", title, "--priority", "2", "--description", description,
      "--silent"]
    let call : Invocation := { name := "bd", args := args, dir := workspaceDir }
    match runner "bd" args workspaceDir with
    | (out, some err) =>
      (({ BeadID := "", Title := "", Status := "" },
        some ("bd create failed: " ++ err ++ " (" ++ TrimSpace out ++ ")")), [call])
    | (out, none) =>
      let beadID := parseBeadID out
      if beadID = "" then
        (({ BeadID := "", Title := "", Status := "" },
          some ("unable to parse bead id from output " ++ L.quote (TrimSpace out))), [call])
      else (({ BeadID := beadID, Title := title, Status := "created" }, none), [call])

/-! ## `internal/precedent/store.go`: the log file -/

/-- The functions of `encoding/json` on a `Record`. -/
structure Json where
  /-- The call `json.Marshal(record)`; it returns no error on a value of this type. -/
  marshal : Record → String
  /-- The call `json.Unmarshal([]byte(line), &rec)` on a zero `rec`: the record that it
  decodes, or `none` when it returns an error. -/
  unmarshal : String → Option Record

/-- The errors that the operating system returns to the calls of `Store.Add`; `none`
when the call succeeds. -/
structure AddFaults where
  /-- The error of `os.MkdirAll`. -/
  mkdirAll : Option String
  /-- The error of `os.OpenFile`. -/
  openFile : Option String
  /-- The error of `f.Write`, with the number of runes of the line that reached the
  file before it. -/
  write : Option (Nat × String)

/-- The method `Store.Add`. The log file is `none` when it does not exist, and its
content otherwise; the result is the error (`none` is nil) and the log file that the
call leaves. -/
def Store.Add (L : Stdlib) (J : Json) (faults : AddFaults) (log : Option String)
    (record : Record) : Option String × Option String :=
  match record.Validate L with
  | some err => (some err, log)
  | none =>
    match faults.mkdirAll with
    | some err => (some err, log)
    | none =>
      let line := J.marshal record ++ String.mk [newline]
      match faults.openFile with
      | some err => (some err, log)
      | none =>
        match faults.write with
        | some (n, err) => (some err, some (log.getD "" ++ String.mk (line.data.take n)))
        | none => (none, some (log.getD "" ++ line))

/-- The constant `bufio.MaxScanTokenSize`, the size that the buffer of a
`bufio.Scanner` does not exceed. -/
def maxScanTokenSize : Nat := 64 * 1024

/-- The lines that `bufio.ScanLines` cuts, before it drops the carriage return at
their end: the runs of runes between the newlines, and the run after the last newline
when it is not empty. -/
def scanLines : List Char → List (List Char)
  | [] => []
  | c :: rest =>
    if c = newline then [] :: scanLines rest
    else
      match scanLines rest with
      | [] => [[c]]
      | l :: ls => (c :: l) :: ls

/-- The function `dropCR` of `bufio`. -/
def dropCR (l : List Char) : List Char :=
  if l.getLast? = some (Char.ofNat 0x0D) then l.dropLast else l

/-- The loop `for scanner.Scan()` of `Store.LoadAll` and the test of `scanner.Err()`
after it, on the lines that are left to read. A line of `maxScanTokenSize` bytes or
more fills the buffer of the scanner before its newline is read: `Scan` returns false
and `scanner.Err()` is `bufio.ErrTooLong`. -/
def loadLoop (L : Stdlib) (J : Json) (out : List Record) :
    List (List Char) → Except String (List Record)
  | [] => .ok out
  | raw :: rest =>
    if maxScanTokenSize ≤ (String.mk raw).utf8ByteSize then
      .error "bufio.Scanner: token too long"
    else
      let line := TrimSpace (String.mk (dropCR raw))
      if line = "" then loadLoop L J out rest
      else
        match J.unmarshal line with
        | none => loadLoop L J out rest
        | some rec =>
          match rec.Validate L with
          | some _ => loadLoop L J out rest
          | none => loadLoop L J (out ++ [rec]) rest

/-- The method `Store.LoadAll`. The log file is `none` when it does not exist, and its
content otherwise; `readErr` is the error that the operating system returns to
`os.Open`, for another reason than the absence of the file, or to a read of the file,
and `none` when it returns no such error. -/
def Store.LoadAll (L : Stdlib) (J : Json) (readErr : Option String) (log : Option String) :
    Except String (List Record) :=
  match readErr with
  | some err => .error err
  | none =>
    match log with
    | none => .ok []
    | some content => loadLoop L J [] (scanLines content.data)

/-! ## A reference instance of the standard library -/

/-- The number of days from 1970-01-01 to the given proleptic Gregorian date. -/
def daysFromCivil (y m d : Int) : Int :=
  let y := if m ≤ 2 then y - 1 else y
  let era := y / 400
  let yoe := y - era * 400
  let doy := (153 * (if m > 2 then m - 3 else m + 9) + 2) / 5 + d - 1
  let doe := yoe * 365 + yoe / 4 - yoe / 100 + doy
  era * 146097 + doe - 719468

/-- The proleptic Gregorian date (year, month, day) of a day number. -/
def civilFromDays (z : Int) : Int × Int × Int :=
  let z := z + 719468
  let era := z / 146097
  let doe := z - era * 146097
  let yoe := (doe - doe / 1460 + doe / 36524 - doe / 146096) / 365
  let doy := doe - (365 * yoe + yoe / 4 - yoe / 100)
  let mp := (5 * doy + 2) / 153
  let d := doy - (153 * mp + 2) / 5 + 1
  let m := if mp < 10 then mp + 3 else mp - 9
  let y := yoe + era * 400
  (if m ≤ 2 then y + 1 else y, m, d)

/-- The decimal digits of `n`, padded with zeros on the left to `width` digits. -/
def padNat (width : Nat) (n : Nat) : String :=
  let digits := toString n
  String.mk (List.replicate (width - digits.length) '0') ++ digits

/-- The value of a decimal digit. -/
def digitValue (c : Char) : Option Int :=
  if '0'.toNat ≤ c.toNat ∧ c.toNat ≤ '9'.toNat then some ((c.toNat - '0'.toNat : Nat) : Int)
  else none

/-- The value of a run of decimal digits. -/
def digitsValue (cs : List Char) : Option Int :=
  cs.foldl (fun acc c => do
    let a ← acc
    let v ← digitValue c
    pure (a * 10 + v)) (some 0)

/-- The number of days of month `m` of year `y`. -/
def daysIn (y m : Int) : Int :=
  if m = 2 then (if y % 4 = 0 ∧ (y % 100 ≠ 0 ∨ y % 400 = 0) then 29 else 28)
  else if m = 4 ∨ m = 6 ∨ m = 9 ∨ m = 11 then 30 else 31

/-- A parser for the timestamps of the form YYYY-MM-DDTHH:MM:SSZ, which are among
those that `time.Parse(time.RFC3339, s)` accepts. -/
def parseUTCSeconds (s : String) : Except String Time :=
  match s.data with
  | [y1, y2, y3, y4, '-', m1, m2, '-', d1, d2, 'T', h1, h2, ':', n1, n2, ':', s1, s2, 'Z'] =>
    match digitsValue [y1, y2, y3, y4], digitsValue [m1, m2], digitsValue [d1, d2],
      digitsValue [h1, h2], digitsValue [n1, n2], digitsValue [s1, s2] with
    | some y, some m, some d, some h, some n, some sec =>
      if 1 ≤ m ∧ m ≤ 12 ∧ 1 ≤ d ∧ d ≤ daysIn y m ∧ h ≤ 23 ∧ n ≤ 59 ∧ sec ≤ 59 then
        .ok ((((daysFromCivil y m d * 24 + h) * 60 + n) * 60 + sec) * 1000000000)
      else .error "parsing time: out of range"
    | _, _, _, _, _, _ => .error "parsing time: not a number"
  | _ => .error "parsing time: cannot parse"

/-- The year as `Format` prints it: at least four digits, after a minus sign when
it is negative. -/
def formatYear (y : Int) : String :=
  if y < 0 then "-" ++ padNat 4 (-y).toNat else padNat 4 y.toNat

/-- The UTC timestamp of an instant as `Format(time.RFC3339)` prints it: of the form
YYYY-MM-DDTHH:MM:SSZ for the years 0000 to 9999, and with a longer year field outside
of them. -/
def formatUTCSeconds (t : Time) : String :=
  let secs := t / 1000000000
  let days := secs / 86400
  let rem := secs % 86400
  let ymd := civilFromDays days
  formatYear ymd.1 ++ "-" ++ padNat 2 ymd.2.1.toNat ++ "-" ++ padNat 2 ymd.2.2.toNat ++ "T" ++
    padNat 2 (rem / 3600).toNat ++ ":" ++ padNat 2 (rem % 3600 / 60).toNat ++ ":" ++
    padNat 2 (rem % 60).toNat ++ "Z"

/-- The quoted form of a string of printable ASCII characters: between double quotes,
with a backslash before each double quote and each backslash. -/
def quoteASCII (s : String) : String :=
  String.mk ('"' :: (s.data.flatMap (fun c =>
    if c = '"' ∨ c = Char.ofNat 0x5C then [Char.ofNat 0x5C, c] else [c]) ++ ['"']))

/-- The UTC timestamp of an instant as `Format("20060102-150405")` prints it. -/
def formatStampUTC (t : Time) : String :=
  let secs := t / 1000000000
  let days := secs / 86400
  let rem := secs % 86400
  let ymd := civilFromDays days
  formatYear ymd.1 ++ padNat 2 ymd.2.1.toNat ++ padNat 2 ymd.2.2.toNat ++ "-" ++
    padNat 2 (rem / 3600).toNat ++ padNat 2 (rem % 3600 / 60).toNat ++ padNat 2 (rem % 60).toNat

/-- A reference instance: no case mapping above ASCII, UTC timestamps with whole
seconds, and quoting of printable ASCII. -/
def refStdlib : Stdlib :=
  { unicodeToLower := fun c => c,
    parseRFC3339 := parseUTCSeconds,
    formatRFC3339 := formatUTCSeconds,
    quote := quoteASCII,
    formatStamp := formatStampUTC }

/-! ## Sample inputs -/

/-- The case of Scenario A, with an identifier and a filing time added. -/
def scenarioA : Case :=
  { ID := "senate-001", Type_ := "rule_evolution",
    Summary := "Should we bypass the rollback safeguard to ship today?",
    Question := "Should we bypass the rollback safeguard to ship today?",
    Evidence := [], RequestedDecision := "", FiledAt := "2026-01-01T00:00:00Z", FiledBy := "" }

/-- The case of `TestDeliberateProducesBindingVerdictAndTranscript`, an instance of
Scenario B, with a fixed filing time. -/
def scenarioB : Case :=
  { ID := "senate-001", Type_ := "rule_evolution",
    Summary := "Amend silent fallback rule",
    Question := "Should we amend rule X to reduce false positives?",
    Evidence := ["47 false positives", "recent regressions"], RequestedDecision := "",
    FiledAt := "2026-01-01T00:00:00Z", FiledBy := "" }

/-- A valid case with two evidence entries whose question ends with the first word of
the risk token `without tests` and whose summary starts with its second word. -/
def splitToken : Case :=
  { ID := "senate-002", Type_ := "rule_evolution",
    Summary := "tests for the parser",
    Question := "Should we merge the parser change without",
    Evidence := ["47 false positives", "recent regressions"], RequestedDecision := "",
    FiledAt := "2026-01-01T00:00:00Z", FiledBy := "" }

/-- The instant 2026-01-01T00:00:00Z. -/
def sampleNow : Time := 1767225600000000000

/-- A position with the given agent and stance, the other fields empty. -/
def stanceOf (agent : String) (stance : Decision) : Position :=
  { zeroPosition with AgentID := agent, Stance := stance }

/-- The number of positions that hold a decision. -/
def votes (positions : List Position) (d : Decision) : Nat :=
  (positions.filter (fun p => decide (p.Stance = d))).length

/-- The four decisions, in the order of the slice literal of `majorityDecision`. -/
def fourDecisions : List Decision :=
  [DecisionApprove, DecisionReject, DecisionAmend, DecisionDefer]

/-- The two highest of the four stance counts are equal: two different decisions
hold the same count and no decision holds a higher one. -/
def TopTwoEqual (counts : Counts) : Prop :=
  ∃ x ∈ fourDecisions, ∃ y ∈ fourDecisions,
    x ≠ y ∧ counts x = counts y ∧ ∀ z ∈ fourDecisions, counts z ≤ counts x

instance (counts : Counts) : Decidable (TopTwoEqual counts) := by
  unfold TopTwoEqual
  infer_instance

/-- The decision `x` holds a count strictly greater than each of the other three. -/
def StrictTop (counts : Counts) (x : Decision) : Prop :=
  x ∈ fourDecisions ∧ ∀ y ∈ fourDecisions, y ≠ x → counts y < counts x

instance (counts : Counts) (x : Decision) : Decidable (StrictTop counts x) := by
  unfold StrictTop
  infer_instance

/-! ## Sample records -/

/-- The record of `TestAddAndSearch`, with a fixed verdict time. -/
def sampleRecord : Record :=
  { CaseID := "senate-1", Type_ := "rule_evolution", Summary := "Amend silent fallback",
    Verdict := DecisionAmend, Reasoning := "47 false positives in cleanup handlers",
    Implementation := "exclude trap cleanup context", Dissent := "", Binding := true,
    VerdictAt := "2026-01-01T00:00:00Z", Judge := "claude:opus", BeadID := "",
    Keywords := [] }

/-- A later record. -/
def laterRecord : Record :=
  { sampleRecord with CaseID := "senate-2", VerdictAt := "2026-01-02T00:00:00Z" }

/-- A record later than both, whose texts hold one keyword less. -/
def latestRecord : Record :=
  { sampleRecord with
    CaseID := "senate-3", Implementation := "exclude cleanup context",
    VerdictAt := "2026-01-03T00:00:00Z" }

/-! ## Definitions used to state the properties of the verdict texts -/

/-- The runes of `strings.TrimSpace`. -/
def trimChars (l : List Char) : List Char :=
  ((l.dropWhile isSpace).reverse.dropWhile isSpace).reverse

/-- A run of runes that neither starts nor ends with white space. -/
def Trimmed (l : List Char) : Prop :=
  (∀ c, l.head? = some c → isSpace c = false) ∧ (∀ c, l.getLast? = some c → isSpace c = false)

/-- The elements of a list that are not in `seen`, each once, in the order of their
first occurrence. -/
def distinctFrom (seen : List String) : List String → List String
  | [] => []
  | x :: xs => if x ∈ seen then distinctFrom seen xs else x :: distinctFrom (seen ++ [x]) xs

/-- The first `n` distinct strings of a list, in the order of their first occurrence. -/
def firstDistinct (n : Nat) (items : List String) : List String :=
  (distinctFrom [] items).take n

/-- The trimmed, non-blank reasoning strings of the positions whose stance is `decision`. -/
def alignedReasons (final : List Position) (decision : Decision) : List String :=
  ((final.filter (fun p => decide (p.Stance = decision))).map
    (fun p => TrimSpace p.Reasoning)).filter (fun s => decide (s ≠ ""))

/-- The trimmed strings `<agent-id>: <reasoning>` of the positions whose stance is not
`decision`. -/
def dissentStrings (final : List Position) (decision : Decision) : List String :=
  (final.filter (fun p => decide (p.Stance ≠ decision))).map
    (fun p => TrimSpace (p.AgentID ++ ": " ++ p.Reasoning))

/-- A position with the given agent, stance and reasoning, the other fields empty. -/
def reasoned (agent : String) (stance : Decision) (reasoning : String) : Position :=
  { zeroPosition with AgentID := agent, Stance := stance, Reasoning := reasoning }

/-! ## Definitions used to state the validity of verdicts -/

/-- The instant `t` is one that RFC 3339 can represent: its timestamp is not blank and
parses back. For the library these are the instants of the years 0000 to 9999. -/
def Representable (L : Stdlib) (t : Time) : Prop :=
  TrimSpace (L.formatRFC3339 t) ≠ "" ∧ ∃ u, L.parseRFC3339 (L.formatRFC3339 t) = .ok u

instance (L : Stdlib) (t : Time) : Decidable (Representable L t) :=
  if h : TrimSpace (L.formatRFC3339 t) ≠ "" then
    match hp : L.parseRFC3339 (L.formatRFC3339 t) with
    | .ok u => isTrue ⟨h, u, hp⟩
    | .error _ => isFalse (fun ⟨_, u, hu⟩ => by rw [hp] at hu; cases hu)
  else isFalse (fun ⟨h2, _⟩ => h h2)

/-- The instant 9999-12-31T23:59:00Z. -/
def lastMinute : Time := 253402300740 * 1000000000

/-! ## Definitions used to state the properties of the panel -/

/-- The perspective names of the catalog, from the words of the specification: the
supplied names, trimmed, without the blank ones, or the five built-in archetypes when
no name is left. -/
def catalogNames (names : List String) : List String :=
  if (names.map TrimSpace).filter (fun s => decide (s ≠ "")) = [] then
    ["pragmatist", "purist", "skeptic", "steward", "advocate"]
  else (names.map TrimSpace).filter (fun s => decide (s ≠ ""))

/-! ## Definitions used to state the properties of the keywords -/

/-- A token survives the filters of `extractKeywords`: it has at least 3 bytes and is
not a stopword. -/
def survives (p : String) : Bool :=
  decide (3 ≤ p.utf8ByteSize) && decide (p ∉ stopWords)

/-- The tokens of a text: the fields of the lower-cased text in which the replaced
punctuation has become a space. -/
def tokens (L : Stdlib) (text : String) : List String :=
  Fields (replacePunctuation (ToLower L text))

/-! ## Sample cases -/

/-- The case of `TestCaseNormalizeAndValidate`: a question and nothing else. -/
def questionOnly : Case :=
  { ID := "", Type_ := "", Summary := "", Question := "Should we amend rule X?",
    Evidence := [], RequestedDecision := "", FiledAt := "", FiledBy := "" }

/-- The instant 2026-02-20T10:11:12Z of `TestCaseNormalizeAndValidate`. -/
def testNow : Time := 1771582272 * 1000000000

/-- The instant 10000-01-01T00:00:00Z. -/
def yearTenThousand : Time := 253402300800 * 1000000000

/-- The case of `TestCaseValidateRejectsEmptyEvidence`, with a fixed filing time. -/
def blankEvidence : Case :=
  { ID := "senate-1", Type_ := "rule_evolution", Summary := "summary", Question := "question",
    Evidence := ["ok", ""], RequestedDecision := "", FiledAt := "2026-01-01T00:00:00Z",
    FiledBy := "" }

/-- A verdict with a handoff. -/
def handedOff : Senate.Verdict :=
  { CaseID := "senate-1", FiledAt := "2026-01-01T00:00:00Z", VerdictAt := "2026-01-01T00:02:00Z",
    Type_ := "rule_evolution", Summary := "Amend silent fallback",
    Verdict := DecisionAmend, Reasoning := "47 false positives in cleanup handlers",
    Implementation := "exclude trap cleanup context", Dissent := "", Binding := true,
    Judge := "claude:opus", FinalPositions := [],
    Handoff := some ⟨"beads", "athena-xyz", "created", "2026-01-01T00:03:00Z"⟩ }

/-! ## Definitions used to state the properties of the handoff -/

/-- A run of runes of the form: one or more of `[A-Za-z0-9]`, a hyphen, one of
`[A-Za-z0-9]`, then any number of `[A-Za-z0-9-]`. -/
def MatchesPattern (w : List Char) : Prop :=
  ∃ a b c, w = a ++ '-' :: b :: c ∧ a ≠ [] ∧ (∀ x ∈ a, isAlnum x = true) ∧
    isAlnum b = true ∧ ∀ x ∈ c, isAlnumDash x = true

/-- A run of runes holds a contiguous block of that form. -/
def HasMatch (l : List Char) : Prop :=
  ∃ pre w post, l = pre ++ w ++ post ∧ MatchesPattern w

/-- A line is not blank: it holds a rune that is not white space. -/
def nonBlank (line : List Char) : Bool :=
  decide (trimChars line ≠ [])

/-- The last line of a text that is not blank, or the empty string when every line is
blank. -/
def lastNonBlankLine (out : String) : String :=
  String.mk (((splitNewline out.data).filter nonBlank).getLast?.getD [])

/-- The verdict of `TestCreateBeadForVerdictCreated`, with fixed timestamps. -/
def bindingVerdict : Senate.Verdict :=
  { CaseID := "senate-9", FiledAt := "2026-01-01T00:00:00Z", VerdictAt := "2026-01-01T00:02:00Z",
    Type_ := "rule_evolution", Summary := "Amend silent fallback", Verdict := DecisionAmend,
    Reasoning := "Reasoning", Implementation := "Implementation", Dissent := "", Binding := true,
    Judge := "claude:opus", FinalPositions := [], Handoff := none }

/-- The verdict of `TestCreateBeadForVerdictSkipDefer`: deferred, every other field zero. -/
def deferredVerdict : Senate.Verdict :=
  { CaseID := "", FiledAt := "", VerdictAt := "", Type_ := "", Summary := "",
    Verdict := DecisionDefer, Reasoning := "", Implementation := "", Dissent := "",
    Binding := false, Judge := "", FinalPositions := [], Handoff := none }

/-- A runner that returns the same output and no error for every command. -/
def fakeRunner (out : String) : Runner :=
  fun _ _ _ => (out, none)

/-! ## A reference instance of the JSON functions, and sample logs -/

/-- The backslash. -/
def backslash : Char := Char.ofNat 0x5C

/-- The rune U+FFFD, which stands for what is not a rune. -/
def replacementRune : Char := Char.ofNat 0xFFFD

/-- The digit of a number below 16 in the table `hex` of `encoding/json`. -/
def hexDigit (n : Nat) : Char :=
  if n < 10 then Char.ofNat (48 + n) else Char.ofNat (87 + n)

/-- The runes that `json.Marshal` writes for one rune of a string: a backslash before
the double quote and the backslash, the short forms of the backspace, the form feed,
the newline, the carriage return and the tab (the backspace and the form feed have
their short forms as of Go 1.22, and the form with four digits before), the form with
four digits for the other runes below the space, for the angle brackets and the
ampersand, and for the line and paragraph separators, and the rune itself otherwise. -/
def escapeRune (c : Char) : List Char :=
  if c = '"' ∨ c = backslash then [backslash, c]
  else if c = Char.ofNat 0x08 then [backslash, 'b']
  else if c = Char.ofNat 0x0C then [backslash, 'f']
  else if c = Char.ofNat 0x0A then [backslash, 'n']
  else if c = Char.ofNat 0x0D then [backslash, 'r']
  else if c = Char.ofNat 0x09 then [backslash, 't']
  else if c.toNat < 0x20 ∨ c = '<' ∨ c = '>' ∨ c = '&' then
    [backslash, 'u', '0', '0', hexDigit (c.toNat / 16), hexDigit (c.toNat % 16)]
  else if c = Char.ofNat 0x2028 ∨ c = Char.ofNat 0x2029 then
    [backslash, 'u', '2', '0', '2', hexDigit (c.toNat % 16)]
  else [c]

/-- The JSON text that `json.Marshal` writes for a string. -/
def jsonString (s : String) : String :=
  String.mk ('"' :: (s.data.flatMap escapeRune ++ ['"']))

/-- The JSON text that `json.Marshal` writes for a slice of strings that is not empty. -/
def jsonStrings (l : List String) : String :=
  "[" ++ ",".intercalate (l.map jsonString) ++ "]"

/-- The line that `json.Marshal` writes for a record: the fields in the order of the
struct, under the names of their tags, without the empty `dissent`, `bead_id` and
`keywords`. -/
def encodeRecord (r : Record) : String :=
  "\x7b" ++ "\"case_id\":" ++ jsonString r.CaseID ++ ",\"type\":" ++ jsonString r.Type_ ++
    ",\"summary\":" ++ jsonString r.Summary ++ ",\"verdict\":" ++ jsonString r.Verdict ++
    ",\"reasoning\":" ++ jsonString r.Reasoning ++
    ",\"implementation\":" ++ jsonString r.Implementation ++
    (if r.Dissent = "" then "" else ",\"dissent\":" ++ jsonString r.Dissent) ++
    ",\"binding\":" ++ (if r.Binding then "true" else "false") ++
    ",\"verdict_at\":" ++ jsonString r.VerdictAt ++ ",\"judge\":" ++ jsonString r.Judge ++
    (if r.BeadID = "" then "" else ",\"bead_id\":" ++ jsonString r.BeadID) ++
    (if r.Keywords = [] then "" else ",\"keywords\":" ++ jsonStrings r.Keywords) ++ "\x7d"

/-- The tokens of a JSON text. A number has no field of a record to go to, so that
its digits are not kept. -/
inductive JToken where
  | lbrace
  | rbrace
  | lbrack
  | rbrack
  | colon
  | comma
  | str (s : String)
  | num
  | tru
  | fal
  | nul
  deriving DecidableEq, Repr

/-- A part of a JSON string: a rune, written as it is or with a short escape, or the
number of an escape with four digits. -/
inductive StrPart where
  | rune (c : Char)
  | unit (n : Nat)
  deriving DecidableEq, Repr

/-- The runes of the parts of a JSON string, as the function `unquote` of
`encoding/json` decodes them: two escapes with four digits next to each other that
are a high and a low surrogate are one rune, every other surrogate is U+FFFD. The first
argument is the high surrogate that waits for its low surrogate. -/
def unquoteParts : Option Nat → List StrPart → List Char
  | none, [] => []
  | some _, [] => [replacementRune]
  | none, .rune c :: rest => c :: unquoteParts none rest
  | some _, .rune c :: rest => replacementRune :: c :: unquoteParts none rest
  | none, .unit n :: rest =>
    if 0xD800 ≤ n ∧ n < 0xDC00 then unquoteParts (some n) rest
    else if 0xDC00 ≤ n ∧ n < 0xE000 then replacementRune :: unquoteParts none rest
    else Char.ofNat n :: unquoteParts none rest
  | some h, .unit n :: rest =>
    if 0xDC00 ≤ n ∧ n < 0xE000 then
      Char.ofNat (0x10000 + (h - 0xD800) * 0x400 + (n - 0xDC00)) :: unquoteParts none rest
    else if 0xD800 ≤ n ∧ n < 0xDC00 then replacementRune :: unquoteParts (some n) rest
    else replacementRune :: Char.ofNat n :: unquoteParts none rest

/-- The states of the scanner of `encoding/json` inside a number. -/
inductive NumState where
  | neg
  | zero
  | int
  | dot
  | frac
  | exp
  | expSign
  | expDigits
  deriving DecidableEq, Repr

/-- The states of the scanner between and inside the tokens: between two tokens, in
a string, behind a backslash, in the digits of an escape (with the number of digits to
come and the number read so far), in a literal name (with the runes to come) and in a
number. -/
inductive LexState where
  | idle
  | str (acc : List StrPart)
  | esc (acc : List StrPart)
  | hex (acc : List StrPart) (left : Nat) (code : Nat)
  | lit (rest : List Char) (tok : JToken)
  | num (s : NumState)
  deriving Repr

/-- The value of a hexadecimal digit. -/
def hexVal (c : Char) : Option Nat :=
  if '0'.toNat ≤ c.toNat ∧ c.toNat ≤ '9'.toNat then some (c.toNat - '0'.toNat)
  else if 'a'.toNat ≤ c.toNat ∧ c.toNat ≤ 'f'.toNat then some (c.toNat - 'a'.toNat + 10)
  else if 'A'.toNat ≤ c.toNat ∧ c.toNat ≤ 'F'.toNat then some (c.toNat - 'A'.toNat + 10)
  else none

/-- Whether a rune is a decimal digit. -/
def isDigit (c : Char) : Bool :=
  decide ('0'.toNat ≤ c.toNat ∧ c.toNat ≤ '9'.toNat)

/-- The step of the scanner between two tokens: JSON white space is skipped, a
bracket, a colon or a comma is a token, and a double quote, a minus sign, a digit and
the letters `t`, `f` and `n` start one. -/
def idleStep (c : Char) : Option (LexState × List JToken) :=
  if c = ' ' ∨ c = Char.ofNat 0x09 ∨ c = Char.ofNat 0x0D ∨ c = Char.ofNat 0x0A then
    some (.idle, [])
  else if c = Char.ofNat 0x7B then some (.idle, [.lbrace])
  else if c = Char.ofNat 0x7D then some (.idle, [.rbrace])
  else if c = '[' then some (.idle, [.lbrack])
  else if c = ']' then some (.idle, [.rbrack])
  else if c = ':' then some (.idle, [.colon])
  else if c = ',' then some (.idle, [.comma])
  else if c = '"' then some (.str [], [])
  else if c = '-' then some (.num .neg, [])
  else if c = '0' then some (.num .zero, [])
  else if isDigit c then some (.num .int, [])
  else if c = 't' then some (.lit ['r', 'u', 'e'] .tru, [])
  else if c = 'f' then some (.lit ['a', 'l', 's', 'e'] .fal, [])
  else if c = 'n' then some (.lit ['u', 'l', 'l'] .nul, [])
  else none

/-- The step of the scanner inside a number: the next state, `some none` when the
number has ended before the rune, and `none` when the rune makes the text malformed. -/
def numStep (s : NumState) (c : Char) : Option (Option NumState) :=
  match s with
  | .neg => if c = '0' then some (some .zero) else if isDigit c then some (some .int) else none
  | .zero =>
    if c = '.' then some (some .dot) else if c = 'e' ∨ c = 'E' then some (some .exp)
    else some none
  | .int =>
    if isDigit c then some (some .int) else if c = '.' then some (some .dot)
    else if c = 'e' ∨ c = 'E' then some (some .exp) else some none
  | .dot => if isDigit c then some (some .frac) else none
  | .frac =>
    if isDigit c then some (some .frac) else if c = 'e' ∨ c = 'E' then some (some .exp)
    else some none
  | .exp =>
    if c = '+' ∨ c = '-' then some (some .expSign)
    else if isDigit c then some (some .expDigits) else none
  | .expSign => if isDigit c then some (some .expDigits) else none
  | .expDigits => if isDigit c then some (some .expDigits) else some none

/-- The step of the scanner: the next state and the tokens that the rune completes,
`none` when the rune makes the text malformed. A rune below the space is not allowed in
a string. -/
def lexStep (st : LexState) (c : Char) : Option (LexState × List JToken) :=
  match st with
  | .idle => idleStep c
  | .str acc =>
    if c = '"' then some (.idle, [.str (String.mk (unquoteParts none acc))])
    else if c = backslash then some (.esc acc, [])
    else if c.toNat < 0x20 then none
    else some (.str (acc ++ [.rune c]), [])
  | .esc acc =>
    if c = '"' ∨ c = backslash ∨ c = '/' then some (.str (acc ++ [.rune c]), [])
    else if c = 'b' then some (.str (acc ++ [.rune (Char.ofNat 0x08)]), [])
    else if c = 'f' then some (.str (acc ++ [.rune (Char.ofNat 0x0C)]), [])
    else if c = 'n' then some (.str (acc ++ [.rune (Char.ofNat 0x0A)]), [])
    else if c = 'r' then some (.str (acc ++ [.rune (Char.ofNat 0x0D)]), [])
    else if c = 't' then some (.str (acc ++ [.rune (Char.ofNat 0x09)]), [])
    else if c = 'u' then some (.hex acc 3 0, [])
    else none
  | .hex acc left code =>
    match hexVal c with
    | none => none
    | some d =>
      match left with
      | 0 => some (.str (acc ++ [.unit (code * 16 + d)]), [])
      | k + 1 => some (.hex acc k (code * 16 + d), [])
  | .lit [] _ => none
  | .lit (d :: rest) tok =>
    if c = d then
      match rest with
      | [] => some (.idle, [tok])
      | _ :: _ => some (.lit rest tok, [])
    else none
  | .num s =>
    match numStep s c with
    | none => none
    | some (some s2) => some (.num s2, [])
    | some none =>
      match idleStep c with
      | none => none
      | some (st2, out) => some (st2, .num :: out)

/-- The tokens that the end of the text completes: the text may end between two
tokens and behind a number. -/
def lexEnd : LexState → Option (List JToken)
  | .idle => some []
  | .num .zero => some [.num]
  | .num .int => some [.num]
  | .num .frac => some [.num]
  | .num .expDigits => some [.num]
  | _ => none

/-- The steps of the scanner over a run of runes: the state behind them and the
tokens read, behind the tokens `out` read before; `none` when the text is malformed in
its tokens. -/
def lexSteps (st : LexState) (out : List JToken) : List Char → Option (LexState × List JToken)
  | [] => some (st, out)
  | c :: rest =>
    match lexStep st c with
    | none => none
    | some (st2, toks) => lexSteps st2 (out ++ toks) rest

/-- The tokens of a JSON text, `none` when it is malformed in its tokens. -/
def lexRun (l : List Char) : Option (List JToken) :=
  match lexSteps .idle [] l with
  | none => none
  | some (st, out) =>
    match lexEnd st with
    | none => none
    | some toks => some (out ++ toks)

/-- The record whose fields are all zero. -/
def zeroRecord : Record :=
  { CaseID := "", Type_ := "", Summary := "", Verdict := "", Reasoning := "",
    Implementation := "", Dissent := "", Binding := false, VerdictAt := "", Judge := "",
    BeadID := "", Keywords := [] }

/-- The fields of the struct `Record`. -/
inductive Field where
  | caseID
  | type_
  | summary
  | verdict
  | reasoning
  | implementation
  | dissent
  | binding
  | verdictAt
  | judge
  | beadID
  | keywords
  deriving DecidableEq, Repr

/-- The folding of a rune of a key: `encoding/json` matches the keys of an object with
the names of the fields without regard to case, under which the long s and the Kelvin
sign are forms of the letters s and k. -/
def foldKeyRune (c : Char) : Char :=
  if 'a'.toNat ≤ c.toNat ∧ c.toNat ≤ 'z'.toNat then Char.ofNat (c.toNat - 32)
  else if c = Char.ofNat 0x017F then 'S'
  else if c = Char.ofNat 0x212A then 'K'
  else c

/-- The field that a key of an object goes to, by the tags of the struct `Record`;
`none` for a key that the decoder ignores. -/
def fieldOf (key : String) : Option Field :=
  let k := String.mk (key.data.map foldKeyRune)
  if k = "CASE_ID" then some .caseID
  else if k = "TYPE" then some .type_
  else if k = "SUMMARY" then some .summary
  else if k = "VERDICT" then some .verdict
  else if k = "REASONING" then some .reasoning
  else if k = "IMPLEMENTATION" then some .implementation
  else if k = "DISSENT" then some .dissent
  else if k = "BINDING" then some .binding
  else if k = "VERDICT_AT" then some .verdictAt
  else if k = "JUDGE" then some .judge
  else if k = "BEAD_ID" then some .beadID
  else if k = "KEYWORDS" then some .keywords
  else none

/-- The place of the decoder inside a value that it skips, the value of a key that
is no field: before a value, before a key, before a colon, and behind a value. The
flag tells whether the bracket that closes an empty array or object may come. -/
inductive SkipState where
  | value (allowClose : Bool)
  | key (allowClose : Bool)
  | colon
  | after
  deriving DecidableEq, Repr

/-- The place of the decoder in the text of a record: before the text, before a key,
before the colon and before the value of a field (`none` for a key that is no field),
before and behind an element of the array of keywords (with the elements read so far
and the slice that the field held), inside a value that is skipped (with the open
arrays and objects, `true` for an object), behind a member, and behind the text. -/
inductive Mode where
  | start
  | key (allowClose : Bool)
  | colon (f : Option Field)
  | value (f : Option Field)
  | elem (allowClose : Bool) (acc old : List String)
  | elemAfter (acc old : List String)
  | skip (stack : List Bool) (s : SkipState)
  | next
  | done
  deriving DecidableEq, Repr

/-- The record with a JSON string stored in a field; `none` for a field that is no
string, to which `json.Unmarshal` reports an error of type. -/
def storeString (rec : Record) (f : Field) (s : String) : Option Record :=
  match f with
  | .caseID => some { rec with CaseID := s }
  | .type_ => some { rec with Type_ := s }
  | .summary => some { rec with Summary := s }
  | .verdict => some { rec with Verdict := s }
  | .reasoning => some { rec with Reasoning := s }
  | .implementation => some { rec with Implementation := s }
  | .dissent => some { rec with Dissent := s }
  | .verdictAt => some { rec with VerdictAt := s }
  | .judge => some { rec with Judge := s }
  | .beadID => some { rec with BeadID := s }
  | .binding => none
  | .keywords => none

/-- The step of the decoder at the value of a field: a string goes to a field that is
a string, `true` and `false` go to `binding`, an array starts the keywords, and `null`
leaves a string and `binding` as they are and sets the keywords to nil; every other
value is an error of type, which makes `json.Unmarshal` return an error. -/
def storeValue (rec : Record) (f : Field) (tok : JToken) : Option (Record × Mode) :=
  match tok with
  | .str s => (storeString rec f s).map (fun r => (r, Mode.next))
  | .tru => if f = .binding then some ({ rec with Binding := true }, .next) else none
  | .fal => if f = .binding then some ({ rec with Binding := false }, .next) else none
  | .nul => if f = .keywords then some ({ rec with Keywords := [] }, .next) else some (rec, .next)
  | .lbrack => if f = .keywords then some (rec, .elem true [] rec.Keywords) else none
  | _ => none

/-- The state behind the bracket that closes an array or object that is skipped. -/
def skipClose (stack : List Bool) : Mode :=
  match stack with
  | [] => .next
  | _ :: _ => .skip stack .after

/-- The constant `maxNestingDepth` of the scanner of `encoding/json`: the number of
arrays and objects that may be open at a time. -/
def maxNestingDepth : Nat := 10000

/-- The state behind the bracket that opens an array or object inside a value that is
skipped, with the object of the record and the arrays and objects `stack` open before
it; `none` when this is deeper than `maxNestingDepth`. -/
def skipOpen (stack : List Bool) (isObject : Bool) : Option Mode :=
  if stack.length + 2 ≤ maxNestingDepth then
    some (.skip (isObject :: stack) (if isObject = true then .key true else .value true))
  else none

/-- The step of the decoder inside a value that is skipped; `none` when the token
makes the text malformed. -/
def skipStep (top : Bool) (stack : List Bool) (s : SkipState) (tok : JToken) : Option Mode :=
  match s, tok with
  | .value _, .str _ => some (.skip (top :: stack) .after)
  | .value _, .num => some (.skip (top :: stack) .after)
  | .value _, .tru => some (.skip (top :: stack) .after)
  | .value _, .fal => some (.skip (top :: stack) .after)
  | .value _, .nul => some (.skip (top :: stack) .after)
  | .value _, .lbrace => skipOpen (top :: stack) true
  | .value _, .lbrack => skipOpen (top :: stack) false
  | .value true, .rbrack => if top = false then some (skipClose stack) else none
  | .key _, .str _ => some (.skip (top :: stack) .colon)
  | .key true, .rbrace => if top = true then some (skipClose stack) else none
  | .colon, .colon => some (.skip (top :: stack) (.value false))
  | .after, .comma =>
    if top = true then some (.skip (top :: stack) (.key false))
    else some (.skip (top :: stack) (.value false))
  | .after, .rbrace => if top = true then some (skipClose stack) else none
  | .after, .rbrack => if top = false then some (skipClose stack) else none
  | _, _ => none

/-- The step of the decoder of `json.Unmarshal` into a `Record`, on the next token;
`none` when `json.Unmarshal` returns an error, because the text is malformed or
because a value is not of the type of its field. A later member of the same key
replaces an earlier one. A `null` among the keywords leaves the element that the slice
has at its index; the slice of the model has the empty string beyond its length. -/
def decStep (rec : Record) (mode : Mode) (tok : JToken) : Option (Record × Mode) :=
  match mode, tok with
  | .start, .lbrace => some (rec, .key true)
  | .start, .nul => some (rec, .done)
  | .key _, .str k => some (rec, .colon (fieldOf k))
  | .key true, .rbrace => some (rec, .done)
  | .colon f, .colon => some (rec, .value f)
  | .value (some f), t => storeValue rec f t
  | .value none, .str _ => some (rec, .next)
  | .value none, .num => some (rec, .next)
  | .value none, .tru => some (rec, .next)
  | .value none, .fal => some (rec, .next)
  | .value none, .nul => some (rec, .next)
  | .value none, .lbrace => some (rec, .skip [true] (.key true))
  | .value none, .lbrack => some (rec, .skip [false] (.value true))
  | .elem _ acc old, .str s => some (rec, .elemAfter (acc ++ [s]) old)
  | .elem _ acc old, .nul => some (rec, .elemAfter (acc ++ [old.getD acc.length ""]) old)
  | .elem true acc _, .rbrack => some ({ rec with Keywords := acc }, .next)
  | .elemAfter acc old, .comma => some (rec, .elem false acc old)
  | .elemAfter acc _, .rbrack => some ({ rec with Keywords := acc }, .next)
  | .skip (top :: stack) s, t => (skipStep top stack s t).map (fun m => (rec, m))
  | .next, .comma => some (rec, .key false)
  | .next, .rbrace => some (rec, .done)
  | _, _ => none

/-- The steps of the decoder over a run of tokens: the record and the place behind
them, `none` when `json.Unmarshal` returns an error. -/
def decSteps (rec : Record) (mode : Mode) : List JToken → Option (Record × Mode)
  | [] => some (rec, mode)
  | tok :: rest =>
    match decStep rec mode tok with
    | none => none
    | some (rec2, mode2) => decSteps rec2 mode2 rest

/-- The record that `json.Unmarshal` decodes a text into, from the record whose
fields are all zero; `none` when it returns an error: the text has to be one complete
JSON value, an object or `null`. -/
def decodeRecord (line : String) : Option Record :=
  match lexRun line.data with
  | none => none
  | some toks =>
    match decSteps zeroRecord .start toks with
    | some (rec, .done) => some rec
    | _ => none

/-- A reference instance: `json.Marshal` and `json.Unmarshal` for the struct `Record`,
on strings that are sequences of runes. -/
def refJson : Json :=
  { marshal := encodeRecord,
    unmarshal := decodeRecord }

/-- No error of the operating system. -/
def noFaults : AddFaults :=
  { mkdirAll := none, openFile := none, write := none }

/-- A line of 65536 letters. -/
def longLine : String :=
  String.mk (List.replicate 65536 'a')

/-- The log file that holds the line of the first sample record. -/
def sampleLog : Option String :=
  some (encodeRecord sampleRecord ++ String.mk [newline])

/-- The first sample record, with a blank case id. -/
def blankRecord : Record :=
  { sampleRecord with CaseID := "  " }

/-- Whether a run of runes is trimmed can be computed. -/
instance (l : List Char) : Decidable (Trimmed l) :=
  decidable_of_iff
    ((l.head?.all (fun c => !isSpace c)) = true ∧ (l.getLast?.all (fun c => !isSpace c)) = true)
    (by
      unfold Trimmed
      constructor
      · rintro ⟨h1, h2⟩
        constructor
        · intro c hc
          rw [hc] at h1
          simpa using h1
        · intro c hc
          rw [hc] at h2
          simpa using h2
      · rintro ⟨h1, h2⟩
        constructor
        · cases hh : l.head? with
          | none => rfl
          | some c => simpa using h1 c hh
        · cases hh : l.getLast? with
          | none => rfl
          | some c => simpa using h2 c hh)

/-! ## Sample positions -/

/-- Three initial positions: two rejected and one approved, so that the first pass of
`finalizePositions` amends the approved one. -/
def mixedPositions : List Position :=
  [ { AgentID := "agent-1", Model := "claude:sonnet", Perspective := "pragmatist",
      Round := "initial", Stance := DecisionApprove, Reasoning := "ship it",
      Concerns := "none" },
    { AgentID := "agent-2", Model := "claude:opus", Perspective := "purist",
      Round := "initial", Stance := DecisionReject, Reasoning := "too risky",
      Concerns := "safety" },
    { AgentID := "agent-3", Model := "claude:haiku", Perspective := "skeptic",
      Round := "initial", Stance := DecisionReject, Reasoning := "no evidence",
      Concerns := "data" } ]

/-! ## Sample verdicts -/

/-- A valid verdict whose summary holds stopwords only. -/
def keywordless : Senate.Verdict :=
  { handedOff with Summary := "The case" }

/-! ## Theorems -/

/-! ### The stable sort -/

/-- One pass of the insertion loop rearranges the sorted part and the new element. -/
theorem siftLeft_perm {α : Type} (less : α → α → Bool) (x : α) (l : List α) :
    (siftLeft less x l).Perm (x :: l) := by
  induction l with
  | nil => exact List.Perm.refl _
  | cons y rest ih =>
    unfold siftLeft
    split
    · exact (List.Perm.cons y ih).trans (List.Perm.swap x y rest)
    · exact List.Perm.refl _

/-- The outer loop of the insertion sort rearranges its input. -/
theorem foldl_siftLeft_perm {α : Type} (less : α → α → Bool) (s acc : List α) :
    (s.foldl (fun sortedRev x => siftLeft less x sortedRev) acc).Perm (s ++ acc) := by
  induction s generalizing acc with
  | nil => exact List.Perm.refl _
  | cons x s ih =>
    simp only [List.foldl_cons, List.cons_append]
    refine (ih _).trans ?_
    refine ((siftLeft_perm less x acc).append_left s).trans ?_
    exact List.perm_middle

/-- The result of `sliceStable` is a rearrangement of the slice. -/
theorem sliceStable_perm {α : Type} (less : α → α → Bool) (s : List α) :
    (sliceStable less s).Perm s := by
  unfold sliceStable
  refine (List.reverse_perm _).trans ?_
  simpa using foldl_siftLeft_perm less s []

/-- One pass of the insertion loop keeps the sorted part sorted. -/
theorem siftLeft_sorted {α : Type} (less : α → α → Bool)
    (hasymm : ∀ a b, less a b = true → less b a = false)
    (hntrans : ∀ a b c, less a b = false → less b c = false → less a c = false)
    (x : α) (l : List α) (hl : l.Pairwise (fun u v => less u v = false)) :
    (siftLeft less x l).Pairwise (fun u v => less u v = false) := by
  induction l with
  | nil => simp [siftLeft]
  | cons y rest ih =>
    have hy := (List.pairwise_cons.mp hl)
    unfold siftLeft
    split
    · rename_i hxy
      refine List.pairwise_cons.mpr ⟨?_, ih hy.2⟩
      intro v hv
      rcases (List.mem_cons.mp ((siftLeft_perm less x rest).mem_iff.mp hv)) with h | h
      · subst h; exact hasymm _ _ hxy
      · exact hy.1 v h
    · rename_i hxy
      have hxy2 : less x y = false := by simpa using hxy
      refine List.pairwise_cons.mpr ⟨?_, hl⟩
      intro v hv
      rcases List.mem_cons.mp hv with h | h
      · subst h; exact hxy2
      · exact hntrans _ _ _ hxy2 (hy.1 v h)

/-- In the result of `sliceStable` no element is `less` than an earlier one. -/
theorem sliceStable_sorted {α : Type} (less : α → α → Bool)
    (hasymm : ∀ a b, less a b = true → less b a = false)
    (hntrans : ∀ a b c, less a b = false → less b c = false → less a c = false)
    (s : List α) :
    (sliceStable less s).Pairwise (fun u v => less v u = false) := by
  unfold sliceStable
  rw [List.pairwise_reverse]
  suffices h : ∀ acc : List α, acc.Pairwise (fun u v => less u v = false) →
      (s.foldl (fun sortedRev x => siftLeft less x sortedRev) acc).Pairwise
        (fun u v => less u v = false) from h [] List.Pairwise.nil
  induction s with
  | nil => intro acc h; exact h
  | cons x s ih =>
    intro acc h
    exact ih _ (siftLeft_sorted less hasymm hntrans x acc h)

/-! ### Majority and tie-break -/

/-- The four decisions are pairwise different. -/
theorem fourDecisions_nodup : fourDecisions.Nodup := by decide

/-- The first two elements of the sorted slice `ordered`: two different decisions, the
first with a count that no decision exceeds, the second with a count that no decision
other than the first exceeds. -/
theorem orderedPairs_top (counts : Counts) :
    ∃ x y : Decision, ∃ rest : List Pair,
      x ∈ fourDecisions ∧ y ∈ fourDecisions ∧ x ≠ y ∧
      orderedPairs counts = ⟨x, counts x⟩ :: ⟨y, counts y⟩ :: rest ∧
      (∀ z ∈ fourDecisions, counts z ≤ counts x) ∧
      (∀ z ∈ fourDecisions, z ≠ x → counts z ≤ counts y) := by
  have hperm : (orderedPairs counts).Perm (fourDecisions.map (fun d => (⟨d, counts d⟩ : Pair))) :=
    sliceStable_perm _ _
  have hsorted : (orderedPairs counts).Pairwise
      (fun u v => decide (v.count > u.count) = false) :=
    sliceStable_sorted _ (by intro a b; simp; omega) (by intro a b c; simp; omega) _
  have hnodup : (orderedPairs counts).Nodup := by
    rw [hperm.nodup_iff]
    refine List.Nodup.map ?_ fourDecisions_nodup
    intro u v h
    exact congrArg Pair.decision h
  have hlen : (orderedPairs counts).length = 4 := by rw [hperm.length_eq]; rfl
  match hL : orderedPairs counts, hlen with
  | [p1, p2, p3, p4], _ =>
    rw [hL] at hperm hsorted hnodup
    simp only [List.pairwise_cons, List.mem_cons, List.mem_singleton, decide_eq_false_iff_not,
      gt_iff_lt, not_lt, forall_eq_or_imp, forall_eq] at hsorted
    simp only [List.nodup_cons, List.mem_cons, List.mem_singleton, not_or] at hnodup
    obtain ⟨x, hx, hp1⟩ := List.mem_map.mp (hperm.mem_iff.mp (List.mem_cons_self p1 _))
    obtain ⟨y, hy, hp2⟩ := List.mem_map.mp
      (hperm.mem_iff.mp (List.mem_cons_of_mem p1 (List.mem_cons_self p2 _)))
    have hc1 : p1.count = counts x := by rw [← hp1]
    have hc2 : p2.count = counts y := by rw [← hp2]
    have hxy : x ≠ y := by
      intro h
      apply hnodup.1.1
      rw [← hp1, ← hp2, h]
    refine ⟨x, y, [p3, p4], hx, hy, hxy, by rw [hp1, hp2], ?_, ?_⟩
    · intro z hz
      have hmem := hperm.mem_iff.mpr (List.mem_map.mpr ⟨z, hz, rfl⟩)
      simp only [List.mem_cons, List.mem_singleton, List.not_mem_nil, or_false] at hmem
      have h1 := hsorted.1.1
      have h2 := hsorted.1.2.1
      have h3 := hsorted.1.2.2.1
      rcases hmem with h | h | h | h <;>
        (have hcz : counts z = _ := congrArg Pair.count h
         omega)
    · intro z hz hzx
      have hmem := hperm.mem_iff.mpr (List.mem_map.mpr ⟨z, hz, rfl⟩)
      simp only [List.mem_cons, List.mem_singleton, List.not_mem_nil, or_false] at hmem
      have h2 := hsorted.2.1.1
      have h3 := hsorted.2.1.2.1
      rcases hmem with h | h | h | h
      · exact absurd (congrArg Pair.decision (h.trans hp1.symm)) hzx
      all_goals
        (have hcz : counts z = _ := congrArg Pair.count h
         omega)

/-- The result of `majorityDecision` in terms of the two leading decisions. -/
theorem majorityDecision_top (counts : Counts) :
    ∃ x y : Decision,
      x ∈ fourDecisions ∧ y ∈ fourDecisions ∧ x ≠ y ∧
      (∀ z ∈ fourDecisions, counts z ≤ counts x) ∧
      (∀ z ∈ fourDecisions, z ≠ x → counts z ≤ counts y) ∧
      majorityDecision counts =
        (if counts x = 0 then "" else if counts x = counts y then DecisionDefer else x) := by
  obtain ⟨x, y, rest, hx, hy, hxy, hL, hmax, hsnd⟩ := orderedPairs_top counts
  refine ⟨x, y, hx, hy, hxy, hmax, hsnd, ?_⟩
  unfold majorityDecision
  rw [hL]

/-- The loop of `countDecisions` adds to each key the number of positions holding it. -/
theorem countDecisions_foldl (positions : List Position) (init : Counts) (d : Decision) :
    positions.foldl (fun counts p => counts.incr p.Stance) init d
      = init d + ((positions.filter (fun p => decide (p.Stance = d))).length : Int) := by
  induction positions generalizing init with
  | nil => simp
  | cons p ps ih =>
    simp only [List.foldl_cons, ih, Counts.incr, List.filter_cons]
    by_cases h : p.Stance = d
    · simp [h]; omega
    · have h2 : ¬ d = p.Stance := fun e => h e.symm
      simp [h, h2]

/-- A tally is the number of positions holding each stance. -/
theorem countDecisions_eq (positions : List Position) (d : Decision) :
    countDecisions positions d
      = ((positions.filter (fun p => decide (p.Stance = d))).length : Int) := by
  unfold countDecisions
  rw [countDecisions_foldl]
  simp [zeroCounts]

/-- A tally has no negative count. -/
theorem countDecisions_nonneg (positions : List Position) (d : Decision) :
    0 ≤ countDecisions positions d := by
  rw [countDecisions_eq]
  exact Int.natCast_nonneg _

/-- The result of `majorityDecision` on counts that are not negative, by cases. -/
theorem majorityDecision_cases (counts : Counts) (hnn : ∀ z ∈ fourDecisions, 0 ≤ counts z) :
    ((∀ z ∈ fourDecisions, counts z = 0) ∧ majorityDecision counts = "") ∨
    ((∃ z ∈ fourDecisions, 0 < counts z) ∧ TopTwoEqual counts ∧
      majorityDecision counts = DecisionDefer) ∨
    (∃ x, StrictTop counts x ∧ majorityDecision counts = x) := by
  obtain ⟨x, y, hx, hy, hxy, hmax, hsnd, hres⟩ := majorityDecision_top counts
  by_cases h0 : counts x = 0
  · left
    refine ⟨fun z hz => ?_, by rw [hres, if_pos h0]⟩
    have h1 := hmax z hz
    have h2 := hnn z hz
    omega
  · rw [if_neg h0] at hres
    have hpos : 0 < counts x := by
      have := hnn x hx
      omega
    by_cases h1 : counts x = counts y
    · right; left
      rw [if_pos h1] at hres
      exact ⟨⟨x, hx, hpos⟩, ⟨x, hx, y, hy, hxy, h1, hmax⟩, hres⟩
    · right; right
      rw [if_neg h1] at hres
      refine ⟨x, ⟨hx, fun z hz hzx => ?_⟩, hres⟩
      have h2 := hsnd z hz hzx
      have h3 := hmax y hy
      omega

/-- At most one decision holds a count strictly above the other three. -/
theorem strictTop_unique (counts : Counts) (x y : Decision)
    (hx : StrictTop counts x) (hy : StrictTop counts y) : x = y := by
  by_contra hne
  have h1 := hx.2 y hy.1 (fun e => hne e.symm)
  have h2 := hy.2 x hx.1 hne
  omega

/-- When the two highest counts are equal, no decision is strictly on top. -/
theorem not_strictTop_of_topTwoEqual (counts : Counts) (x : Decision)
    (ht : TopTwoEqual counts) : ¬ StrictTop counts x := by
  obtain ⟨a, ha, b, hb, hab, heq, hmax⟩ := ht
  intro hx
  by_cases hxa : a = x
  · have := hx.2 b hb (fun e => hab (hxa.trans e.symm))
    have h2 := hmax b hb
    rw [hxa] at heq
    omega
  · have := hx.2 a ha hxa
    have h2 := hmax x hx.1
    omega

/-- Claim C1. On the tally of any position list, `majorityDecision` returns the empty
decision when all four counts are zero, `deferred` when the two largest counts are
equal and positive, and the decision whose count is strictly greater than each of the
other three when there is one; one of these three situations always holds. -/
theorem majorityDecision_countDecisions (positions : List Position) :
    ((∀ z ∈ fourDecisions, countDecisions positions z = 0) →
      majorityDecision (countDecisions positions) = "") ∧
    (TopTwoEqual (countDecisions positions) →
      (∃ z ∈ fourDecisions, 0 < countDecisions positions z) →
      majorityDecision (countDecisions positions) = DecisionDefer) ∧
    (∀ x, StrictTop (countDecisions positions) x →
      majorityDecision (countDecisions positions) = x) ∧
    ((∀ z ∈ fourDecisions, countDecisions positions z = 0) ∨
      (TopTwoEqual (countDecisions positions) ∧
        ∃ z ∈ fourDecisions, 0 < countDecisions positions z) ∨
      ∃ x, StrictTop (countDecisions positions) x) := by
  have hc := majorityDecision_cases (countDecisions positions)
    (fun z _ => countDecisions_nonneg positions z)
  refine ⟨?_, ?_, ?_, ?_⟩
  · intro hz
    rcases hc with h | h | ⟨x, hx, _⟩
    · exact h.2
    · obtain ⟨⟨z, hz1, hz2⟩, _⟩ := h
      have := hz z hz1
      omega
    · exfalso
      have h1 := hx.2
      have ha := hz DecisionApprove (by decide)
      have hr := hz DecisionReject (by decide)
      have hxz := hz x hx.1
      by_cases hxa : x = DecisionApprove
      · have := h1 DecisionReject (by decide) (by rw [hxa]; decide)
        omega
      · have := h1 DecisionApprove (by decide) (fun e => hxa e.symm)
        omega
  · intro ht hpos
    rcases hc with h | h | ⟨x, hx, _⟩
    · obtain ⟨z, hz1, hz2⟩ := hpos
      have := h.1 z hz1
      omega
    · exact h.2.2
    · exact absurd hx (not_strictTop_of_topTwoEqual _ x ht)
  · intro x hx
    rcases hc with h | h | ⟨y, hy, hres⟩
    · exfalso
      have h1 := hx.2
      have hxz := h.1 x hx.1
      by_cases hxa : x = DecisionApprove
      · have := h1 DecisionReject (by decide) (by rw [hxa]; decide)
        have := h.1 DecisionReject (by decide)
        omega
      · have := h1 DecisionApprove (by decide) (fun e => hxa e.symm)
        have := h.1 DecisionApprove (by decide)
        omega
    · exact absurd hx (not_strictTop_of_topTwoEqual _ x h.2.1)
    · rw [hres]
      exact strictTop_unique _ y x hy hx
  · rcases hc with h | h | ⟨x, hx, _⟩
    · exact Or.inl h.1
    · exact Or.inr (Or.inl ⟨h.2.1, h.1⟩)
    · exact Or.inr (Or.inr ⟨x, hx⟩)

/-- Claim C1, at the tally of `TestMajorityDecisionTieFallsBackToDefer` (one approved
vote, one rejected vote): the top two counts are equal and positive, so the result is
`deferred`. -/
theorem majorityDecision_countDecisions_witness :
    TopTwoEqual (countDecisions [stanceOf "agent-1" "approved", stanceOf "agent-2" "rejected"]) ∧
    (∃ z ∈ fourDecisions,
      0 < countDecisions [stanceOf "agent-1" "approved", stanceOf "agent-2" "rejected"] z) ∧
    majorityDecision
      (countDecisions [stanceOf "agent-1" "approved", stanceOf "agent-2" "rejected"])
      = DecisionDefer :=
  ⟨by decide, by decide,
    (majorityDecision_countDecisions
      [stanceOf "agent-1" "approved", stanceOf "agent-2" "rejected"]).2.1
      (by decide) (by decide)⟩

/-- Claim C2, refuted as stated: on the empty position list the two highest counts
are equal (all four are zero), and `majorityDecision` returns the empty decision, not
`deferred`. -/
theorem majorityDecision_empty_list_not_deferred :
    ¬ (TopTwoEqual (countDecisions []) →
        majorityDecision (countDecisions []) = DecisionDefer) := by
  decide

/-- Claim C2, amended. For every position list whose two highest stance counts are
equal, `majorityDecision` returns `deferred` when those counts are positive and the
empty decision when they are zero. -/
theorem majorityDecision_topTwoEqual (positions : List Position)
    (htie : TopTwoEqual (countDecisions positions)) :
    ((∃ z ∈ fourDecisions, 0 < countDecisions positions z) →
      majorityDecision (countDecisions positions) = DecisionDefer) ∧
    ((∀ z ∈ fourDecisions, countDecisions positions z = 0) →
      majorityDecision (countDecisions positions) = "") := by
  have hc := majorityDecision_cases (countDecisions positions)
    (fun z _ => countDecisions_nonneg positions z)
  rcases hc with h | h | ⟨x, hx, _⟩
  · refine ⟨fun hpos => ?_, fun _ => h.2⟩
    obtain ⟨z, hz1, hz2⟩ := hpos
    have := h.1 z hz1
    omega
  · refine ⟨fun _ => h.2.2, fun hz => ?_⟩
    obtain ⟨⟨z, hz1, hz2⟩, _⟩ := h
    have := hz z hz1
    omega
  · exact absurd hx (not_strictTop_of_topTwoEqual _ x htie)

/-- Claim C2, amended, at a list with one amended and one deferred position. -/
theorem majorityDecision_topTwoEqual_witness :
    TopTwoEqual (countDecisions
      [stanceOf "agent-1" "amended", stanceOf "agent-2" "deferred"]) ∧
    majorityDecision (countDecisions
      [stanceOf "agent-1" "amended", stanceOf "agent-2" "deferred"]) = DecisionDefer :=
  ⟨by decide,
    (majorityDecision_topTwoEqual
      [stanceOf "agent-1" "amended", stanceOf "agent-2" "deferred"] (by decide)).1
      (by decide)⟩

/-! ### The stance evaluator -/

/-- The loop of `tokenScore` adds one per token that occurs in the text. -/
theorem tokenScore_foldl (text : String) (tokens : List String) (init : Int) :
    tokens.foldl (fun score tok => if Contains text tok then score + 1 else score) init
      = init + ((tokens.filter (fun tok => Contains text tok)).length : Int) := by
  induction tokens generalizing init with
  | nil => simp
  | cons tok rest ih =>
    simp only [List.foldl_cons, ih, List.filter_cons]
    by_cases h : Contains text tok = true
    · simp [h]; omega
    · simp [h]

/-- The score of `tokenScore` is the number of tokens that occur in the lower-cased
text; a token that occurs several times is counted once. -/
theorem tokenScore_eq (L : Stdlib) (text : String) (tokens : List String) :
    tokenScore L text tokens
      = ((tokens.filter (fun tok => Contains (ToLower L text) tok)).length : Int) := by
  unfold tokenScore
  rw [tokenScore_foldl]
  simp

/-- Claim C3. The decision of `evaluateInitial` is the one of the table, where `risk`
and `urgency` count the tokens of the two fixed sets that occur in the lower-cased text
`question + " " + summary` and `evidenceWeight` is the number of evidence entries. -/
theorem evaluateInitial_decision (L : Stdlib) (c : Case) (p : Perspective) :
    let text := ToLower L (c.Question ++ " " ++ c.Summary)
    let risk := (["security", "unsafe", "drop", "delete", "disable", "bypass", "without tests",
      "rollback"].filter (fun tok => Contains text tok)).length
    let urgency := (["urgent", "blocker", "ship", "today", "immediately",
      "unblock"].filter (fun tok => Contains text tok)).length
    let evidenceWeight := c.Evidence.length
    (p.Name = "pragmatist" →
      (evaluateInitial L c p).1 =
        if risk ≥ 2 then DecisionReject
        else if urgency ≥ 1 ∨ evidenceWeight ≥ 2 then DecisionApprove
        else DecisionAmend) ∧
    (p.Name = "purist" →
      (evaluateInitial L c p).1 =
        if risk ≥ 1 then DecisionReject
        else if evidenceWeight = 0 then DecisionDefer
        else DecisionAmend) ∧
    (p.Name = "skeptic" →
      (evaluateInitial L c p).1 =
        if evidenceWeight = 0 then DecisionDefer
        else if risk ≥ 1 then DecisionReject
        else DecisionAmend) ∧
    (p.Name ≠ "pragmatist" → p.Name ≠ "purist" → p.Name ≠ "skeptic" →
      (evaluateInitial L c p).1 =
        if risk ≥ 2 then DecisionReject
        else if evidenceWeight ≥ 1 then DecisionAmend
        else DecisionDefer) := by
  intro text risk urgency evidenceWeight
  have hrisk : tokenScore L (c.Question ++ " " ++ c.Summary) riskTokens = (risk : Int) :=
    tokenScore_eq L _ _
  have hurg : tokenScore L (c.Question ++ " " ++ c.Summary) urgencyTokens = (urgency : Int) :=
    tokenScore_eq L _ _
  have e1 : ("purist" : String) ≠ "pragmatist" := by decide
  have e2 : ("skeptic" : String) ≠ "pragmatist" := by decide
  have e3 : ("skeptic" : String) ≠ "purist" := by decide
  refine ⟨fun h => ?_, fun h => ?_, fun h => ?_, fun h1 h2 h3 => ?_⟩
  · simp only [evaluateInitial, hrisk, hurg, h, if_true]
    split_ifs <;> first | rfl | omega
  · simp only [evaluateInitial, hrisk, hurg, h, e1, if_true, if_false]
    split_ifs <;> first | rfl | omega
  · simp only [evaluateInitial, hrisk, hurg, h, e2, e3, if_true, if_false]
    split_ifs <;> first | rfl | omega
  · simp only [evaluateInitial, hrisk, hurg, h1, h2, h3, if_false]
    split_ifs <;> first | rfl | omega

/-- Claim C3, at the pragmatist seat and the case of Scenario B (no risk token, no
urgency token, two evidence entries): the seat approves. -/
theorem evaluateInitial_decision_witness :
    (evaluateInitial refStdlib scenarioB
      { Name := "pragmatist", Model := "claude:sonnet", Directive := "" }).1
      = DecisionApprove :=
  ((evaluateInitial_decision refStdlib scenarioB
      { Name := "pragmatist", Model := "claude:sonnet", Directive := "" }).1 rfl).trans
    (by decide)

/-! ### Deliberation of the scenarios -/

/-- On a text of ASCII characters `strings.ToLower` does not consult the case tables. -/
theorem ToLower_ascii (L M : Stdlib) (s : String) (h : ∀ c ∈ s.data, c.toNat ≤ 0x7F) :
    ToLower L s = ToLower M s := by
  unfold ToLower
  congr 1
  apply List.map_congr_left
  intro c hc
  simp [toLowerRune, h c hc]

/-- The score of a text of ASCII characters does not depend on the case tables. -/
theorem tokenScore_ascii (L M : Stdlib) (s : String) (tokens : List String)
    (h : ∀ c ∈ s.data, c.toNat ≤ 0x7F) :
    tokenScore L s tokens = tokenScore M s tokens := by
  unfold tokenScore
  rw [ToLower_ascii L M s h]

/-- The tally depends on the stances of the positions only. -/
theorem countDecisions_congr (l1 l2 : List Position)
    (h : l1.map (fun p => p.Stance) = l2.map (fun p => p.Stance)) :
    countDecisions l1 = countDecisions l2 := by
  funext d
  have key : ∀ l : List Position, countDecisions l d
      = (((l.map (fun p => p.Stance)).filter (fun s => decide (s = d))).length : Int) := by
    intro l
    rw [countDecisions_eq, List.filter_map, List.length_map]
    rfl
  rw [key l1, key l2, h]

/-- The transcript and the verdict that `Engine.Deliberate` returns for a valid case. -/
theorem deliberate_ok (L : Stdlib) (e : Engine) (c : Case) (now : Time)
    (hvalid : c.Validate L = none) :
    e.Deliberate L c now = .ok
      ({ CaseID := c.ID,
         StartedAt := L.formatRFC3339 now,
         CompletedAt := L.formatRFC3339 (now + twoMinutes),
         Panel := toPanelMembers e.Panel,
         InitialPositions := initialPositions L c e.Panel,
         Challenges := buildChallenges L c (initialPositions L c e.Panel),
         FinalPositions := finalizePositions c (initialPositions L c e.Panel)
           (buildChallenges L c (initialPositions L c e.Panel)),
         JudgeModel := e.JudgeModel },
       synthesizeVerdict L c
         (finalizePositions c (initialPositions L c e.Panel)
           (buildChallenges L c (initialPositions L c e.Panel)))
         e.JudgeModel (now + twoMinutes)) := by
  unfold Engine.Deliberate
  rw [hvalid]


/-- The result of `evaluateInitial` depends on the case through the two scores and the
number of evidence entries only. -/
theorem evaluateInitial_congr (L M : Stdlib) (c d : Case) (p : Perspective)
    (hr : tokenScore L (c.Question ++ " " ++ c.Summary) riskTokens
      = tokenScore M (d.Question ++ " " ++ d.Summary) riskTokens)
    (hu : tokenScore L (c.Question ++ " " ++ c.Summary) urgencyTokens
      = tokenScore M (d.Question ++ " " ++ d.Summary) urgencyTokens)
    (he : c.Evidence.length = d.Evidence.length) :
    evaluateInitial L c p = evaluateInitial M d p := by
  simp only [evaluateInitial, hr, hu, he]

/-- The initial positions depend on the case through the two scores and the number of
evidence entries only. -/
theorem initialPositions_congr (L M : Stdlib) (c d : Case) (panel : List Perspective)
    (hr : tokenScore L (c.Question ++ " " ++ c.Summary) riskTokens
      = tokenScore M (d.Question ++ " " ++ d.Summary) riskTokens)
    (hu : tokenScore L (c.Question ++ " " ++ c.Summary) urgencyTokens
      = tokenScore M (d.Question ++ " " ++ d.Summary) urgencyTokens)
    (he : c.Evidence.length = d.Evidence.length) :
    initialPositions L c panel = initialPositions M d panel := by
  unfold initialPositions
  have h : ∀ p, evaluateInitial L c p = evaluateInitial M d p :=
    fun p => evaluateInitial_congr L M c d p hr hu he
  simp only [h]

/-- The number of challenges does not depend on the case nor on the case tables. -/
theorem buildChallengesLoop_length (L M : Stdlib) (c d : Case) (initial todo : List Position) :
    (buildChallengesLoop L c initial todo).length
      = (buildChallengesLoop M d initial todo).length := by
  induction todo with
  | nil => rfl
  | cons pos rest ih =>
    unfold buildChallengesLoop
    by_cases h : (strongestCounter pos.Stance initial).AgentID = ""
    · simp only [h, if_true]
      exact ih
    · simp only [h, if_false, List.length_cons, ih]

/-- The number of challenges of `buildChallenges` depends on the positions only. -/
theorem buildChallenges_length (L M : Stdlib) (c d : Case) (initial : List Position) :
    (buildChallenges L c initial).length = (buildChallenges M d initial).length :=
  buildChallengesLoop_length L M c d initial initial

/-- The function `finalizePositions` depends on the case and on the challenges through
the number of evidence entries and the number of challenges only. -/
theorem finalizePositions_congr (c d : Case) (initial : List Position)
    (chs chs2 : List Challenge) (he : c.Evidence.length = d.Evidence.length)
    (hc : chs.length = chs2.length) :
    finalizePositions c initial chs = finalizePositions d initial chs2 := by
  unfold finalizePositions
  rw [he, hc]

/-- The final positions of a deliberation depend on the case through the two token
scores and the number of evidence entries only. -/
theorem finalPositions_congr (L M : Stdlib) (c d : Case) (panel : List Perspective)
    (hr : tokenScore L (c.Question ++ " " ++ c.Summary) riskTokens
      = tokenScore M (d.Question ++ " " ++ d.Summary) riskTokens)
    (hu : tokenScore L (c.Question ++ " " ++ c.Summary) urgencyTokens
      = tokenScore M (d.Question ++ " " ++ d.Summary) urgencyTokens)
    (he : c.Evidence.length = d.Evidence.length) :
    finalizePositions c (initialPositions L c panel)
        (buildChallenges L c (initialPositions L c panel))
      = finalizePositions d (initialPositions M d panel)
        (buildChallenges M d (initialPositions M d panel)) := by
  rw [initialPositions_congr L M c d panel hr hu he]
  exact finalizePositions_congr c d _ _ _ he (buildChallenges_length L M c d _)

/-- The decision and the binding flag of the verdict of `synthesizeVerdict`. -/
theorem synthesizeVerdict_decision (L : Stdlib) (c : Case) (final : List Position)
    (judge : String) (verdictAt : Time) :
    (synthesizeVerdict L c final judge verdictAt).Verdict = synthesizeDecision final ∧
    (synthesizeVerdict L c final judge verdictAt).Binding
      = decide (synthesizeDecision final ≠ DecisionDefer) :=
  ⟨rfl, rfl⟩

/-- Claim C4, refuted as stated: in Scenario A the initial stances are rejected,
rejected and deferred, so rejected holds a strict majority of two votes against one;
the verdict is `rejected` and binding, not `deferred` and non-binding. -/
theorem scenarioA_verdict_not_deferred :
    ((New []).Deliberate refStdlib scenarioA sampleNow).toOption.map
        (fun r => (r.1.InitialPositions.map (fun p => p.Stance), r.2.Verdict, r.2.Binding))
      = some ([DecisionReject, DecisionReject, DecisionDefer], DecisionReject, true) ∧
    ((New []).Deliberate refStdlib scenarioA sampleNow).toOption.map
        (fun r => (r.2.Verdict, r.2.Binding))
      ≠ some (DecisionDefer, false) := by
  decide

/-- Claim C4, amended. For every valid case of type rule_evolution whose question and
summary are the sentence of Scenario A and which has no evidence, deliberation by the
default 3-seat panel succeeds with a verdict whose decision is `rejected` and whose
binding flag is true. -/
theorem scenarioA_verdict_rejected (L : Stdlib) (c : Case) (now : Time)
    (_htype : c.Type_ = "rule_evolution")
    (hq : c.Question = "Should we bypass the rollback safeguard to ship today?")
    (hs : c.Summary = "Should we bypass the rollback safeguard to ship today?")
    (he : c.Evidence = [])
    (hvalid : c.Validate L = none) :
    ∃ t v, (New []).Deliberate L c now = .ok (t, v) ∧
      v.Verdict = DecisionReject ∧ v.Binding = true := by
  have hrisk : tokenScore L (c.Question ++ " " ++ c.Summary) riskTokens
      = tokenScore refStdlib (scenarioA.Question ++ " " ++ scenarioA.Summary) riskTokens := by
    rw [hq, hs]
    exact tokenScore_ascii L refStdlib _ _ (by decide)
  have hurg : tokenScore L (c.Question ++ " " ++ c.Summary) urgencyTokens
      = tokenScore refStdlib (scenarioA.Question ++ " " ++ scenarioA.Summary) urgencyTokens := by
    rw [hq, hs]
    exact tokenScore_ascii L refStdlib _ _ (by decide)
  have hev : c.Evidence.length = scenarioA.Evidence.length := by rw [he]; rfl
  refine ⟨_, _, deliberate_ok L _ c now hvalid, ?_⟩
  rw [(synthesizeVerdict_decision _ _ _ _ _).1, (synthesizeVerdict_decision _ _ _ _ _).2,
    finalPositions_congr L refStdlib c scenarioA _ hrisk hurg hev]
  decide

/-- Claim C4, amended, at the sample case of Scenario A. -/
theorem scenarioA_verdict_rejected_witness :
    ∃ t v, (New []).Deliberate refStdlib scenarioA sampleNow = .ok (t, v) ∧
      v.Verdict = DecisionReject ∧ v.Binding = true :=
  scenarioA_verdict_rejected refStdlib scenarioA sampleNow rfl rfl rfl rfl (by decide)

/-- A text in which no token occurs has score zero. -/
theorem tokenScore_zero (L : Stdlib) (text : String) (tokens : List String)
    (h : ∀ tok ∈ tokens, Contains (ToLower L text) tok = false) :
    tokenScore L text tokens = 0 := by
  rw [tokenScore_eq]
  have : tokens.filter (fun tok => Contains (ToLower L text) tok) = [] := by
    rw [List.filter_eq_nil_iff]
    intro tok htok
    simp [h tok htok]
  rw [this]
  rfl

/-- Every case of Scenario B has the final positions of the sample case. -/
theorem scenarioB_congr (L : Stdlib) (c : Case)
    (hev : c.Evidence.length = 2)
    (hnone : ∀ tok ∈ riskTokens ++ urgencyTokens,
      Contains (ToLower L (c.Question ++ " " ++ c.Summary)) tok = false) :
    initialPositions L c (New []).Panel = initialPositions refStdlib scenarioB (New []).Panel ∧
    finalizePositions c (initialPositions L c (New []).Panel)
        (buildChallenges L c (initialPositions L c (New []).Panel))
      = finalizePositions scenarioB (initialPositions refStdlib scenarioB (New []).Panel)
        (buildChallenges refStdlib scenarioB
          (initialPositions refStdlib scenarioB (New []).Panel)) := by
  have hrisk : tokenScore L (c.Question ++ " " ++ c.Summary) riskTokens
      = tokenScore refStdlib (scenarioB.Question ++ " " ++ scenarioB.Summary) riskTokens := by
    rw [tokenScore_zero L _ _ (fun tok h => hnone tok (List.mem_append_left _ h))]
    decide
  have hurg : tokenScore L (c.Question ++ " " ++ c.Summary) urgencyTokens
      = tokenScore refStdlib (scenarioB.Question ++ " " ++ scenarioB.Summary) urgencyTokens := by
    rw [tokenScore_zero L _ _ (fun tok h => hnone tok (List.mem_append_right _ h))]
    decide
  have hev2 : c.Evidence.length = scenarioB.Evidence.length := by rw [hev]; rfl
  exact ⟨initialPositions_congr L refStdlib c scenarioB _ hrisk hurg hev2,
    finalPositions_congr L refStdlib c scenarioB _ hrisk hurg hev2⟩

/-- Claim C5, amended. For every valid case with two evidence entries in whose scored
text (question, a space, summary, lower-cased) no risk or urgency token occurs, deliberation
by the default 3-seat panel succeeds with initial stances approved, amended, amended
and a verdict whose decision is `amended` and whose binding flag is true. -/
theorem scenarioB_verdict_amended (L : Stdlib) (c : Case) (now : Time)
    (hvalid : c.Validate L = none)
    (hev : c.Evidence.length = 2)
    (hnone : ∀ tok ∈ riskTokens ++ urgencyTokens,
      Contains (ToLower L (c.Question ++ " " ++ c.Summary)) tok = false) :
    ∃ t v, (New []).Deliberate L c now = .ok (t, v) ∧
      t.InitialPositions.map (fun p => (p.Perspective, p.Stance))
        = [("pragmatist", DecisionApprove), ("purist", DecisionAmend),
            ("skeptic", DecisionAmend)] ∧
      v.Verdict = DecisionAmend ∧ v.Binding = true := by
  obtain ⟨hinit, hfinal⟩ := scenarioB_congr L c hev hnone
  refine ⟨_, _, deliberate_ok L _ c now hvalid, ?_, ?_⟩
  · dsimp only
    rw [hinit]
    decide
  · rw [(synthesizeVerdict_decision _ _ _ _ _).1, (synthesizeVerdict_decision _ _ _ _ _).2,
      hfinal]
    decide

/-- Claim C5, refuted as stated: the question of this valid case with two evidence
entries ends with `without` and its summary starts with `tests`, so neither of them
holds a risk or urgency token, while the text that `evaluateInitial` scores, the
question, a space and the summary, holds the risk token `without tests`. The initial
stances are approved, rejected, rejected and the verdict is `rejected`. -/
theorem scenarioB_token_across_fields :
    splitToken.Validate refStdlib = none ∧ splitToken.Evidence.length = 2 ∧
    (∀ tok ∈ riskTokens ++ urgencyTokens,
      Contains (ToLower refStdlib splitToken.Question) tok = false ∧
      Contains (ToLower refStdlib splitToken.Summary) tok = false) ∧
    ((New []).Deliberate refStdlib splitToken sampleNow).toOption.map
        (fun r => (r.1.InitialPositions.map (fun p => p.Stance),
          r.1.FinalPositions.map (fun p => p.Stance), r.2.Verdict, r.2.Binding))
      = some ([DecisionApprove, DecisionReject, DecisionReject],
          [DecisionAmend, DecisionReject, DecisionReject], DecisionReject, true) := by
  decide

/-- Claim C5, amended, at the case of
`TestDeliberateProducesBindingVerdictAndTranscript`. -/
theorem scenarioB_verdict_amended_witness :
    ∃ t v, (New []).Deliberate refStdlib scenarioB sampleNow = .ok (t, v) ∧
      t.InitialPositions.map (fun p => (p.Perspective, p.Stance))
        = [("pragmatist", DecisionApprove), ("purist", DecisionAmend),
            ("skeptic", DecisionAmend)] ∧
      v.Verdict = DecisionAmend ∧ v.Binding = true :=
  scenarioB_verdict_amended refStdlib scenarioB sampleNow (by decide) (by decide) (by decide)

/-- Claim C6, refuted as stated: in Scenario B the pragmatist seat (agent-1) is
approved against an amended majority and its final stance is still `approved`, not
`amended`. -/
theorem scenarioB_pragmatist_not_downgraded :
    ((New []).Deliberate refStdlib scenarioB sampleNow).toOption.map
        (fun r => (majorityDecision (countDecisions r.1.InitialPositions),
          r.1.FinalPositions.map (fun p => (p.AgentID, p.Perspective, p.Stance))))
      = some (DecisionAmend,
          [("agent-1", "pragmatist", DecisionApprove), ("agent-2", "purist", DecisionAmend),
            ("agent-3", "skeptic", DecisionAmend)]) ∧
    ((New []).Deliberate refStdlib scenarioB sampleNow).toOption.map
        (fun r => (r.1.FinalPositions.map (fun p => p.Stance)).head?)
      ≠ some (some DecisionAmend) := by
  decide

/-- Claim C6, amended. For every valid case with two evidence entries in whose scored
text no risk or urgency token occurs, deliberated by the default 3-seat panel, the
majority of the initial positions is `amended` and the pragmatist seat (agent-1), whose
initial stance is `approved`, keeps the final stance `approved`. -/
theorem scenarioB_pragmatist_final (L : Stdlib) (c : Case) (now : Time)
    (hvalid : c.Validate L = none)
    (hev : c.Evidence.length = 2)
    (hnone : ∀ tok ∈ riskTokens ++ urgencyTokens,
      Contains (ToLower L (c.Question ++ " " ++ c.Summary)) tok = false) :
    ∃ t v, (New []).Deliberate L c now = .ok (t, v) ∧
      majorityDecision (countDecisions t.InitialPositions) = DecisionAmend ∧
      (t.InitialPositions.map (fun p => (p.AgentID, p.Perspective, p.Stance))).head?
        = some ("agent-1", "pragmatist", DecisionApprove) ∧
      (t.FinalPositions.map (fun p => (p.AgentID, p.Perspective, p.Stance))).head?
        = some ("agent-1", "pragmatist", DecisionApprove) := by
  obtain ⟨hinit, hfinal⟩ := scenarioB_congr L c hev hnone
  refine ⟨_, _, deliberate_ok L _ c now hvalid, ?_, ?_, ?_⟩
  · dsimp only
    rw [hinit]
    decide
  · dsimp only
    rw [hinit]
    decide
  · dsimp only
    rw [hfinal]
    decide

/-- Claim C6, amended, at the case of `TestDeliberateProducesBindingVerdictAndTranscript`. -/
theorem scenarioB_pragmatist_final_witness :
    ∃ t v, (New []).Deliberate refStdlib scenarioB sampleNow = .ok (t, v) ∧
      majorityDecision (countDecisions t.InitialPositions) = DecisionAmend ∧
      (t.InitialPositions.map (fun p => (p.AgentID, p.Perspective, p.Stance))).head?
        = some ("agent-1", "pragmatist", DecisionApprove) ∧
      (t.FinalPositions.map (fun p => (p.AgentID, p.Perspective, p.Stance))).head?
        = some ("agent-1", "pragmatist", DecisionApprove) :=
  scenarioB_pragmatist_final refStdlib scenarioB sampleNow (by decide) (by decide) (by decide)

/-! ### The consensus finalizer -/

/-- The body of the first loop of `finalizePositions`, by cases. -/
theorem finalizeOne_spec (majority : Decision) (p : Position) :
    ((p.Stance = DecisionApprove ∧ (majority = DecisionReject ∨ majority = DecisionDefer)) ∨
        (p.Stance = DecisionReject ∧ majority = DecisionApprove) →
      (finalizeOne majority p).Stance = DecisionAmend) ∧
    (¬ ((p.Stance = DecisionApprove ∧ (majority = DecisionReject ∨ majority = DecisionDefer)) ∨
        (p.Stance = DecisionReject ∧ majority = DecisionApprove)) →
      finalizeOne majority p = { p with Round := "final" }) := by
  have e1 : DecisionApprove ≠ DecisionReject := by decide
  have e2 : DecisionApprove ≠ DecisionDefer := by decide
  have e3 : DecisionReject ≠ "" := by decide
  have e4 : DecisionDefer ≠ "" := by decide
  have e5 : DecisionApprove ≠ "" := by decide
  constructor
  · rintro (⟨hs, hm | hm⟩ | ⟨hs, hm⟩)
    · simp [finalizeOne, hs, hm, e1, e3, e1.symm]
    · simp [finalizeOne, hs, hm, e2, e4, e1, e2.symm]
    · simp [finalizeOne, hs, hm, e1.symm, e5]
  · intro h
    simp only [not_or, not_and] at h
    unfold finalizeOne
    by_cases hc : majority ≠ "" ∧ p.Stance ≠ majority
    · simp only [hc, and_self, if_true]
      have h1 : ¬ (p.Stance = DecisionApprove ∧
          (majority = DecisionReject ∨ majority = DecisionDefer)) := by
        rintro ⟨hs, hm⟩
        have := h.1 hs
        tauto
      have h2 : ¬ (p.Stance = DecisionReject ∧ majority = DecisionApprove) := by
        rintro ⟨hs, hm⟩
        exact h.2 hs hm
      simp only [h1, h2, if_false, ite_self]
    · simp only [hc, if_false]

/-- Claim C7. For a case with at least one evidence entry, `finalizePositions` keeps
the length of the list, and the final stance of position `i` is `amended` when its
initial stance is approved and the majority of the initial positions is rejected or
deferred, or when its initial stance is rejected and the majority is approved; in
every other situation the stance and the reasoning are those of the initial position. -/
theorem finalizePositions_first_pass (c : Case) (initial : List Position)
    (challenges : List Challenge) (hev : 1 ≤ c.Evidence.length) :
    (finalizePositions c initial challenges).length = initial.length ∧
    ∀ (i : Nat) (p : Position), initial[i]? = some p →
      ∃ q, (finalizePositions c initial challenges)[i]? = some q ∧
        ((p.Stance = DecisionApprove ∧
            (majorityDecision (countDecisions initial) = DecisionReject ∨
              majorityDecision (countDecisions initial) = DecisionDefer)) ∨
          (p.Stance = DecisionReject ∧
            majorityDecision (countDecisions initial) = DecisionApprove) →
          q.Stance = DecisionAmend) ∧
        (¬ ((p.Stance = DecisionApprove ∧
            (majorityDecision (countDecisions initial) = DecisionReject ∨
              majorityDecision (countDecisions initial) = DecisionDefer)) ∨
          (p.Stance = DecisionReject ∧
            majorityDecision (countDecisions initial) = DecisionApprove)) →
          q.Stance = p.Stance ∧ q.Reasoning = p.Reasoning) := by
  have hfin : finalizePositions c initial challenges
      = initial.map (finalizeOne (majorityDecision (countDecisions initial))) := by
    unfold finalizePositions finalizeFirstPass
    rw [if_neg]
    rintro ⟨_, h⟩
    omega
  rw [hfin]
  refine ⟨List.length_map _ _, fun i p hp => ?_⟩
  refine ⟨finalizeOne (majorityDecision (countDecisions initial)) p, ?_, ?_, ?_⟩
  · rw [List.getElem?_map, hp]
    rfl
  · exact (finalizeOne_spec _ p).1
  · intro h
    rw [(finalizeOne_spec _ p).2 h]
    exact ⟨rfl, rfl⟩

/-- Claim C7, at a case with two evidence entries and the stances approved, rejected,
rejected: the majority is rejected and the approved position becomes amended. -/
theorem finalizePositions_first_pass_witness :
    ∃ q, (finalizePositions scenarioB
        [stanceOf "agent-1" "approved", stanceOf "agent-2" "rejected",
          stanceOf "agent-3" "rejected"] [])[0]? = some q ∧
      q.Stance = DecisionAmend := by
  obtain ⟨q, h1, h2, _⟩ := (finalizePositions_first_pass scenarioB
    [stanceOf "agent-1" "approved", stanceOf "agent-2" "rejected",
      stanceOf "agent-3" "rejected"] [] (by decide)).2 0 (stanceOf "agent-1" "approved") rfl
  exact ⟨q, h1, h2 (Or.inl ⟨rfl, Or.inl (by decide)⟩)⟩

/-- The body of the second loop of `finalizePositions`, by cases. -/
theorem forceAmend_spec (p : Position) :
    (forceAmend p).Stance ≠ DecisionApprove ∧
    (p.Stance = DecisionApprove → forceAmend p =
      { p with
        Stance := DecisionAmend,
        Reasoning := "Without challenges or evidence, amendment is the safer consensus posture." }) ∧
    (p.Stance ≠ DecisionApprove → forceAmend p = p) := by
  have e : DecisionAmend ≠ DecisionApprove := by decide
  unfold forceAmend
  by_cases h : p.Stance = DecisionApprove
  · rw [if_pos h]
    exact ⟨e, fun _ => rfl, fun hn => absurd h hn⟩
  · rw [if_neg h]
    exact ⟨h, fun hp => absurd hp h, fun _ => rfl⟩

/-- Claim C8. For a case with no evidence and an empty challenge list, no position
returned by `finalizePositions` is approved: a position that the first pass leaves
approved is returned as amended with the fixed reasoning, and a position that the first
pass leaves with another stance is returned unchanged. -/
theorem finalizePositions_second_pass (c : Case) (initial : List Position)
    (hev : c.Evidence.length = 0) :
    (∀ q ∈ finalizePositions c initial [], q.Stance ≠ DecisionApprove) ∧
    ∀ (i : Nat) (q1 : Position), (finalizeFirstPass initial)[i]? = some q1 →
      ∃ q, (finalizePositions c initial [])[i]? = some q ∧
        (q1.Stance = DecisionApprove → q =
          { q1 with
            Stance := DecisionAmend,
            Reasoning :=
              "Without challenges or evidence, amendment is the safer consensus posture." }) ∧
        (q1.Stance ≠ DecisionApprove → q = q1) := by
  have hfin : finalizePositions c initial [] = (finalizeFirstPass initial).map forceAmend := by
    unfold finalizePositions
    rw [if_pos ⟨rfl, hev⟩]
  rw [hfin]
  constructor
  · intro q hq
    obtain ⟨q1, _, rfl⟩ := List.mem_map.mp hq
    exact (forceAmend_spec q1).1
  · intro i q1 hq1
    refine ⟨forceAmend q1, ?_, (forceAmend_spec q1).2.1, (forceAmend_spec q1).2.2⟩
    rw [List.getElem?_map, hq1]
    rfl

/-- Claim C8, at a case without evidence and a single approved position: the first
pass leaves it approved, and it is returned as amended. -/
theorem finalizePositions_second_pass_witness :
    ∃ q, (finalizePositions scenarioA [stanceOf "agent-1" "approved"] [])[0]? = some q ∧
      q.Stance = DecisionAmend ∧
      q.Reasoning
        = "Without challenges or evidence, amendment is the safer consensus posture." := by
  obtain ⟨q, h1, h2, _⟩ := (finalizePositions_second_pass scenarioA
    [stanceOf "agent-1" "approved"] rfl).2 0
    { stanceOf "agent-1" "approved" with Round := "final" } (by decide)
  exact ⟨q, h1, by rw [h2 rfl], by rw [h2 rfl]⟩

/-! ### The challenge generator -/

/-- The function `strongestCounter` returns the first position whose stance differs, or
the zero position. -/
theorem strongestCounter_eq (stance : Decision) (positions : List Position) :
    strongestCounter stance positions
      = ((positions.find? (fun q => decide (q.Stance ≠ stance))).getD zeroPosition) := by
  induction positions with
  | nil => rfl
  | cons p rest ih =>
    unfold strongestCounter
    by_cases h : p.Stance ≠ stance
    · simp [h]
    · rw [if_neg h, ih]
      simp [List.find?_cons, h]

/-- The source and target of the challenges built from the positions `todo`. -/
theorem buildChallengesLoop_pairs (L : Stdlib) (c : Case) (initial todo : List Position)
    (hids : ∀ p ∈ initial, p.AgentID ≠ "") :
    (buildChallengesLoop L c initial todo).map (fun ch => (ch.From, ch.To))
      = todo.filterMap (fun P =>
          (initial.find? (fun q => decide (q.Stance ≠ P.Stance))).map
            (fun q => (P.AgentID, q.AgentID))) := by
  induction todo with
  | nil => rfl
  | cons pos rest ih =>
    unfold buildChallengesLoop
    rw [strongestCounter_eq]
    cases hfind : initial.find? (fun q => decide (q.Stance ≠ pos.Stance)) with
    | none =>
      simp only [Option.getD_none, List.filterMap_cons, hfind, Option.map_none']
      rw [if_pos (by rfl)]
      exact ih
    | some q =>
      have hq : q.AgentID ≠ "" := hids q (List.mem_of_find?_eq_some hfind)
      simp only [Option.getD_some, List.filterMap_cons, hfind, Option.map_some', if_neg hq,
        List.map_cons, ih]

/-- Claim C9. When no agent id is empty, `buildChallenges` returns, in position order,
one challenge for each position `P` that has a position of a different stance in the
list, from the agent of `P` to the agent of the first such position; `P` has no such
position exactly when every stance in the list equals its own. -/
theorem buildChallenges_first_differing (L : Stdlib) (c : Case) (initial : List Position)
    (hids : ∀ p ∈ initial, p.AgentID ≠ "") :
    (buildChallenges L c initial).map (fun ch => (ch.From, ch.To))
      = initial.filterMap (fun P =>
          (initial.find? (fun q => decide (q.Stance ≠ P.Stance))).map
            (fun q => (P.AgentID, q.AgentID))) ∧
    ∀ P ∈ initial,
      ((initial.find? (fun q => decide (q.Stance ≠ P.Stance))) = none ↔
        ∀ q ∈ initial, q.Stance = P.Stance) := by
  refine ⟨buildChallengesLoop_pairs L c initial initial hids, fun P _ => ?_⟩
  rw [List.find?_eq_none]
  simp

/-- Claim C9, at the stances approved, rejected, amended, amended: the first seat
challenges the second one (the first differing stance), not an amended seat (the most
common opposing stance). -/
theorem buildChallenges_first_differing_witness :
    (buildChallenges refStdlib scenarioA
      [stanceOf "agent-1" "approved", stanceOf "agent-2" "rejected",
        stanceOf "agent-3" "amended", stanceOf "agent-4" "amended"]).map
      (fun ch => (ch.From, ch.To))
      = [("agent-1", "agent-2"), ("agent-2", "agent-1"), ("agent-3", "agent-1"),
          ("agent-4", "agent-1")] :=
  (buildChallenges_first_differing refStdlib scenarioA
    [stanceOf "agent-1" "approved", stanceOf "agent-2" "rejected",
      stanceOf "agent-3" "amended", stanceOf "agent-4" "amended"] (by decide)).1.trans
    (by decide)

/-! ### The verdict synthesizer -/

/-- The result of `majorityDecision` is empty or one of the four decisions. -/
theorem majorityDecision_mem (counts : Counts) :
    majorityDecision counts = "" ∨ majorityDecision counts ∈ fourDecisions := by
  obtain ⟨x, y, hx, _, _, _, _, hres⟩ := majorityDecision_top counts
  rw [hres]
  split_ifs
  · exact Or.inl rfl
  · exact Or.inr (by decide)
  · exact Or.inr hx

/-- The decision of a verdict is one of the four decisions. -/
theorem synthesizeDecision_mem (final : List Position) :
    synthesizeDecision final ∈ fourDecisions := by
  unfold synthesizeDecision
  rcases majorityDecision_mem (countDecisions final) with h | h
  · simp only [h, if_true]
    decide
  · have hne : majorityDecision (countDecisions final) ≠ "" := by
      intro e
      rw [e] at h
      exact absurd h (by decide)
    simp only [hne, if_false]
    exact h

/-- The tally of `countDecisions` puts a decision strictly on top exactly when more
positions hold it than hold any other of the four decisions. -/
theorem strictTop_votes (final : List Position) (x : Decision) :
    StrictTop (countDecisions final) x ↔
      x ∈ fourDecisions ∧ ∀ y ∈ fourDecisions, y ≠ x → votes final y < votes final x := by
  unfold StrictTop votes
  constructor
  · rintro ⟨hx, h⟩
    refine ⟨hx, fun y hy hne => ?_⟩
    have := h y hy hne
    rw [countDecisions_eq, countDecisions_eq] at this
    exact_mod_cast this
  · rintro ⟨hx, h⟩
    refine ⟨hx, fun y hy hne => ?_⟩
    rw [countDecisions_eq, countDecisions_eq]
    exact_mod_cast h y hy hne

/-- Claim C10. The decision of the verdict of `synthesizeVerdict` is one of the four
valid decisions: when more final positions hold one of the four decisions than hold any
other of them, it is that decision, the majority of the final positions; when there is
no such decision, it is `deferred`; and the binding flag is true exactly when the
decision is not `deferred`. -/
theorem synthesizeVerdict_valid (L : Stdlib) (c : Case) (final : List Position)
    (judge : String) (verdictAt : Time) :
    (synthesizeVerdict L c final judge verdictAt).Verdict ∈ fourDecisions ∧
    (∀ x ∈ fourDecisions,
      (∀ y ∈ fourDecisions, y ≠ x → votes final y < votes final x) →
      (synthesizeVerdict L c final judge verdictAt).Verdict = x) ∧
    ((¬ ∃ x ∈ fourDecisions, ∀ y ∈ fourDecisions, y ≠ x → votes final y < votes final x) →
      (synthesizeVerdict L c final judge verdictAt).Verdict = DecisionDefer) ∧
    ((synthesizeVerdict L c final judge verdictAt).Binding = true ↔
      (synthesizeVerdict L c final judge verdictAt).Verdict ≠ DecisionDefer) := by
  rw [(synthesizeVerdict_decision L c final judge verdictAt).1,
    (synthesizeVerdict_decision L c final judge verdictAt).2]
  have hcases := majorityDecision_cases (countDecisions final)
    (fun z _ => countDecisions_nonneg final z)
  refine ⟨synthesizeDecision_mem final, ?_, ?_, by simp⟩
  · intro x hx htop
    have hst : StrictTop (countDecisions final) x := (strictTop_votes final x).mpr ⟨hx, htop⟩
    have hmaj : majorityDecision (countDecisions final) = x := by
      rcases hcases with ⟨hz, _⟩ | ⟨_, ht, _⟩ | ⟨x2, hx2, hm⟩
      · exfalso
        obtain ⟨y, hy, hyx⟩ : ∃ y ∈ fourDecisions, y ≠ x := by
          by_cases h : x = DecisionApprove
          · exact ⟨DecisionReject, by decide, by rw [h]; decide⟩
          · exact ⟨DecisionApprove, by decide, fun e => h e.symm⟩
        have := hst.2 y hy hyx
        rw [hz y hy, hz x hx] at this
        exact lt_irrefl _ this
      · exact absurd hst (not_strictTop_of_topTwoEqual _ x ht)
      · rw [hm]
        exact strictTop_unique _ _ _ hx2 hst
    unfold synthesizeDecision
    dsimp only
    rw [hmaj, if_neg]
    intro e
    rw [e] at hx
    revert hx
    decide
  · intro hno
    unfold synthesizeDecision
    dsimp only
    rcases hcases with ⟨_, hm⟩ | ⟨_, _, hm⟩ | ⟨x2, hx2, _⟩
    · rw [hm, if_pos rfl]
    · rw [hm, if_neg (by decide)]
    · exact absurd ⟨x2, ((strictTop_votes final x2).mp hx2).1,
        ((strictTop_votes final x2).mp hx2).2⟩ hno

/-- Claim C10 at three final positions, two rejected and one deferred: the decision is
`rejected` and the verdict is binding. -/
theorem synthesizeVerdict_valid_witness :
    (synthesizeVerdict refStdlib scenarioA
      [stanceOf "agent-1" DecisionReject, stanceOf "agent-2" DecisionReject,
        stanceOf "agent-3" DecisionDefer] "claude:opus" sampleNow).Verdict = DecisionReject ∧
    (synthesizeVerdict refStdlib scenarioA
      [stanceOf "agent-1" DecisionReject, stanceOf "agent-2" DecisionReject,
        stanceOf "agent-3" DecisionDefer] "claude:opus" sampleNow).Binding = true :=
  have h := synthesizeVerdict_valid refStdlib scenarioA
    [stanceOf "agent-1" DecisionReject, stanceOf "agent-2" DecisionReject,
      stanceOf "agent-3" DecisionDefer] "claude:opus" sampleNow
  have hv := h.2.1 DecisionReject (by decide) (by decide)
  ⟨hv, h.2.2.2.mpr (by rw [hv]; decide)⟩

/-! ### The texts of the verdict -/

/-- The runes of the result of `TrimSpace`. -/
theorem TrimSpace_data (s : String) : (TrimSpace s).data = trimChars s.data := rfl

/-- After dropping the leading white space, the first rune is not white space. -/
theorem head?_dropWhile_isSpace (l : List Char) (c : Char)
    (h : (l.dropWhile isSpace).head? = some c) : isSpace c = false := by
  have := List.head?_dropWhile_not isSpace l
  rw [h] at this
  exact this

/-- The result of `TrimSpace` neither starts nor ends with white space. -/
theorem trimChars_trimmed (l : List Char) : Trimmed (trimChars l) := by
  unfold trimChars
  constructor
  · intro c hc
    obtain ⟨t, ht⟩ : ((l.dropWhile isSpace).reverse.dropWhile isSpace).reverse
        <+: l.dropWhile isSpace := by
      have := List.dropWhile_suffix isSpace (l := (l.dropWhile isSpace).reverse)
      rw [← List.reverse_prefix] at this
      simpa using this
    have hne : ((l.dropWhile isSpace).reverse.dropWhile isSpace).reverse ≠ [] := by
      intro e
      rw [e] at hc
      simp at hc
    apply head?_dropWhile_isSpace l c
    rw [← ht, List.head?_append_of_ne_nil _ hne, hc]
  · intro c hc
    rw [List.getLast?_reverse] at hc
    exact head?_dropWhile_isSpace _ c hc

/-- Nothing is dropped from a run that does not start with white space. -/
theorem dropWhile_isSpace_of_head (l : List Char)
    (h : ∀ c, l.head? = some c → isSpace c = false) : l.dropWhile isSpace = l := by
  cases l with
  | nil => rfl
  | cons a rest =>
    have := h a rfl
    simp [List.dropWhile_cons, this]

/-- Trimming leaves a trimmed run unchanged. -/
theorem trimChars_of_trimmed (l : List Char) (h : Trimmed l) : trimChars l = l := by
  unfold trimChars
  rw [dropWhile_isSpace_of_head l h.1, dropWhile_isSpace_of_head l.reverse, List.reverse_reverse]
  intro c hc
  rw [List.head?_reverse] at hc
  exact h.2 c hc

/-- Trimming twice is trimming once. -/
theorem TrimSpace_idem (s : String) : TrimSpace (TrimSpace s) = TrimSpace s := by
  apply String.ext
  rw [TrimSpace_data, TrimSpace_data, trimChars_of_trimmed _ (trimChars_trimmed _)]

/-- A run that starts with a trimmed non-empty run and ends with another is trimmed. -/
theorem trimmed_append (a m b : List Char) (ha : Trimmed a) (hb : Trimmed b)
    (hane : a ≠ []) (hbne : b ≠ []) : Trimmed (a ++ m ++ b) := by
  constructor
  · intro c hc
    rw [List.append_assoc, List.head?_append_of_ne_nil _ hane] at hc
    exact ha.1 c hc
  · intro c hc
    rw [List.getLast?_append_of_ne_nil _ hbne] at hc
    exact hb.2 c hc

/-- A run with a rune that is not white space does not trim to the empty run. -/
theorem trimChars_ne_nil (l : List Char) (c : Char) (hc : c ∈ l) (hs : isSpace c = false) :
    trimChars l ≠ [] := by
  unfold trimChars
  intro h
  rw [List.reverse_eq_nil_iff, List.dropWhile_eq_nil_iff] at h
  have hd : l.dropWhile isSpace ≠ [] := by
    intro e
    rw [List.dropWhile_eq_nil_iff] at e
    have := e c hc
    rw [hs] at this
    exact absurd this (by decide)
  obtain ⟨x, xs, hx⟩ := List.exists_cons_of_ne_nil hd
  have hx1 : isSpace x = false := head?_dropWhile_isSpace l x (by rw [hx]; rfl)
  have := h x (by rw [List.mem_reverse, hx]; exact List.mem_cons_self _ _)
  rw [hx1] at this
  exact absurd this (by decide)

/-- The distinct elements of a list are elements of the list. -/
theorem distinctFrom_subset (seen items : List String) :
    ∀ x ∈ distinctFrom seen items, x ∈ items := by
  induction items generalizing seen with
  | nil => intro x hx; simp [distinctFrom] at hx
  | cons a rest ih =>
    intro x hx
    unfold distinctFrom at hx
    split_ifs at hx with h
    · exact List.mem_cons_of_mem _ (ih _ x hx)
    · rcases List.mem_cons.mp hx with e | e
      · rw [e]; exact List.mem_cons_self _ _
      · exact List.mem_cons_of_mem _ (ih _ x e)

/-- The loop of `uniqueFirstN` appends to `out` the first distinct trimmed non-blank
items that are not in `out`, until `out` has `n` elements. -/
theorem uniqueFirstNLoop_eq (n : Int) (out items : List String) (hn : (out.length : Int) < n) :
    uniqueFirstNLoop n out items
      = out ++ (distinctFrom out ((items.map TrimSpace).filter (fun s => decide (s ≠ "")))).take
          (n.toNat - out.length) := by
  induction items generalizing out with
  | nil => simp [uniqueFirstNLoop, distinctFrom]
  | cons item rest ih =>
    unfold uniqueFirstNLoop
    by_cases h1 : TrimSpace item = ""
    · simp only [h1, if_true, List.map_cons, List.filter_cons, ne_eq, not_true_eq_false,
        decide_False, Bool.false_eq_true, if_false]
      exact ih out hn
    · by_cases h2 : TrimSpace item ∈ out
      · simp only [h1, h2, if_true, if_false, List.map_cons, List.filter_cons, ne_eq,
          not_false_eq_true, decide_True, distinctFrom]
        exact ih out hn
      · simp only [h1, h2, if_false, List.map_cons, List.filter_cons, ne_eq,
          not_false_eq_true, decide_True, if_true, distinctFrom]
        have hk : n.toNat - out.length = (n.toNat - (out ++ [TrimSpace item]).length) + 1 := by
          simp only [List.length_append, List.length_singleton]
          omega
        by_cases h3 : ((out ++ [TrimSpace item]).length : Int) = n
        · rw [if_pos h3]
          have hz : n.toNat - out.length = 1 := by
            simp only [List.length_append, List.length_singleton] at h3
            omega
          rw [hz]
          simp
        · rw [if_neg h3, ih (out ++ [TrimSpace item]) (by
            simp only [List.length_append, List.length_singleton] at h3 ⊢
            push_cast
            omega), hk, List.take_succ_cons]
          simp

/-- The function `uniqueFirstN` returns the first `n` distinct strings among the trimmed,
non-blank items. -/
theorem uniqueFirstN_eq (items : List String) (n : Int) (hn : 0 < n) :
    uniqueFirstN items n
      = firstDistinct n.toNat ((items.map TrimSpace).filter (fun s => decide (s ≠ ""))) := by
  unfold uniqueFirstN firstDistinct
  rw [if_neg (by omega), uniqueFirstNLoop_eq n [] items (by simpa using hn)]
  simp

/-- A string other than the empty string has a rune. -/
theorem string_data_ne_nil (s : String) (h : s ≠ "") : s.data ≠ [] := by
  intro e
  exact h (String.ext e)

/-- The function `TrimSpace` leaves a trimmed string unchanged. -/
theorem TrimSpace_of_trimmed (s : String) (h : Trimmed s.data) : TrimSpace s = s := by
  apply String.ext
  rw [TrimSpace_data, trimChars_of_trimmed _ h]

/-- The first distinct strings of a list are elements of the list. -/
theorem firstDistinct_mem (n : Nat) (items : List String) :
    ∀ x ∈ firstDistinct n items, x ∈ items := fun x hx =>
  distinctFrom_subset [] items x (List.mem_of_mem_take hx)

/-- There are at most `n` first `n` distinct strings. -/
theorem firstDistinct_length (n : Nat) (items : List String) :
    (firstDistinct n items).length ≤ n := by
  unfold firstDistinct
  rw [List.length_take]
  exact Nat.min_le_left _ _

/-- Joining at most two trimmed, non-empty strings gives a trimmed string, which is
empty only when there is no string to join. -/
theorem join_trimmed (picks : List String) (sep : String) (hlen : picks.length ≤ 2)
    (h : ∀ x ∈ picks, Trimmed x.data ∧ x ≠ "") :
    TrimSpace (Join picks sep) = Join picks sep ∧ (Join picks sep = "" ↔ picks = []) := by
  match picks, hlen, h with
  | [], _, _ => exact ⟨rfl, by simp [Join, String.intercalate]⟩
  | [a], _, h =>
    have ha := h a (List.mem_singleton_self a)
    have e : Join [a] sep = a := rfl
    rw [e]
    exact ⟨TrimSpace_of_trimmed a ha.1, by simp [ha.2]⟩
  | [a, b], _, h =>
    have ha := h a (List.mem_cons_self _ _)
    have hb := h b (List.mem_cons_of_mem _ (List.mem_singleton_self b))
    have e : Join [a, b] sep = a ++ sep ++ b := rfl
    rw [e]
    have ht : Trimmed (a ++ sep ++ b).data := by
      rw [String.data_append, String.data_append]
      exact trimmed_append _ _ _ ha.1 hb.1 (string_data_ne_nil a ha.2)
        (string_data_ne_nil b hb.2)
    refine ⟨TrimSpace_of_trimmed _ ht, ?_⟩
    constructor
    · intro e0
      exfalso
      have := congrArg String.data e0
      rw [String.data_append, String.data_append] at this
      have hane := string_data_ne_nil a ha.2
      cases hd : a.data with
      | nil => exact hane hd
      | cons x xs => rw [hd] at this; simp at this
    · intro e0
      exact absurd e0 (by simp)

/-- The aligned reasons are trimmed and not empty. -/
theorem alignedReasons_trimmed (final : List Position) (decision : Decision) :
    ∀ x ∈ alignedReasons final decision, Trimmed x.data ∧ x ≠ "" := by
  intro x hx
  unfold alignedReasons at hx
  rw [List.mem_filter] at hx
  obtain ⟨hm, hne⟩ := hx
  obtain ⟨p, _, rfl⟩ := List.mem_map.mp hm
  exact ⟨trimChars_trimmed _, by simpa using hne⟩

/-- Claim C11, amended. The reasoning of the verdict is made of the first two distinct
strings among the trimmed, non-blank reasoning strings of the positions whose stance is
the verdict decision (each string is trimmed of surrounding white space before it is
compared and before it is joined), in position order, joined by a single space; when
there is no such string it is the fixed did-not-converge sentence; it is never blank. -/
theorem synthesizeVerdict_reasoning (L : Stdlib) (c : Case) (final : List Position)
    (judge : String) (verdictAt : Time) :
    (synthesizeVerdict L c final judge verdictAt).Reasoning
      = (if firstDistinct 2 (alignedReasons final
            (synthesizeVerdict L c final judge verdictAt).Verdict) = []
          then "Panel did not converge strongly; defaulting to defer for safety."
          else Join (firstDistinct 2 (alignedReasons final
            (synthesizeVerdict L c final judge verdictAt).Verdict)) " ") ∧
    TrimSpace (synthesizeVerdict L c final judge verdictAt).Reasoning ≠ "" := by
  have hv : (synthesizeVerdict L c final judge verdictAt).Verdict = synthesizeDecision final :=
    rfl
  have hr : (synthesizeVerdict L c final judge verdictAt).Reasoning
      = (if TrimSpace (Join (uniqueFirstN ((final.filter
            (fun p => decide (p.Stance = synthesizeDecision final))).map
            (fun p => p.Reasoning)) 2) " ") = ""
          then "Panel did not converge strongly; defaulting to defer for safety."
          else TrimSpace (Join (uniqueFirstN ((final.filter
            (fun p => decide (p.Stance = synthesizeDecision final))).map
            (fun p => p.Reasoning)) 2) " ")) := rfl
  have hpicks : uniqueFirstN ((final.filter
        (fun p => decide (p.Stance = synthesizeDecision final))).map (fun p => p.Reasoning)) 2
      = firstDistinct 2 (alignedReasons final (synthesizeDecision final)) := by
    rw [uniqueFirstN_eq _ 2 (by decide)]
    unfold alignedReasons
    rw [List.map_map]
    rfl
  rw [hr, hv, hpicks]
  obtain ⟨ht, he⟩ := join_trimmed (firstDistinct 2 (alignedReasons final (synthesizeDecision final)))
    " " (firstDistinct_length _ _)
    (fun x hx => alignedReasons_trimmed _ _ x (firstDistinct_mem _ _ x hx))
  rw [ht]
  by_cases hnil : firstDistinct 2 (alignedReasons final (synthesizeDecision final)) = []
  · rw [if_pos (he.mpr hnil), if_pos hnil]
    exact ⟨rfl, by decide⟩
  · rw [if_neg (fun e => hnil (he.mp e)), if_neg hnil]
    refine ⟨rfl, ?_⟩
    rw [ht]
    exact fun e => hnil (he.mp e)

/-- A dissent string holds a colon, so it is not blank. -/
theorem dissent_string_not_blank (a r : String) : TrimSpace (a ++ ": " ++ r) ≠ "" := by
  intro e
  have hd := congrArg String.data e
  rw [TrimSpace_data, String.data_append, String.data_append] at hd
  exact trimChars_ne_nil _ ':' (by simp) (by decide) hd

/-- Claim C12, amended. The dissent of the verdict is made of the first two distinct
strings among the trimmed strings `<agent-id>: <reasoning>` of the positions whose
stance differs from the verdict decision (each string is trimmed of surrounding white
space before it is compared and before it is joined), in position order, joined with
` | `; it is the empty string when no position dissents. -/
theorem synthesizeVerdict_dissent (L : Stdlib) (c : Case) (final : List Position)
    (judge : String) (verdictAt : Time) :
    (synthesizeVerdict L c final judge verdictAt).Dissent
      = Join (firstDistinct 2 (dissentStrings final
          (synthesizeVerdict L c final judge verdictAt).Verdict)) " | " ∧
    ((∀ p ∈ final, p.Stance = (synthesizeVerdict L c final judge verdictAt).Verdict) →
      (synthesizeVerdict L c final judge verdictAt).Dissent = "") := by
  have hv : (synthesizeVerdict L c final judge verdictAt).Verdict = synthesizeDecision final :=
    rfl
  have hd : (synthesizeVerdict L c final judge verdictAt).Dissent
      = Join (uniqueFirstN ((final.filter
          (fun p => !decide (p.Stance = synthesizeDecision final))).map
          (fun p => p.AgentID ++ ": " ++ p.Reasoning)) 2) " | " := rfl
  have hpicks : uniqueFirstN ((final.filter
        (fun p => !decide (p.Stance = synthesizeDecision final))).map
        (fun p => p.AgentID ++ ": " ++ p.Reasoning)) 2
      = firstDistinct 2 (dissentStrings final (synthesizeDecision final)) := by
    rw [uniqueFirstN_eq _ 2 (by decide), List.map_map]
    unfold dissentStrings
    congr 1
    rw [List.filter_eq_self.mpr]
    · congr 1
      apply List.filter_congr
      intro p _
      simp
    · intro s hs
      obtain ⟨p, _, rfl⟩ := List.mem_map.mp hs
      simpa using dissent_string_not_blank p.AgentID p.Reasoning
  rw [hd, hv, hpicks]
  refine ⟨rfl, fun hall => ?_⟩
  have : dissentStrings final (synthesizeDecision final) = [] := by
    unfold dissentStrings
    rw [List.map_eq_nil_iff, List.filter_eq_nil_iff]
    intro p hp
    simp [hall p hp]
  rw [this]
  rfl

/-- Claim C11, refuted as stated: with the two approved reasonings `Ship it` and
`Ship it ` (a trailing space), which differ as exact strings, the first two distinct
non-blank reasoning strings joined by a space would be `Ship it Ship it `; the verdict's
reasoning is `Ship it`. -/
theorem synthesizeVerdict_reasoning_not_exact :
    (synthesizeVerdict refStdlib scenarioB
      [reasoned "agent-1" "approved" "Ship it", reasoned "agent-2" "approved" "Ship it "]
      "claude:opus" sampleNow).Verdict = DecisionApprove ∧
    (synthesizeVerdict refStdlib scenarioB
      [reasoned "agent-1" "approved" "Ship it", reasoned "agent-2" "approved" "Ship it "]
      "claude:opus" sampleNow).Reasoning = "Ship it" ∧
    Join (firstDistinct 2
      ((([reasoned "agent-1" "approved" "Ship it",
            reasoned "agent-2" "approved" "Ship it "].filter
          (fun p => decide (p.Stance = DecisionApprove))).map (fun p => p.Reasoning)).filter
        (fun s => decide (TrimSpace s ≠ "")))) " " = "Ship it Ship it " := by
  decide

/-- Claim C12, refuted as stated: the only dissenting position has agent `agent-3` and
reasoning `Too risky ` (a trailing space), so the first distinct dissenting string is
`agent-3: Too risky ` with its trailing space; the verdict's dissent is
`agent-3: Too risky`. -/
theorem synthesizeVerdict_dissent_not_exact :
    (synthesizeVerdict refStdlib scenarioB
      [reasoned "agent-1" "approved" "Ship it", reasoned "agent-2" "approved" "Ship it",
        reasoned "agent-3" "rejected" "Too risky "]
      "claude:opus" sampleNow).Verdict = DecisionApprove ∧
    (synthesizeVerdict refStdlib scenarioB
      [reasoned "agent-1" "approved" "Ship it", reasoned "agent-2" "approved" "Ship it",
        reasoned "agent-3" "rejected" "Too risky "]
      "claude:opus" sampleNow).Dissent = "agent-3: Too risky" ∧
    Join (firstDistinct 2
      (([reasoned "agent-1" "approved" "Ship it", reasoned "agent-2" "approved" "Ship it",
            reasoned "agent-3" "rejected" "Too risky "].filter
          (fun p => decide (p.Stance ≠ DecisionApprove))).map
        (fun p => p.AgentID ++ ": " ++ p.Reasoning))) " | " = "agent-3: Too risky " := by
  decide

/-- Claim C12, amended, at two approved positions: no position dissents and the
dissent is empty. -/
theorem synthesizeVerdict_dissent_witness :
    (synthesizeVerdict refStdlib scenarioB
      [reasoned "agent-1" "approved" "Ship it", reasoned "agent-2" "approved" "Ship it"]
      "claude:opus" sampleNow).Dissent = "" :=
  (synthesizeVerdict_dissent refStdlib scenarioB
    [reasoned "agent-1" "approved" "Ship it", reasoned "agent-2" "approved" "Ship it"]
    "claude:opus" sampleNow).2 (by decide)

/-! ### Validity of the verdict of a deliberation -/

/-- What a case that passes `Case.Validate` satisfies. -/
theorem Case.validate_none (L : Stdlib) (c : Case) (h : c.Validate L = none) :
    TrimSpace c.ID ≠ "" ∧ TrimSpace c.Type_ ≠ "" ∧ TrimSpace c.Summary ≠ "" ∧
    TrimSpace c.Question ≠ "" ∧ TrimSpace c.FiledAt ≠ "" ∧
    (∃ t, L.parseRFC3339 c.FiledAt = .ok t) ∧ firstBlankFrom 0 c.Evidence = none := by
  unfold Case.Validate at h
  split_ifs at h with h1 h2 h3 h4 h5
  refine ⟨h1, h2, h3, h4, h5, ?_⟩
  cases hp : L.parseRFC3339 c.FiledAt with
  | error msg => rw [hp] at h; simp at h
  | ok t =>
    rw [hp] at h
    refine ⟨⟨t, rfl⟩, ?_⟩
    cases hb : firstBlankFrom 0 c.Evidence with
    | none => rfl
    | some i => rw [hb] at h; simp at h

/-- The reasoning of a verdict is not blank. -/
theorem synthesizeVerdict_reasoning_not_blank (L : Stdlib) (c : Case) (final : List Position)
    (judge : String) (verdictAt : Time) :
    TrimSpace (synthesizeVerdict L c final judge verdictAt).Reasoning ≠ "" := by
  have hr : (synthesizeVerdict L c final judge verdictAt).Reasoning
      = (if TrimSpace (Join (uniqueFirstN ((final.filter
            (fun p => decide (p.Stance = synthesizeDecision final))).map
            (fun p => p.Reasoning)) 2) " ") = ""
          then "Panel did not converge strongly; defaulting to defer for safety."
          else TrimSpace (Join (uniqueFirstN ((final.filter
            (fun p => decide (p.Stance = synthesizeDecision final))).map
            (fun p => p.Reasoning)) 2) " ")) := rfl
  rw [hr]
  split_ifs with h
  · decide
  · rw [TrimSpace_idem]
    exact h

/-- The four decisions pass `Decision.Validate`. -/
theorem Decision.validate_of_mem (L : Stdlib) (d : Decision) (h : d ∈ fourDecisions) :
    Decision.Validate L d = none := by
  unfold Decision.Validate
  rw [if_pos]
  simpa [fourDecisions] using h

/-- A verdict that meets every check of `Verdict.Validate` passes it. -/
theorem Verdict.validate_none_of (L : Stdlib) (v : Senate.Verdict)
    (h1 : TrimSpace v.CaseID ≠ "") (h2 : TrimSpace v.FiledAt ≠ "")
    (h3 : ∃ t, L.parseRFC3339 v.FiledAt = .ok t)
    (h4 : TrimSpace v.VerdictAt ≠ "") (h5 : ∃ t, L.parseRFC3339 v.VerdictAt = .ok t)
    (h6 : TrimSpace v.Type_ ≠ "") (h7 : TrimSpace v.Summary ≠ "")
    (h8 : v.Verdict ∈ fourDecisions)
    (h9 : TrimSpace v.Reasoning ≠ "") (h10 : TrimSpace v.Judge ≠ "") :
    Verdict.Validate L v = none := by
  obtain ⟨t3, h3⟩ := h3
  obtain ⟨t5, h5⟩ := h5
  have h8 := Decision.validate_of_mem L _ h8
  unfold Verdict.Validate
  simp only [h1, h2, h3, h4, h5, h6, h7, h8, h9, h10, if_false]

/-- The judge of an engine built by `New`. -/
theorem new_judge (panel : List Perspective) : (New panel).JudgeModel = "claude:opus" := rfl

/-- Claim C13, amended. For every case that passes `Case.Validate`, every panel and
every time `now` such that the verdict time, `now` plus two minutes, is an instant that
RFC 3339 can represent, the engine built by `New` returns no error from `Deliberate` and
the returned verdict passes `Verdict.Validate`; for a case that fails `Case.Validate`,
`Deliberate` returns that error. -/
theorem deliberate_verdict_valid (L : Stdlib) (panel : List Perspective) (c : Case) (now : Time) :
    (c.Validate L = none → Representable L (now + twoMinutes) →
      ∃ t v, (New panel).Deliberate L c now = .ok (t, v) ∧ Verdict.Validate L v = none) ∧
    (∀ err, c.Validate L = some err → (New panel).Deliberate L c now = .error err) := by
  constructor
  · intro hvalid hrep
    obtain ⟨h1, h2, h3, _, h5, h6, _⟩ := Case.validate_none L c hvalid
    obtain ⟨hts, hu⟩ := hrep
    refine ⟨_, _, deliberate_ok L _ c now hvalid, ?_⟩
    generalize finalizePositions c (initialPositions L c (New panel).Panel)
        (buildChallenges L c (initialPositions L c (New panel).Panel)) = final
    exact Verdict.validate_none_of L _ h1 h5 h6 hts hu h2 h3 (synthesizeDecision_mem final)
      (synthesizeVerdict_reasoning_not_blank L c final _ _)
      (by
        rw [new_judge]
        have hj : TrimSpace "claude:opus" ≠ "" := by decide
        exact hj)
  · intro err herr
    unfold Engine.Deliberate
    rw [herr]

/-- Claim C13, refuted as stated: at 9999-12-31T23:59:00Z, a time whose year RFC 3339
can represent, the valid case of Scenario B gets the verdict timestamp
10000-01-01T00:01:00Z, which does not parse, so the verdict fails `Verdict.Validate`. -/
theorem deliberate_verdict_invalid_at_year_end :
    scenarioB.Validate refStdlib = none ∧ Representable refStdlib lastMinute ∧
    ((New []).Deliberate refStdlib scenarioB lastMinute).toOption.map
        (fun r => (r.2.VerdictAt, Verdict.Validate refStdlib r.2))
      = some ("10000-01-01T00:01:00Z",
          some "verdict.verdict_at must be RFC3339: parsing time: cannot parse") := by
  decide

/-- Claim C13, amended, at the case of Scenario B and the instant 2026-01-01T00:00:00Z. -/
theorem deliberate_verdict_valid_witness :
    ∃ t v, (New []).Deliberate refStdlib scenarioB sampleNow = .ok (t, v) ∧
      Verdict.Validate refStdlib v = none :=
  (deliberate_verdict_valid refStdlib [] scenarioB sampleNow).1 (by decide) (by decide)

/-! ### The panel builder -/

/-- The names of the seats built from the supplied names. -/
theorem customCatalog_names (names : List String) :
    (customCatalog names).map (fun p => p.Name)
      = (names.map TrimSpace).filter (fun s => decide (s ≠ "")) := by
  induction names with
  | nil => rfl
  | cons name rest ih =>
    unfold customCatalog
    by_cases h : TrimSpace name = ""
    · simp [h, ih]
    · simp [h, ih]

/-- The names of the catalog of `BuildPanel`. -/
theorem buildCatalog_names (names : List String) :
    (buildCatalog names).val.map (fun p => p.Name) = catalogNames names := by
  have hc := customCatalog_names names
  unfold buildCatalog catalogNames
  by_cases h0 : names.length > 0
  · rw [if_pos h0]
    by_cases h1 : (customCatalog names).length = 0
    · rw [dif_pos h1]
      have : customCatalog names = [] := List.length_eq_zero.mp h1
      rw [this] at hc
      rw [← hc, if_pos (by rfl)]
      rfl
    · rw [dif_neg h1, hc]
      have : customCatalog names ≠ [] := fun e => h1 (by rw [e]; rfl)
      rw [if_neg]
      intro e
      rw [e] at hc
      exact this (List.map_eq_nil_iff.mp hc)
  · rw [if_neg h0]
    have : names = [] := by
      cases names with
      | nil => rfl
      | cons a b => exact absurd (Nat.succ_pos _) h0
    rw [this]
    rfl

/-- The member that `toPanelMembers` builds for the seat at index `i`. -/
theorem toPanelMembersFrom_getElem? (k : Nat) (panel : List Perspective) (i : Nat) :
    (toPanelMembersFrom k panel)[i]?
      = (panel[i]?).map (fun p =>
          ({ AgentID := "agent-" ++ formatNat (k + i + 1), Model := p.Model,
             Perspective := p.Name } : PanelMember)) := by
  induction panel generalizing k i with
  | nil => simp [toPanelMembersFrom]
  | cons p rest ih =>
    unfold toPanelMembersFrom
    cases i with
    | zero => simp
    | succ j =>
      simp only [List.getElem?_cons_succ, ih]
      congr 1
      funext q
      rw [show k + 1 + j + 1 = k + (j + 1) + 1 by omega]

/-- The number of seats of `BuildPanel`. -/
theorem buildPanel_length (n : Int) (names models : List String) :
    (BuildPanel n names models).length = (if n ≤ 0 then 3 else n.toNat) := by
  unfold BuildPanel
  rw [List.length_map, List.length_range]
  split_ifs <;> rfl

/-- The seat of `BuildPanel` at index `i`. -/
theorem buildPanel_getElem? (n : Int) (names models : List String) (i : Nat)
    (hi : i < (BuildPanel n names models).length) :
    (BuildPanel n names models)[i]? = some (buildSeat (buildCatalog names) models i) := by
  unfold BuildPanel at hi ⊢
  rw [List.length_map, List.length_range] at hi
  rw [List.getElem?_map, List.getElem?_range hi]
  rfl

/-- The name of the seat at index `i` is the name of the catalog entry `i mod k`. -/
theorem buildSeat_name (catalog : { catalog : List Perspective // 0 < catalog.length })
    (models : List String) (i : Nat) :
    some (buildSeat catalog models i).Name
      = (catalog.val.map (fun p => p.Name))[i % (catalog.val.map (fun p => p.Name)).length]? := by
  unfold buildSeat
  simp only [List.length_map, List.getElem?_map]
  rw [List.getElem?_eq_getElem (Nat.mod_lt i catalog.property)]
  rfl

/-- Two cyclically adjacent built-in archetypes have different names. -/
theorem builtin_adjacent (r : Nat) (hr : r < 5) :
    ["pragmatist", "purist", "skeptic", "steward", "advocate"][r]?
      ≠ ["pragmatist", "purist", "skeptic", "steward", "advocate"][(r + 1) % 5]? := by
  interval_cases r <;> decide

/-- Claim C15. The perspective name of seat `i` of `BuildPanel` is entry `i mod k` of the
catalog names, of length `k`: the trimmed non-blank supplied names in order or, when
there is none, the five built-in archetypes; with the built-in catalog two adjacent
seats never share a perspective. -/
theorem buildPanel_names (n : Int) (names models : List String) :
    catalogNames names ≠ [] ∧
    (∀ i, i < (BuildPanel n names models).length →
      ((BuildPanel n names models)[i]?).map (fun p => p.Name)
        = (catalogNames names)[i % (catalogNames names).length]?) ∧
    ((names.map TrimSpace).filter (fun s => decide (s ≠ "")) = [] →
      ∀ i, i + 1 < (BuildPanel n names models).length →
        ((BuildPanel n names models)[i]?).map (fun p => p.Name)
          ≠ ((BuildPanel n names models)[i + 1]?).map (fun p => p.Name)) := by
  have hnames : ∀ i, i < (BuildPanel n names models).length →
      ((BuildPanel n names models)[i]?).map (fun p => p.Name)
        = (catalogNames names)[i % (catalogNames names).length]? := by
    intro i hi
    rw [buildPanel_getElem? n names models i hi, Option.map_some', buildSeat_name,
      buildCatalog_names]
  refine ⟨?_, hnames, ?_⟩
  · unfold catalogNames
    split_ifs with h
    · decide
    · exact h
  · intro hempty i hi
    rw [hnames i (by omega), hnames (i + 1) hi]
    have hcat : catalogNames names = ["pragmatist", "purist", "skeptic", "steward", "advocate"] := by
      unfold catalogNames
      rw [if_pos hempty]
    rw [hcat]
    have h5 : ["pragmatist", "purist", "skeptic", "steward", "advocate"].length = 5 := rfl
    rw [h5]
    have := builtin_adjacent (i % 5) (Nat.mod_lt i (by decide))
    rw [show (i + 1) % 5 = (i % 5 + 1) % 5 by omega]
    exact this

/-- The agent ids of `toPanelMembers` are agent-1, agent-2, and so on. -/
theorem toPanelMembers_ids (panel : List Perspective) :
    (toPanelMembers panel).map (fun m => m.AgentID)
      = (List.range panel.length).map (fun i => "agent-" ++ formatNat (i + 1)) := by
  apply List.ext_getElem?
  intro i
  unfold toPanelMembers
  rw [List.getElem?_map, toPanelMembersFrom_getElem?, List.getElem?_map]
  by_cases hi : i < panel.length
  · rw [List.getElem?_eq_getElem hi, List.getElem?_range hi]
    simp
  · rw [List.getElem?_eq_none (by omega), List.getElem?_eq_none (by simpa using hi)]
    rfl

/-- Claim C14. The catalog of `BuildPanel` is never empty, so the round-robin index is
always in range; `BuildPanel` returns `n` seats when `n ≥ 1` and 3 seats when `n ≤ 0`;
and `toPanelMembers` gives the seats the ids agent-1, agent-2, ... in build order. -/
theorem buildPanel_seats (n : Int) (names models : List String) :
    (buildCatalog names).val ≠ [] ∧
    (∀ i : Nat, i % (buildCatalog names).val.length < (buildCatalog names).val.length) ∧
    (1 ≤ n → ((BuildPanel n names models).length : Int) = n) ∧
    (n ≤ 0 → (BuildPanel n names models).length = 3) ∧
    (toPanelMembers (BuildPanel n names models)).map (fun m => m.AgentID)
      = (List.range (BuildPanel n names models).length).map
          (fun i => "agent-" ++ formatNat (i + 1)) := by
  refine ⟨?_, fun i => Nat.mod_lt i (buildCatalog names).property, ?_, ?_,
    toPanelMembers_ids _⟩
  · intro e
    have := (buildCatalog names).property
    rw [e] at this
    exact absurd this (by decide)
  · intro h
    rw [buildPanel_length, if_neg (by omega)]
    omega
  · intro h
    rw [buildPanel_length, if_pos h]

/-- Claim C14, at the panel of `TestBuildPanelVariesPerspectives` (four seats). -/
theorem buildPanel_seats_witness :
    ((BuildPanel 4 [] []).length : Int) = 4 ∧
    (toPanelMembers (BuildPanel 4 [] [])).map (fun m => m.AgentID)
      = ["agent-1", "agent-2", "agent-3", "agent-4"] :=
  ⟨(buildPanel_seats 4 [] []).2.2.1 (by decide),
    (buildPanel_seats 4 [] []).2.2.2.2.trans (by decide)⟩

/-- Claim C15, at the panel of `TestBuildPanelVariesPerspectives`: the first two seats
have different perspectives. -/
theorem buildPanel_names_witness :
    ((BuildPanel 4 [] [])[0]?).map (fun p => p.Name)
      ≠ ((BuildPanel 4 [] [])[0 + 1]?).map (fun p => p.Name) :=
  (buildPanel_names 4 [] []).2.2 (by decide) 0 (by decide)

/-! ### The precedent index: keywords and search -/

/-- One pass of the insertion loop keeps the order of the elements of a class that
`less` does not separate. -/
theorem siftLeft_filter {α : Type} (less : α → α → Bool) (P : α → Bool)
    (hP : ∀ a b, P a = true → P b = true → less a b = false) (x : α) (l : List α) :
    (siftLeft less x l).filter P = (x :: l).filter P := by
  induction l with
  | nil => rfl
  | cons y rest ih =>
    unfold siftLeft
    by_cases hxy : less x y = true
    · rw [if_pos hxy, List.filter_cons, ih]
      by_cases hx : P x = true
      · have hy : ¬ P y = true := by
          intro hy
          rw [hP x y hx hy] at hxy
          exact absurd hxy (by decide)
        simp [List.filter_cons, hx, hy]
      · simp [List.filter_cons, hx]
    · rw [if_neg hxy]

/-- The outer loop of the insertion sort keeps the order of the elements of such a class. -/
theorem foldl_siftLeft_filter {α : Type} (less : α → α → Bool) (P : α → Bool)
    (hP : ∀ a b, P a = true → P b = true → less a b = false) (s acc : List α) :
    (s.foldl (fun sortedRev x => siftLeft less x sortedRev) acc).filter P
      = (s.reverse ++ acc).filter P := by
  induction s generalizing acc with
  | nil => rfl
  | cons x s ih =>
    rw [List.foldl_cons, ih, List.filter_append, siftLeft_filter less P hP, List.reverse_cons,
      List.append_assoc, List.filter_append]
    rfl

/-- The stable sort keeps the elements of a class that `less` does not separate in
their original order. -/
theorem sliceStable_filter {α : Type} (less : α → α → Bool) (P : α → Bool)
    (hP : ∀ a b, P a = true → P b = true → less a b = false) (s : List α) :
    (sliceStable less s).filter P = s.filter P := by
  unfold sliceStable
  rw [List.filter_reverse, foldl_siftLeft_filter less P hP, List.append_nil,
    List.filter_reverse, List.reverse_reverse]

/-- The comparison of `Store.Search` is asymmetric. -/
theorem searchLess_asymm (a b : Scored) (h : searchLess a b = true) : searchLess b a = false := by
  unfold searchLess at h ⊢
  unfold Time at *
  by_cases e : a.score = b.score
  · rw [if_pos e] at h
    rw [if_pos e.symm]
    simp only [decide_eq_true_eq, decide_eq_false_iff_not] at h ⊢
    omega
  · rw [if_neg e] at h
    rw [if_neg (fun e2 => e e2.symm)]
    simp only [decide_eq_true_eq, decide_eq_false_iff_not] at h ⊢
    omega

/-- When the comparison of `Store.Search` does not put `a` before `b`. -/
theorem searchLess_false_iff (a b : Scored) :
    searchLess a b = false ↔ a.score ≤ b.score ∧ (a.score = b.score → a.time ≤ b.time) := by
  unfold searchLess
  unfold Time at *
  by_cases e : a.score = b.score
  · rw [if_pos e]
    simp only [decide_eq_false_iff_not]
    constructor
    · intro h; exact ⟨by omega, fun _ => by omega⟩
    · intro h; have := h.2 e; omega
  · rw [if_neg e]
    simp only [decide_eq_false_iff_not]
    constructor
    · intro h; exact ⟨by omega, fun e2 => absurd e2 e⟩
    · intro h; omega

/-- The negation of the comparison of `Store.Search` is transitive. -/
theorem searchLess_ntrans (a b c : Scored) (h1 : searchLess a b = false)
    (h2 : searchLess b c = false) : searchLess a c = false := by
  rw [searchLess_false_iff] at h1 h2 ⊢
  unfold Time at *
  refine ⟨by omega, fun e => ?_⟩
  have e1 : a.score = b.score := by omega
  have e2 : b.score = c.score := by omega
  have := h1.2 e1
  have := h2.2 e2
  omega

/-- The sorted entries are ordered by score descending, then by time descending. -/
theorem searchSorted_pairwise (L : Stdlib) (records : List Record) (query : String)
    (opts : SearchOptions) :
    (searchSorted L records query opts).Pairwise
      (fun u v => v.score ≤ u.score ∧ (v.score = u.score → v.time ≤ u.time)) := by
  have := sliceStable_sorted searchLess searchLess_asymm searchLess_ntrans
    (searchCandidates L (extractKeywords L query) opts records)
  exact this.imp (fun h => (searchLess_false_iff _ _).mp h)

/-- The sorted entries are a rearrangement of the candidates. -/
theorem searchSorted_perm (L : Stdlib) (records : List Record) (query : String)
    (opts : SearchOptions) :
    (searchSorted L records query opts).Perm
      (searchCandidates L (extractKeywords L query) opts records) :=
  sliceStable_perm _ _

/-- The first loop of `Store.Search` keeps the entries of the records that it does not skip. -/
theorem searchCandidates_eq (L : Stdlib) (tokens : List String) (opts : SearchOptions)
    (records : List Record) :
    searchCandidates L tokens opts records = records.filterMap (searchEntry L tokens opts) := by
  induction records with
  | nil => rfl
  | cons rec rest ih =>
    unfold searchCandidates
    rw [List.filterMap_cons, ih]
    cases searchEntry L tokens opts rec <;> rfl

/-- The result of `Store.Search` on loaded records: the records of the first `limit`
sorted entries. -/
theorem search_ok (L : Stdlib) (records : List Record) (query : String)
    (opts : SearchOptions) :
    Store.Search L (.ok records) query opts
      = .ok (((searchSorted L records query opts).take (searchLimit opts).toNat).map
          (fun r => r.record)) := by
  unfold Store.Search
  simp only
  congr 2
  split_ifs with h
  · rfl
  · rw [List.take_of_length_le]
    have hpos : 0 < searchLimit opts := by
      unfold searchLimit
      split_ifs <;> omega
    omega

/-- When the first loop of `Store.Search` appends an entry for a record, and which one. -/
theorem searchEntry_some (L : Stdlib) (tokens : List String) (opts : SearchOptions)
    (rec : Record) (e : Scored) :
    searchEntry L tokens opts rec = some e ↔
      (e = { record := rec, score := scoreRecord L rec tokens,
             time := parseOrZero L rec.VerdictAt } ∧
        (opts.Type_ = "" ∨ rec.Type_ = opts.Type_) ∧
        (opts.Verdict = "" ∨ rec.Verdict = opts.Verdict) ∧
        (tokens ≠ [] → scoreRecord L rec tokens ≠ 0)) := by
  unfold searchEntry
  have hlen : tokens.length > 0 ↔ tokens ≠ [] := by
    rw [gt_iff_lt, List.length_pos]
  by_cases h1 : opts.Type_ ≠ "" ∧ rec.Type_ ≠ opts.Type_
  · rw [if_pos h1]
    constructor
    · intro h; cases h
    · rintro ⟨_, h, _⟩
      rcases h with h | h
      · exact absurd h h1.1
      · exact absurd h h1.2
  · rw [if_neg h1]
    have h1' : opts.Type_ = "" ∨ rec.Type_ = opts.Type_ := by
      by_contra hc
      rw [not_or] at hc
      exact h1 hc
    by_cases h2 : opts.Verdict ≠ "" ∧ rec.Verdict ≠ opts.Verdict
    · rw [if_pos h2]
      constructor
      · intro h; cases h
      · rintro ⟨_, _, h, _⟩
        rcases h with h | h
        · exact absurd h h2.1
        · exact absurd h h2.2
    · rw [if_neg h2]
      have h2' : opts.Verdict = "" ∨ rec.Verdict = opts.Verdict := by
        by_contra hc
        rw [not_or] at hc
        exact h2 hc
      simp only
      by_cases h3 : tokens.length > 0 ∧ scoreRecord L rec tokens = 0
      · rw [if_pos h3]
        constructor
        · intro h; cases h
        · rintro ⟨_, _, _, h⟩
          exact absurd h3.2 (h (hlen.mp h3.1))
      · rw [if_neg h3]
        constructor
        · intro h
          refine ⟨(Option.some.inj h).symm, h1', h2', fun hne hz => h3 ⟨hlen.mpr hne, hz⟩⟩
        · rintro ⟨h, _⟩
          rw [h]

/-- The sorted entries are the entries appended by the first loop. -/
theorem mem_searchSorted (L : Stdlib) (records : List Record) (query : String)
    (opts : SearchOptions) (e : Scored) :
    e ∈ searchSorted L records query opts ↔
      ∃ rec ∈ records, searchEntry L (extractKeywords L query) opts rec = some e := by
  rw [(searchSorted_perm L records query opts).mem_iff, searchCandidates_eq, List.mem_filterMap]

/-- The score and the time of an entry are those of its record. -/
theorem searchSorted_entry (L : Stdlib) (records : List Record) (query : String)
    (opts : SearchOptions) (e : Scored) (he : e ∈ searchSorted L records query opts) :
    e.score = scoreRecord L e.record (extractKeywords L query) ∧
    e.time = parseOrZero L e.record.VerdictAt := by
  obtain ⟨rec, _, hrec⟩ := (mem_searchSorted L records query opts e).mp he
  have := ((searchEntry_some L _ opts rec e).mp hrec).1
  rw [this]
  exact ⟨rfl, rfl⟩

/-- With at least one query token, the score is the number of tokens that occur in the bag. -/
theorem scoreRecord_count (L : Stdlib) (rec : Record) (tokens : List String)
    (h : tokens ≠ []) :
    scoreRecord L rec tokens
      = ((tokens.filter (fun q => Contains (recordBag L rec) q)).length : Int) := by
  unfold scoreRecord
  rw [if_neg (by rwa [List.length_eq_zero])]
  simp only
  rw [tokenScore_foldl]
  simp

/-- The records of the candidates, in log order. -/
theorem searchCandidates_records (L : Stdlib) (tokens : List String) (opts : SearchOptions)
    (records : List Record) :
    (searchCandidates L tokens opts records).map (fun e => e.record)
      = records.filter (fun rec => (searchEntry L tokens opts rec).isSome) := by
  induction records with
  | nil => rfl
  | cons rec rest ih =>
    unfold searchCandidates
    cases h : searchEntry L tokens opts rec with
    | none => simp [List.filter_cons, h, ih]
    | some e =>
      have := ((searchEntry_some L tokens opts rec e).mp h).1
      simp [List.filter_cons, h, ih, this]

/-- The time that `Store.Search` sorts a record by is the instant that its verdict
timestamp parses to. -/
theorem parseOrZero_of_ok (L : Stdlib) (s : String) (t : Time)
    (h : L.parseRFC3339 s = .ok t) : parseOrZero L s = t := by
  unfold parseOrZero
  rw [h]

/-- The time that `Store.Search` sorts a record by, from the result of parsing its
verdict timestamp. -/
theorem parseOrZero_toOption (L : Stdlib) (s : String) :
    parseOrZero L s = ((L.parseRFC3339 s).toOption).getD zeroTime := by
  unfold parseOrZero
  cases L.parseRFC3339 s <;> rfl

/-- The order of the list returned by `Store.Search`, in terms of the entries that the
sort compares. -/
theorem search_sorted_entries (L : Stdlib) (records : List Record) (query : String)
    (opts : SearchOptions) :
    ∃ out, Store.Search L (.ok records) query opts = .ok out ∧
      out.Pairwise (fun r1 r2 =>
        scoreRecord L r2 (extractKeywords L query) ≤ scoreRecord L r1 (extractKeywords L query) ∧
        (scoreRecord L r2 (extractKeywords L query)
            = scoreRecord L r1 (extractKeywords L query) →
          parseOrZero L r2.VerdictAt ≤ parseOrZero L r1.VerdictAt)) ∧
      ∀ (sc : Int) (tm : Time),
        (out.filter (fun r => decide (scoreRecord L r (extractKeywords L query) = sc ∧
          parseOrZero L r.VerdictAt = tm))).Sublist records := by
  refine ⟨_, search_ok L records query opts, ?_, ?_⟩
  · rw [List.pairwise_map]
    have hp := (searchSorted_pairwise L records query opts).sublist
      (List.take_sublist (searchLimit opts).toNat _)
    refine hp.imp_of_mem ?_
    intro a b ha hb hab
    obtain ⟨ha1, ha2⟩ := searchSorted_entry L records query opts a (List.mem_of_mem_take ha)
    obtain ⟨hb1, hb2⟩ := searchSorted_entry L records query opts b (List.mem_of_mem_take hb)
    rw [← ha1, ← hb1, ← ha2, ← hb2]
    exact hab
  · intro sc tm
    have hP : ∀ a b : Scored, decide (a.score = sc ∧ a.time = tm) = true →
        decide (b.score = sc ∧ b.time = tm) = true → searchLess a b = false := by
      intro a b ha hb
      rw [decide_eq_true_eq] at ha hb
      rw [searchLess_false_iff, ha.1, hb.1, ha.2, hb.2]
      exact ⟨le_refl _, fun _ => le_refl _⟩
    have hstable := sliceStable_filter searchLess
      (fun e => decide (e.score = sc ∧ e.time = tm)) hP
      (searchCandidates L (extractKeywords L query) opts records)
    rw [List.filter_map]
    have hcongr : ((searchSorted L records query opts).take (searchLimit opts).toNat).filter
          ((fun r => decide (scoreRecord L r (extractKeywords L query) = sc ∧
            parseOrZero L r.VerdictAt = tm)) ∘ fun e => e.record)
        = ((searchSorted L records query opts).take (searchLimit opts).toNat).filter
          (fun e => decide (e.score = sc ∧ e.time = tm)) := by
      apply List.filter_congr
      intro e he
      obtain ⟨h1, h2⟩ := searchSorted_entry L records query opts e (List.mem_of_mem_take he)
      simp only [Function.comp, h1, h2]
    rw [hcongr]
    have h1 : (((searchSorted L records query opts).take (searchLimit opts).toNat).filter
        (fun e => decide (e.score = sc ∧ e.time = tm))).Sublist
        ((searchCandidates L (extractKeywords L query) opts records).filter
          (fun e => decide (e.score = sc ∧ e.time = tm))) := by
      rw [← hstable]
      exact (List.take_sublist _ _).filter _
    have h2 := (h1.trans (List.filter_sublist _)).map (fun e => e.record)
    rw [searchCandidates_records] at h2
    exact h2.trans (List.filter_sublist _)

/-- Claim C18. The list returned by `Store.Search` is ordered by score descending and,
among records of equal score, by verdict timestamp descending: of two returned records
with the same score whose verdict timestamps parse to the instants `t1` and `t2`, the
one that comes first has the later instant, or the same; the returned records with the
same score and the same parsed verdict timestamp are in the order of the log. -/
theorem search_ordered (L : Stdlib) (records : List Record) (query : String)
    (opts : SearchOptions) :
    ∃ out, Store.Search L (.ok records) query opts = .ok out ∧
      out.Pairwise (fun r1 r2 =>
        scoreRecord L r2 (extractKeywords L query) ≤ scoreRecord L r1 (extractKeywords L query) ∧
        (scoreRecord L r2 (extractKeywords L query)
            = scoreRecord L r1 (extractKeywords L query) →
          ∀ t1 t2 : Time, L.parseRFC3339 r1.VerdictAt = .ok t1 →
            L.parseRFC3339 r2.VerdictAt = .ok t2 → t2 ≤ t1)) ∧
      ∀ (sc : Int) (tm : Option Time),
        (out.filter (fun r => decide (scoreRecord L r (extractKeywords L query) = sc ∧
          (L.parseRFC3339 r.VerdictAt).toOption = tm))).Sublist records := by
  obtain ⟨out, hout, hord, hstable⟩ := search_sorted_entries L records query opts
  refine ⟨out, hout, hord.imp ?_, fun sc tm => ?_⟩
  · rintro r1 r2 ⟨h1, h2⟩
    refine ⟨h1, fun he t1 t2 ht1 ht2 => ?_⟩
    have := h2 he
    rw [parseOrZero_of_ok L _ t1 ht1, parseOrZero_of_ok L _ t2 ht2] at this
    exact this
  · refine List.Sublist.trans ?_ (hstable sc (tm.getD zeroTime))
    apply List.monotone_filter_right
    intro r hr
    rw [decide_eq_true_eq] at hr ⊢
    refine ⟨hr.1, ?_⟩
    rw [parseOrZero_toOption, hr.2]

/-- Claim C19, amended. A loaded record is a candidate of `Store.Search` (before the
truncation) exactly when its type equals the type filter if one is set, its decision
equals the verdict filter if one is set and, when the query has at least one keyword,
at least one query keyword occurs in the lower-cased concatenation of its case id,
type, summary, reasoning, implementation, dissent and stored keywords; its score is the
number of query keywords that so occur when the query has at least one keyword, and 1
when the query has none. -/
theorem search_candidates (L : Stdlib) (records : List Record) (query : String)
    (opts : SearchOptions) (rec : Record) (hrec : rec ∈ records) :
    ((∃ e ∈ searchSorted L records query opts, e.record = rec) ↔
      ((opts.Type_ = "" ∨ rec.Type_ = opts.Type_) ∧
        (opts.Verdict = "" ∨ rec.Verdict = opts.Verdict) ∧
        (extractKeywords L query ≠ [] →
          ∃ q ∈ extractKeywords L query, Contains (recordBag L rec) q = true))) ∧
    (∀ e ∈ searchSorted L records query opts, e.record = rec →
      (extractKeywords L query ≠ [] →
        e.score = (((extractKeywords L query).filter
          (fun q => Contains (recordBag L rec) q)).length : Int)) ∧
      (extractKeywords L query = [] → e.score = 1)) := by
  have hscore : ∀ hne : extractKeywords L query ≠ [],
      (scoreRecord L rec (extractKeywords L query) ≠ 0 ↔
        ∃ q ∈ extractKeywords L query, Contains (recordBag L rec) q = true) := by
    intro hne
    rw [scoreRecord_count L rec _ hne]
    rw [Ne, Int.natCast_eq_zero, List.length_eq_zero, List.filter_eq_nil_iff]
    push_neg
    rfl
  constructor
  · constructor
    · rintro ⟨e, he, her⟩
      obtain ⟨r, _, hr⟩ := (mem_searchSorted L records query opts e).mp he
      obtain ⟨h0, h1, h2, h3⟩ := (searchEntry_some L _ opts r e).mp hr
      have : r = rec := by rw [← her, h0]
      rw [this] at h1 h2 h3
      exact ⟨h1, h2, fun hne => (hscore hne).mp (h3 hne)⟩
    · rintro ⟨h1, h2, h3⟩
      refine ⟨_, (mem_searchSorted L records query opts _).mpr ⟨rec, hrec,
        (searchEntry_some L _ opts rec _).mpr ⟨rfl, h1, h2, fun hne => (hscore hne).mpr (h3 hne)⟩⟩,
        rfl⟩
  · intro e he her
    have h1 := (searchSorted_entry L records query opts e he).1
    rw [her] at h1
    rw [h1]
    constructor
    · intro hne
      exact scoreRecord_count L rec _ hne
    · intro hnil
      rw [hnil]
      rfl

/-- No white space rune is an upper-case ASCII letter. -/
theorem isSpace_not_upper (c : Char) (h : isSpace c = true) :
    ¬ ('A'.toNat ≤ c.toNat ∧ c.toNat ≤ 'Z'.toNat) := by
  have hA : 'A'.toNat = 65 := rfl
  have hZ : 'Z'.toNat = 90 := rfl
  rw [hA, hZ]
  unfold isSpace at h
  simp only [Bool.or_eq_true, decide_eq_true_eq, Bool.and_eq_true] at h
  omega

/-- Lower-casing maps white space to white space. -/
theorem toLowerRune_space (L : Stdlib) (c : Char) (h : isSpace c = true) :
    isSpace (toLowerRune L c) = true := by
  unfold toLowerRune
  split_ifs with h1 h2
  · exact absurd h2 (isSpace_not_upper c h)
  · exact h
  · exact h

/-- A run of white space has no field. -/
theorem fieldsFrom_spaces (l : List Char) (h : ∀ c ∈ l, isSpace c = true) :
    fieldsFrom [] l = [] := by
  induction l with
  | nil => rfl
  | cons c rest ih =>
    unfold fieldsFrom
    rw [if_pos (h c (List.mem_cons_self _ _)), if_pos rfl]
    exact ih (fun d hd => h d (List.mem_cons_of_mem _ hd))

/-- A query of white space only has no keyword. -/
theorem extractKeywords_blank (L : Stdlib)
    (query : String) (hblank : ∀ c ∈ query.data, isSpace c = true) :
    extractKeywords L query = [] := by
  unfold extractKeywords
  simp only
  have hf : Fields (replacePunctuation (ToLower L query)) = [] := by
    unfold Fields replacePunctuation ToLower
    apply fieldsFrom_spaces
    intro c hc
    simp only [List.mem_map] at hc
    obtain ⟨d, ⟨e, he, rfl⟩, rfl⟩ := hc
    split_ifs
    · decide
    · exact toLowerRune_space L e (hblank e he)
  rw [hf]
  rfl

/-- Without query keywords the first loop keeps exactly the records that pass the filters. -/
theorem searchEntry_no_keywords (L : Stdlib) (opts : SearchOptions) (rec : Record) :
    (searchEntry L [] opts rec).isSome
      = decide ((opts.Type_ = "" ∨ rec.Type_ = opts.Type_) ∧
          (opts.Verdict = "" ∨ rec.Verdict = opts.Verdict)) := by
  cases h : searchEntry L [] opts rec with
  | none =>
    symm
    rw [Option.isSome_none, decide_eq_false_iff_not]
    rintro ⟨h1, h2⟩
    have := (searchEntry_some L [] opts rec _).mpr ⟨rfl, h1, h2, fun hne => absurd rfl hne⟩
    rw [h] at this
    cases this
  | some e =>
    symm
    rw [Option.isSome_some, decide_eq_true_eq]
    obtain ⟨_, h1, h2, _⟩ := (searchEntry_some L [] opts rec e).mp h
    exact ⟨h1, h2⟩

/-- Without query keywords the sorted entries hold the records that pass the filters. -/
theorem searchSorted_records_perm (L : Stdlib) (records : List Record) (query : String)
    (opts : SearchOptions) (h : extractKeywords L query = []) :
    ((searchSorted L records query opts).map (fun e => e.record)).Perm
      (records.filter (fun rec => decide ((opts.Type_ = "" ∨ rec.Type_ = opts.Type_) ∧
        (opts.Verdict = "" ∨ rec.Verdict = opts.Verdict)))) := by
  have hp := (searchSorted_perm L records query opts).map (fun e => e.record)
  rw [searchCandidates_records, h] at hp
  have hc : (fun rec => (searchEntry L [] opts rec).isSome)
      = (fun rec => decide ((opts.Type_ = "" ∨ rec.Type_ = opts.Type_) ∧
        (opts.Verdict = "" ∨ rec.Verdict = opts.Verdict))) := by
    funext rec
    exact searchEntry_no_keywords L opts rec
  rw [hc] at hp
  exact hp

/-- Claim C16, amended. For a query that yields zero keywords, blank or not,
`Store.Search` returns what it returns for the empty query: every record that passes
the type and verdict filters is a candidate, so the result has `min(m, limit)` records
where `m` is the number of loaded records that pass the filters. -/
theorem search_no_keywords (L : Stdlib) (loaded : Except String (List Record))
    (query : String) (opts : SearchOptions) (h : extractKeywords L query = []) :
    Store.Search L loaded query opts = Store.Search L loaded "" opts ∧
    ∀ records, loaded = .ok records →
      ∃ out, Store.Search L loaded query opts = .ok out ∧
        out.length = min
          (records.filter (fun rec => decide ((opts.Type_ = "" ∨ rec.Type_ = opts.Type_) ∧
            (opts.Verdict = "" ∨ rec.Verdict = opts.Verdict)))).length
          (if opts.Limit ≤ 0 then 20 else opts.Limit).toNat := by
  constructor
  · have h0 : extractKeywords L "" = [] := rfl
    unfold Store.Search searchSorted
    rw [h, h0]
  · intro records hl
    rw [hl]
    refine ⟨_, search_ok L records query opts, ?_⟩
    rw [List.length_map, List.length_take, ← (searchSorted_records_perm L records query opts h).length_eq,
      List.length_map, Nat.min_comm]
    rfl

/-- The result of `Store.Search` for a query of white space and no filter, in terms of
the times that the sort compares. -/
theorem search_blank_entries (L : Stdlib) (records : List Record) (query : String)
    (opts : SearchOptions)
    (hblank : ∀ c ∈ query.data, isSpace c = true)
    (htype : opts.Type_ = "") (hverdict : opts.Verdict = "") :
    ∃ out, Store.Search L (.ok records) query opts = .ok out ∧
      out.length = min records.length (if opts.Limit ≤ 0 then 20 else opts.Limit).toNat ∧
      out.Pairwise (fun r1 r2 => parseOrZero L r2.VerdictAt ≤ parseOrZero L r1.VerdictAt) ∧
      ∃ omitted, (out ++ omitted).Perm records ∧
        ∀ r ∈ out, ∀ o ∈ omitted, parseOrZero L o.VerdictAt ≤ parseOrZero L r.VerdictAt := by
  have hk := extractKeywords_blank L query hblank
  have hperm := searchSorted_records_perm L records query opts hk
  have hall : records.filter (fun rec => decide ((opts.Type_ = "" ∨ rec.Type_ = opts.Type_) ∧
      (opts.Verdict = "" ∨ rec.Verdict = opts.Verdict))) = records := by
    rw [List.filter_eq_self]
    intro rec _
    simp [htype, hverdict]
  rw [hall] at hperm
  have hsorted : (searchSorted L records query opts).Pairwise
      (fun u v => parseOrZero L v.record.VerdictAt ≤ parseOrZero L u.record.VerdictAt) := by
    refine (searchSorted_pairwise L records query opts).imp_of_mem ?_
    intro a b ha hb hab
    obtain ⟨ha1, ha2⟩ := searchSorted_entry L records query opts a ha
    obtain ⟨hb1, hb2⟩ := searchSorted_entry L records query opts b hb
    rw [← ha2, ← hb2]
    apply hab.2
    have h1 : ∀ r : Record, scoreRecord L r [] = 1 := fun _ => rfl
    rw [ha1, hb1, hk, h1, h1]
  refine ⟨_, search_ok L records query opts, ?_, ?_,
    ((searchSorted L records query opts).drop (searchLimit opts).toNat).map (fun e => e.record),
    ?_, ?_⟩
  · rw [List.length_map, List.length_take, ← hperm.length_eq, List.length_map, Nat.min_comm]
    rfl
  · rw [List.pairwise_map]
    exact hsorted.sublist (List.take_sublist _ _)
  · rw [← List.map_append, List.take_append_drop]
    exact hperm
  · intro r hr o ho
    obtain ⟨a, ha, rfl⟩ := List.mem_map.mp hr
    obtain ⟨b, hb, rfl⟩ := List.mem_map.mp ho
    have := hsorted
    rw [← List.take_append_drop (searchLimit opts).toNat (searchSorted L records query opts),
      List.pairwise_append] at this
    exact this.2.2 a ha b hb

/-- Claim C17. For a query of white space only and no type or verdict filter,
`Store.Search` over `n` loaded records returns `min(n, limit)` records, where the limit
is the given one or 20 when the given one is not positive; the result is ordered by
verdict timestamp descending: of two returned records whose verdict timestamps parse to
the instants `t1` and `t2`, the one that comes first has the later instant, or the same;
and no omitted record has a later verdict timestamp than a returned one. -/
theorem search_blank (L : Stdlib) (records : List Record) (query : String)
    (opts : SearchOptions)
    (hblank : ∀ c ∈ query.data, isSpace c = true)
    (htype : opts.Type_ = "") (hverdict : opts.Verdict = "") :
    ∃ out, Store.Search L (.ok records) query opts = .ok out ∧
      out.length = min records.length (if opts.Limit ≤ 0 then 20 else opts.Limit).toNat ∧
      out.Pairwise (fun r1 r2 =>
        ∀ t1 t2 : Time, L.parseRFC3339 r1.VerdictAt = .ok t1 →
          L.parseRFC3339 r2.VerdictAt = .ok t2 → t2 ≤ t1) ∧
      ∃ omitted, (out ++ omitted).Perm records ∧
        ∀ r ∈ out, ∀ o ∈ omitted, ∀ t1 t2 : Time, L.parseRFC3339 r.VerdictAt = .ok t1 →
          L.parseRFC3339 o.VerdictAt = .ok t2 → t2 ≤ t1 := by
  obtain ⟨out, hout, hlen, hord, omitted, hperm, hom⟩ :=
    search_blank_entries L records query opts hblank htype hverdict
  refine ⟨out, hout, hlen, hord.imp ?_, omitted, hperm, ?_⟩
  · intro r1 r2 h t1 t2 ht1 ht2
    rw [parseOrZero_of_ok L _ t1 ht1, parseOrZero_of_ok L _ t2 ht2] at h
    exact h
  · intro r hr o ho t1 t2 ht1 ht2
    have := hom r hr o ho
    rw [parseOrZero_of_ok L _ t1 ht1, parseOrZero_of_ok L _ t2 ht2] at this
    exact this

/-- Claim C17 at three records in the order of their verdict timestamps, a query of two
spaces and the limit 2: the two latest records are returned, the latest first, and the
oldest is omitted. -/
theorem search_blank_witness :
    ∃ out, Store.Search refStdlib (.ok [sampleRecord, laterRecord, latestRecord]) "  "
        ⟨"", "", 2⟩ = .ok out ∧
      out = [latestRecord, laterRecord] ∧
      out.Pairwise (fun r1 r2 =>
        ∀ t1 t2 : Time, refStdlib.parseRFC3339 r1.VerdictAt = .ok t1 →
          refStdlib.parseRFC3339 r2.VerdictAt = .ok t2 → t2 ≤ t1) := by
  obtain ⟨out, h1, _, h3, _⟩ := search_blank refStdlib
    [sampleRecord, laterRecord, latestRecord] "  " ⟨"", "", 2⟩ (by decide) rfl rfl
  have he : (Store.Search refStdlib (.ok [sampleRecord, laterRecord, latestRecord]) "  "
      ⟨"", "", 2⟩).toOption = some [latestRecord, laterRecord] := by decide
  rw [h1] at he
  exact ⟨out, h1, Option.some.inj he, h3⟩

/-- Claim C16, refuted as stated: the query `the and` is not blank and yields zero
keywords, and `Store.Search` over two records returns both of them, not the empty list. -/
theorem search_stopwords_not_empty :
    TrimSpace "the and" ≠ "" ∧ extractKeywords refStdlib "the and" = [] ∧
    (Store.Search refStdlib (.ok [sampleRecord, laterRecord]) "the and" ⟨"", "", 5⟩).toOption
      = some [laterRecord, sampleRecord] := by
  decide

/-- Claim C16, amended, at the query `the and` over two records. -/
theorem search_no_keywords_witness :
    Store.Search refStdlib (.ok [sampleRecord, laterRecord]) "the and" ⟨"", "", 5⟩
      = Store.Search refStdlib (.ok [sampleRecord, laterRecord]) "" ⟨"", "", 5⟩ :=
  (search_no_keywords refStdlib (.ok [sampleRecord, laterRecord]) "the and" ⟨"", "", 5⟩
    (by decide)).1

/-- Claim C19, refuted as stated: for the empty query the candidate has score 1, while
the number of query keywords that occur in its text is 0. -/
theorem search_score_without_keywords :
    (searchSorted refStdlib [sampleRecord] "" ⟨"", "", 5⟩).map
      (fun e => (e.score, ((extractKeywords refStdlib "").filter
        (fun q => Contains (recordBag refStdlib e.record) q)).length))
      = [(1, 0)] := by
  decide

/-- Claim C19, amended, at the record and the query of `TestAddAndSearch`. -/
theorem search_candidates_witness :
    ∃ e ∈ searchSorted refStdlib [sampleRecord] "cleanup trap" ⟨"", "", 5⟩,
      e.record = sampleRecord :=
  ((search_candidates refStdlib [sampleRecord] "cleanup trap" ⟨"", "", 5⟩ sampleRecord
    (by decide)).1).mpr (by decide)

/-- Claim C18 at three records in the order of their verdict timestamps, of which the
first two hold both keywords of the query and the latest holds one: the two records of
score 2 come first, the later of them before the older, and the record of score 1 comes
last although it is the latest. -/
theorem search_ordered_witness :
    ∃ out, Store.Search refStdlib (.ok [sampleRecord, laterRecord, latestRecord])
        "cleanup trap" ⟨"", "", 5⟩ = .ok out ∧
      out = [laterRecord, sampleRecord, latestRecord] ∧
      out.map (fun r => scoreRecord refStdlib r (extractKeywords refStdlib "cleanup trap"))
        = [2, 2, 1] := by
  obtain ⟨out, h1, _, _⟩ := search_ordered refStdlib
    [sampleRecord, laterRecord, latestRecord] "cleanup trap" ⟨"", "", 5⟩
  have he : (Store.Search refStdlib (.ok [sampleRecord, laterRecord, latestRecord])
      "cleanup trap" ⟨"", "", 5⟩).toOption = some [laterRecord, sampleRecord, latestRecord] := by
    decide
  rw [h1] at he
  have ho := Option.some.inj he
  refine ⟨out, h1, ho, ?_⟩
  rw [ho]
  decide

/-- The loop of `extractKeywords` keeps only tokens of at least 3 bytes. -/
theorem keywordLoop_bytes (out parts : List String) (h : ∀ k ∈ out, 3 ≤ k.utf8ByteSize) :
    ∀ k ∈ keywordLoop out parts, 3 ≤ k.utf8ByteSize := by
  induction parts generalizing out with
  | nil => exact h
  | cons p rest ih =>
    unfold keywordLoop
    split_ifs with h1 h2 h3
    · exact ih out h
    · exact ih out h
    · exact ih out h
    · apply ih
      intro k hk
      rcases List.mem_append.mp hk with hk | hk
      · exact h k hk
      · rw [List.mem_singleton.mp hk]
        omega

/-- An ASCII rune is encoded on one byte. -/
theorem utf8Size_ascii (c : Char) (h : c.toNat ≤ 0x7F) : c.utf8Size = 1 := by
  unfold Char.utf8Size
  have : c.val ≤ 127 := by
    rw [UInt32.le_def]
    exact h
  simp [this]

/-- A run of ASCII runes has as many bytes as runes. -/
theorem utf8ByteSize_ascii (l : List Char) (h : ∀ c ∈ l, c.toNat ≤ 0x7F) :
    String.utf8ByteSize.go l = l.length := by
  induction l with
  | nil => rfl
  | cons c rest ih =>
    unfold String.utf8ByteSize.go
    rw [ih (fun d hd => h d (List.mem_cons_of_mem _ hd)), utf8Size_ascii c (h c (List.mem_cons_self _ _))]
    rfl

/-- Claim C20, amended. Every keyword returned by `extractKeywords` has at least 3
bytes in its UTF-8 encoding, the length that `len(p) < 3` tests; a keyword of ASCII
characters therefore has at least 3 characters. -/
theorem extractKeywords_bytes (L : Stdlib) (text : String) :
    ∀ k ∈ extractKeywords L text,
      3 ≤ k.utf8ByteSize ∧ ((∀ c ∈ k.data, c.toNat ≤ 0x7F) → 3 ≤ k.length) := by
  intro k hk
  have hb : 3 ≤ k.utf8ByteSize := by
    unfold extractKeywords at hk
    simp only at hk
    split_ifs at hk
    · simp at hk
    · exact keywordLoop_bytes [] _ (fun _ h => absurd h (List.not_mem_nil _)) k hk
  refine ⟨hb, fun hascii => ?_⟩
  have : k.utf8ByteSize = k.length := utf8ByteSize_ascii k.data hascii
  omega

/-- Claim C20, refuted as stated: the text made of the single character U+65E5, which
is encoded on 3 bytes, yields that one-character keyword. -/
theorem extractKeywords_short_keyword :
    extractKeywords refStdlib "日" = ["日"] ∧ "日".length = 1 ∧
    ¬ (∀ k ∈ extractKeywords refStdlib "日", 3 ≤ k.length) := by
  decide

/-- Claim C20, amended, at the keyword `cleanup` of the text `the cleanup`. -/
theorem extractKeywords_bytes_witness :
    3 ≤ "cleanup".length :=
  ((extractKeywords_bytes refStdlib "the cleanup" "cleanup" (by decide)).2 (by decide))

/-! ### The keywords of a text -/

/-- The loop of `extractKeywords` appends to `out` the surviving tokens that are not
in `out`, each once, in the order of their first occurrence. -/
theorem keywordLoop_eq (out parts : List String) :
    keywordLoop out parts = out ++ distinctFrom out (parts.filter survives) := by
  induction parts generalizing out with
  | nil => simp [keywordLoop, distinctFrom]
  | cons p rest ih =>
    unfold keywordLoop
    by_cases h1 : p.utf8ByteSize < 3
    · rw [if_pos h1, ih]
      have : survives p = false := by simp [survives]; intro h; omega
      rw [List.filter_cons_of_neg (by simp [this])]
    · rw [if_neg h1]
      by_cases h2 : p ∈ stopWords
      · rw [if_pos h2, ih]
        have : survives p = false := by simp [survives]; intro _; exact h2
        rw [List.filter_cons_of_neg (by simp [this])]
      · rw [if_neg h2]
        have hs : survives p = true := by
          simp only [survives, Bool.and_eq_true, decide_eq_true_eq]
          exact ⟨by omega, h2⟩
        rw [List.filter_cons_of_pos hs]
        by_cases h3 : p ∈ out
        · rw [if_pos h3, ih]
          conv_rhs => unfold distinctFrom
          rw [if_pos h3]
        · rw [if_neg h3, ih]
          conv_rhs => unfold distinctFrom
          rw [if_neg h3]
          simp

/-- The function `extractKeywords` returns the surviving tokens, each once, in the
order of their first occurrence. -/
theorem extractKeywords_eq (L : Stdlib) (text : String) :
    extractKeywords L text = distinctFrom [] ((tokens L text).filter survives) := by
  unfold extractKeywords tokens
  simp only
  split_ifs with h
  · rw [List.length_eq_zero.mp h]
    rfl
  · rw [keywordLoop_eq]
    rfl

/-- The runes of a field are runes of the text that are not white space. -/
theorem fieldsFrom_mem (cur l : List Char) (hcur : ∀ c ∈ cur, isSpace c = false) :
    ∀ p ∈ fieldsFrom cur l, ∀ c ∈ p.data, isSpace c = false ∧ (c ∈ cur ∨ c ∈ l) := by
  induction l generalizing cur with
  | nil =>
    intro p hp c hc
    unfold fieldsFrom at hp
    split_ifs at hp with h
    · simp at hp
    · rw [List.mem_singleton.mp hp] at hc
      have hc2 : c ∈ cur := List.mem_reverse.mp hc
      exact ⟨hcur c hc2, Or.inl hc2⟩
  | cons d rest ih =>
    intro p hp c hc
    unfold fieldsFrom at hp
    split_ifs at hp with h1 h2
    · obtain ⟨h3, h4⟩ := ih [] (by simp) p hp c hc
      rcases h4 with h4 | h4
      · simp at h4
      · exact ⟨h3, Or.inr (List.mem_cons_of_mem _ h4)⟩
    · rcases List.mem_cons.mp hp with e | e
      · rw [e] at hc
        have hc2 : c ∈ cur := List.mem_reverse.mp hc
        exact ⟨hcur c hc2, Or.inl hc2⟩
      · obtain ⟨h3, h4⟩ := ih [] (by simp) p e c hc
        rcases h4 with h4 | h4
        · simp at h4
        · exact ⟨h3, Or.inr (List.mem_cons_of_mem _ h4)⟩
    · have hcur2 : ∀ c ∈ d :: cur, isSpace c = false := by
        intro x hx
        rcases List.mem_cons.mp hx with e | e
        · rw [e]; simpa using h1
        · exact hcur x e
      obtain ⟨h3, h4⟩ := ih (d :: cur) hcur2 p hp c hc
      rcases h4 with h4 | h4
      · rcases List.mem_cons.mp h4 with e | e
        · exact ⟨h3, Or.inr (by rw [e]; exact List.mem_cons_self _ _)⟩
        · exact ⟨h3, Or.inl e⟩
      · exact ⟨h3, Or.inr (List.mem_cons_of_mem _ h4)⟩

/-- A token holds no white space and no rune of the replaced punctuation. -/
theorem tokens_runes (L : Stdlib) (text : String) :
    ∀ p ∈ tokens L text, ∀ c ∈ p.data, isSpace c = false ∧ c ∉ replacedRunes := by
  intro p hp c hc
  obtain ⟨h1, h2⟩ := fieldsFrom_mem [] _ (by simp) p hp c hc
  refine ⟨h1, fun hr => ?_⟩
  rcases h2 with h2 | h2
  · simp at h2
  · unfold replacePunctuation at h2
    simp only [List.mem_map] at h2
    obtain ⟨d, _, hd⟩ := h2
    split_ifs at hd with h3
    · rw [← hd] at h1
      revert h1
      decide
    · rw [hd] at h3
      exact h3 hr

/-- C25: the record `FromVerdict(v)` is determined by `v` (and the case tables of
the library); it copies the case id, the type, the summary, the decision, the
reasoning, the implementation, the dissent, the binding flag, the verdict timestamp
and the judge of the verdict; its keywords are `extractKeywords` of the summary, the
reasoning, the implementation and the dissent joined by spaces; its bead id is that of
the handoff when there is one, and empty otherwise. -/
theorem fromVerdict_fields (L : Stdlib) (v : Senate.Verdict) :
    (∀ w : Senate.Verdict, w = v → FromVerdict L w = FromVerdict L v) ∧
    (FromVerdict L v).CaseID = v.CaseID ∧ (FromVerdict L v).Type_ = v.Type_ ∧
    (FromVerdict L v).Summary = v.Summary ∧ (FromVerdict L v).Verdict = v.Verdict ∧
    (FromVerdict L v).Reasoning = v.Reasoning ∧
    (FromVerdict L v).Implementation = v.Implementation ∧
    (FromVerdict L v).Dissent = v.Dissent ∧ (FromVerdict L v).Binding = v.Binding ∧
    (FromVerdict L v).VerdictAt = v.VerdictAt ∧ (FromVerdict L v).Judge = v.Judge ∧
    (FromVerdict L v).Keywords =
      extractKeywords L
        (v.Summary ++ " " ++ v.Reasoning ++ " " ++ v.Implementation ++ " " ++ v.Dissent) ∧
    (∀ h, v.Handoff = some h → (FromVerdict L v).BeadID = h.BeadID) ∧
    (v.Handoff = none → (FromVerdict L v).BeadID = "") := by
  have hj : Join [v.Summary, v.Reasoning, v.Implementation, v.Dissent] " " =
      v.Summary ++ " " ++ v.Reasoning ++ " " ++ v.Implementation ++ " " ++ v.Dissent := by
    apply String.ext
    simp [Join, String.intercalate, String.intercalate.go]
  refine ⟨fun w hw => by rw [hw], ?_⟩
  unfold FromVerdict
  rw [hj]
  cases hh : v.Handoff with
  | none => simp
  | some h => simp

/-- Claim C25 at a verdict with a handoff and at the same verdict without it. -/
theorem fromVerdict_fields_witness :
    (FromVerdict refStdlib handedOff).BeadID = "athena-xyz" ∧
    (FromVerdict refStdlib { handedOff with Handoff := none }).BeadID = "" ∧
    (FromVerdict refStdlib handedOff).Keywords =
      ["amend", "silent", "fallback", "false", "positives", "cleanup", "handlers", "exclude",
        "trap", "context"] :=
  ⟨(fromVerdict_fields refStdlib handedOff).2.2.2.2.2.2.2.2.2.2.2.2.1 _ rfl,
    (fromVerdict_fields refStdlib { handedOff with Handoff := none }).2.2.2.2.2.2.2.2.2.2.2.2.2 rfl,
    by decide⟩

/-! ### Normalization and validation of a case -/

/-- The fields of the case that `Case.Normalize` leaves. -/
theorem normalize_eq (L : Stdlib) (c : Case) (now : Time) :
    c.Normalize L now =
      { ID := if TrimSpace c.ID = "" then NewCaseID L now else TrimSpace c.ID,
        Type_ := if TrimSpace c.Type_ = "" then "general" else TrimSpace c.Type_,
        Summary := if TrimSpace c.Summary = "" then TrimSpace c.Question else TrimSpace c.Summary,
        Question :=
          if TrimSpace c.Question = "" then
            (if TrimSpace c.Summary = "" then TrimSpace c.Question else TrimSpace c.Summary)
          else TrimSpace c.Question,
        Evidence := c.Evidence,
        RequestedDecision := c.RequestedDecision,
        FiledAt := if TrimSpace c.FiledAt = "" then L.formatRFC3339 now else c.FiledAt,
        FiledBy := c.FiledBy } := by
  unfold Case.Normalize
  by_cases h1 : TrimSpace c.ID = "" <;> by_cases h2 : TrimSpace c.Type_ = "" <;>
    by_cases h3 : TrimSpace c.Summary = "" <;> by_cases h4 : TrimSpace c.Question = "" <;>
    by_cases h5 : TrimSpace c.FiledAt = "" <;> simp [h1, h2, h3, h4, h5]

/-- The summary and the question that `Case.Normalize` leaves. -/
theorem normalize_summary (L : Stdlib) (c : Case) (now : Time) :
    (c.Normalize L now).Summary =
      (if TrimSpace c.Summary = "" then TrimSpace c.Question else TrimSpace c.Summary) ∧
    (c.Normalize L now).Question =
      (if TrimSpace c.Question = "" then
        (if TrimSpace c.Summary = "" then TrimSpace c.Question else TrimSpace c.Summary)
      else TrimSpace c.Question) := by
  rw [normalize_eq]
  exact ⟨rfl, rfl⟩

/-- C26: `Case.Normalize` leaves a blank summary equal to the trimmed question when
the question is not blank, a blank question equal to the trimmed summary when the
summary is not blank, and, when neither is blank, each of them only trimmed. -/
theorem normalize_summary_question (L : Stdlib) (c : Case) (now : Time) :
    (TrimSpace c.Summary = "" → TrimSpace c.Question ≠ "" →
      (c.Normalize L now).Summary = TrimSpace c.Question ∧
      (c.Normalize L now).Question = TrimSpace c.Question) ∧
    (TrimSpace c.Question = "" → TrimSpace c.Summary ≠ "" →
      (c.Normalize L now).Question = TrimSpace c.Summary ∧
      (c.Normalize L now).Summary = TrimSpace c.Summary) ∧
    (TrimSpace c.Summary ≠ "" → TrimSpace c.Question ≠ "" →
      (c.Normalize L now).Summary = TrimSpace c.Summary ∧
      (c.Normalize L now).Question = TrimSpace c.Question) := by
  obtain ⟨h1, h2⟩ := normalize_summary L c now
  rw [h1, h2]
  refine ⟨fun hs hq => ?_, fun hq hs => ?_, fun hs hq => ?_⟩
  · rw [if_pos hs, if_neg hq]
    exact ⟨rfl, rfl⟩
  · rw [if_pos hq, if_neg hs]
    exact ⟨rfl, rfl⟩
  · rw [if_neg hs, if_neg hq]
    exact ⟨rfl, rfl⟩

/-- Claim C26 at the case of `TestCaseNormalizeAndValidate`, whose summary is blank. -/
theorem normalize_summary_question_witness :
    (questionOnly.Normalize refStdlib testNow).Summary = "Should we amend rule X?" ∧
    (questionOnly.Normalize refStdlib testNow).Question = "Should we amend rule X?" :=
  (normalize_summary_question refStdlib questionOnly testNow).1 (by decide) (by decide)

/-- A string that starts with a rune that is not white space is not blank. -/
theorem TrimSpace_ne_empty (s : String) (c : Char) (hc : c ∈ s.data) (hs : isSpace c = false) :
    TrimSpace s ≠ "" := by
  intro h
  have h2 := congrArg String.data h
  rw [TrimSpace_data] at h2
  exact trimChars_ne_nil s.data c hc hs h2

/-- A generated case identifier is not blank. -/
theorem newCaseID_not_blank (L : Stdlib) (now : Time) :
    NewCaseID L now ≠ "" ∧ TrimSpace (NewCaseID L now) ≠ "" := by
  have hmem : 's' ∈ (NewCaseID L now).data := by
    unfold NewCaseID
    rw [String.data_append]
    exact List.mem_append.mpr (Or.inl (by decide))
  refine ⟨fun h => ?_, TrimSpace_ne_empty _ 's' hmem (by decide)⟩
  rw [h] at hmem
  simp at hmem

/-- No entry is blank exactly when the search for the first blank entry finds none. -/
theorem firstBlankFrom_none (k : Nat) (l : List String) :
    firstBlankFrom k l = none ↔ ∀ e ∈ l, TrimSpace e ≠ "" := by
  induction l generalizing k with
  | nil => simp [firstBlankFrom]
  | cons a rest ih =>
    unfold firstBlankFrom
    split_ifs with h
    · simp [h]
    · rw [ih]
      simp [h]

/-- The search for the first blank entry returns the position of the first entry that
is blank after trimming. -/
theorem firstBlankFrom_some (k : Nat) (l : List String) (i : Nat) :
    firstBlankFrom k l = some (k + i) ↔
      (∃ e, l[i]? = some e ∧ TrimSpace e = "") ∧
      ∀ j < i, ∀ e, l[j]? = some e → TrimSpace e ≠ "" := by
  induction l generalizing k i with
  | nil => simp [firstBlankFrom]
  | cons a rest ih =>
    unfold firstBlankFrom
    split_ifs with h
    · constructor
      · intro hi
        have h0 : i = 0 := by
          have := Option.some.inj hi
          omega
        subst h0
        exact ⟨⟨a, by simp, h⟩, fun j hj => absurd hj (Nat.not_lt_zero j)⟩
      · rintro ⟨_, hmin⟩
        cases i with
        | zero => rfl
        | succ n => exact absurd h (hmin 0 (Nat.succ_pos n) a (by simp))
    · cases i with
      | zero =>
        constructor
        · intro hi
          exfalso
          have hge : ∀ (l : List String) (k i : Nat), firstBlankFrom k l = some i → k ≤ i := by
            intro l
            induction l with
            | nil => intro k i hk; simp [firstBlankFrom] at hk
            | cons b r ihr =>
              intro k i hk
              unfold firstBlankFrom at hk
              split_ifs at hk
              · have := Option.some.inj hk
                omega
              · have := ihr (k + 1) i hk
                omega
          have := hge rest (k + 1) (k + 0) hi
          omega
        · rintro ⟨⟨e, he, hb⟩, _⟩
          simp only [List.getElem?_cons_zero, Option.some.injEq] at he
          rw [he] at h
          exact absurd hb h
      | succ n =>
        have hk : k + (n + 1) = (k + 1) + n := by omega
        rw [hk, ih (k + 1) n]
        constructor
        · rintro ⟨⟨e, he, hb⟩, hmin⟩
          refine ⟨⟨e, by simpa using he, hb⟩, ?_⟩
          intro j hj e2 he2
          cases j with
          | zero =>
            simp only [List.getElem?_cons_zero, Option.some.injEq] at he2
            rw [← he2]
            exact h
          | succ m => exact hmin m (by omega) e2 (by simpa using he2)
        · rintro ⟨⟨e, he, hb⟩, hmin⟩
          refine ⟨⟨e, by simpa using he, hb⟩, ?_⟩
          intro j hj e2 he2
          exact hmin (j + 1) (by omega) e2 (by simpa using he2)

/-- C27, amended: for every case with a question or a summary that is not blank, a
filing timestamp that is blank or parses as RFC 3339, and no blank evidence entry, and
for every time `now` that RFC 3339 can represent when the filing timestamp is blank,
the case left by `Normalize(now)` passes `Validate`; a blank id has been replaced by a
generated id that is not empty, a blank type by `general`, and a blank filing timestamp
by `now` formatted as RFC 3339. -/
theorem normalize_validate (L : Stdlib) (c : Case) (now : Time)
    (hq : TrimSpace c.Question ≠ "" ∨ TrimSpace c.Summary ≠ "")
    (hf : TrimSpace c.FiledAt = "" ∨ ∃ t, L.parseRFC3339 c.FiledAt = .ok t)
    (hnow : TrimSpace c.FiledAt = "" → Representable L now)
    (he : ∀ e ∈ c.Evidence, TrimSpace e ≠ "") :
    (c.Normalize L now).Validate L = none ∧
    (TrimSpace c.ID = "" →
      (c.Normalize L now).ID = NewCaseID L now ∧ (c.Normalize L now).ID ≠ "") ∧
    (TrimSpace c.Type_ = "" → (c.Normalize L now).Type_ = "general") ∧
    (TrimSpace c.FiledAt = "" → (c.Normalize L now).FiledAt = L.formatRFC3339 now) := by
  rw [normalize_eq]
  refine ⟨?_, ?_, ?_, ?_⟩
  · unfold Case.Validate
    dsimp only
    have h1 : TrimSpace (if TrimSpace c.ID = "" then NewCaseID L now else TrimSpace c.ID) ≠ "" := by
      split_ifs with h
      · exact (newCaseID_not_blank L now).2
      · rw [TrimSpace_idem]; exact h
    have h2 : TrimSpace (if TrimSpace c.Type_ = "" then "general" else TrimSpace c.Type_) ≠ "" := by
      split_ifs with h
      · decide
      · rw [TrimSpace_idem]; exact h
    have h3 : TrimSpace (if TrimSpace c.Summary = "" then TrimSpace c.Question
        else TrimSpace c.Summary) ≠ "" := by
      split_ifs with h
      · rw [TrimSpace_idem]
        rcases hq with hq | hq
        · exact hq
        · exact absurd h hq
      · rw [TrimSpace_idem]; exact h
    have h4 : TrimSpace (if TrimSpace c.Question = "" then
        (if TrimSpace c.Summary = "" then TrimSpace c.Question else TrimSpace c.Summary)
        else TrimSpace c.Question) ≠ "" := by
      split_ifs with h h'
      · rcases hq with hq | hq
        · exact absurd h hq
        · exact absurd h' hq
      · rw [TrimSpace_idem]; exact h'
      · rw [TrimSpace_idem]; exact h
    have h5 : TrimSpace (if TrimSpace c.FiledAt = "" then L.formatRFC3339 now else c.FiledAt) ≠ "" ∧
        ∃ t, L.parseRFC3339 (if TrimSpace c.FiledAt = "" then L.formatRFC3339 now
          else c.FiledAt) = .ok t := by
      split_ifs with h
      · exact hnow h
      · rcases hf with hf | hf
        · exact absurd hf h
        · exact ⟨h, hf⟩
    obtain ⟨t, ht⟩ := h5.2
    rw [if_neg h1, if_neg h2, if_neg h3, if_neg h4, if_neg h5.1, ht]
    dsimp only
    rw [(firstBlankFrom_none 0 c.Evidence).mpr he]
  · intro h
    dsimp only
    rw [if_pos h]
    exact ⟨rfl, (newCaseID_not_blank L now).1⟩
  · intro h
    dsimp only
    rw [if_pos h]
  · intro h
    dsimp only
    rw [if_pos h]

/-- Claim C27, refuted as stated: at the instant 10000-01-01T00:00:00Z the case of
`TestCaseNormalizeAndValidate`, whose question is not blank and whose filing timestamp
is blank, is left by `Normalize` with the filing timestamp 10000-01-01T00:00:00Z, which
does not parse, so it fails `Validate`. -/
theorem normalize_invalid_after_year_9999 :
    TrimSpace questionOnly.Question ≠ "" ∧ TrimSpace questionOnly.FiledAt = "" ∧
    questionOnly.Evidence = [] ∧
    (questionOnly.Normalize refStdlib yearTenThousand).FiledAt = "10000-01-01T00:00:00Z" ∧
    (questionOnly.Normalize refStdlib yearTenThousand).Validate refStdlib =
      some "case.filed_at must be RFC3339: parsing time: cannot parse" := by
  decide

/-- Claim C27, amended, at the case and the instant of `TestCaseNormalizeAndValidate`. -/
theorem normalize_validate_witness :
    (questionOnly.Normalize refStdlib testNow).Validate refStdlib = none ∧
    (questionOnly.Normalize refStdlib testNow).ID = "senate-20260220-101112" ∧
    (questionOnly.Normalize refStdlib testNow).Type_ = "general" ∧
    (questionOnly.Normalize refStdlib testNow).FiledAt = "2026-02-20T10:11:12Z" :=
  have h := normalize_validate refStdlib questionOnly testNow (Or.inl (by decide))
    (Or.inl (by decide)) (fun _ => by decide) (by decide)
  ⟨h.1, by decide, h.2.2.1 (by decide), by decide⟩

/-- C28: `Case.Validate` returns an error exactly when the id, the type, the summary,
the question or the filing timestamp is blank, the filing timestamp does not parse as
RFC 3339, or some evidence entry is blank after trimming; when only the evidence is at
fault, the error names the index of the first blank entry, `case.evidence[1]` for the
evidence `["ok", ""]`. -/
theorem case_validate_error (L : Stdlib) (c : Case) :
    (c.Validate L ≠ none ↔
      TrimSpace c.ID = "" ∨ TrimSpace c.Type_ = "" ∨ TrimSpace c.Summary = "" ∨
      TrimSpace c.Question = "" ∨ TrimSpace c.FiledAt = "" ∨
      (∃ msg, L.parseRFC3339 c.FiledAt = .error msg) ∨ ∃ e ∈ c.Evidence, TrimSpace e = "") ∧
    (TrimSpace c.ID ≠ "" → TrimSpace c.Type_ ≠ "" → TrimSpace c.Summary ≠ "" →
      TrimSpace c.Question ≠ "" → TrimSpace c.FiledAt ≠ "" →
      (∃ t, L.parseRFC3339 c.FiledAt = .ok t) →
      ∀ (i : Nat) (e : String), c.Evidence[i]? = some e → TrimSpace e = "" →
        (∀ j < i, ∀ e2, c.Evidence[j]? = some e2 → TrimSpace e2 ≠ "") →
        c.Validate L = some ("case.evidence[" ++ formatNat i ++ "] must not be empty")) ∧
    blankEvidence.Validate refStdlib = some "case.evidence[1] must not be empty" := by
  refine ⟨?_, ?_, by decide⟩
  · constructor
    · intro h
      by_contra hn
      simp only [not_or, not_exists] at hn
      obtain ⟨h1, h2, h3, h4, h5, h6, h7⟩ := hn
      apply h
      unfold Case.Validate
      rw [if_neg h1, if_neg h2, if_neg h3, if_neg h4, if_neg h5]
      cases hp : L.parseRFC3339 c.FiledAt with
      | error msg => exact absurd hp (h6 msg)
      | ok t =>
        dsimp only
        rw [(firstBlankFrom_none 0 c.Evidence).mpr (fun e he hb => h7 e ⟨he, hb⟩)]
    · intro h hv
      obtain ⟨h1, h2, h3, h4, h5, ⟨t, ht⟩, h7⟩ := Case.validate_none L c hv
      rcases h with h | h | h | h | h | ⟨msg, h⟩ | ⟨e, he, hb⟩
      · exact h1 h
      · exact h2 h
      · exact h3 h
      · exact h4 h
      · exact h5 h
      · rw [ht] at h; cases h
      · exact (firstBlankFrom_none 0 c.Evidence).mp h7 e he hb
  · intro h1 h2 h3 h4 h5 ⟨t, ht⟩ i e hi hb hmin
    unfold Case.Validate
    rw [if_neg h1, if_neg h2, if_neg h3, if_neg h4, if_neg h5, ht]
    dsimp only
    have hfb : firstBlankFrom 0 c.Evidence = some (0 + i) :=
      (firstBlankFrom_some 0 c.Evidence i).mpr ⟨⟨e, hi, hb⟩, hmin⟩
    rw [hfb, Nat.zero_add]

/-- Claim C28 at the case of `TestCaseValidateRejectsEmptyEvidence`. -/
theorem case_validate_error_witness :
    blankEvidence.Validate refStdlib = some ("case.evidence[" ++ formatNat 1 ++ "] must not be empty") :=
  (case_validate_error refStdlib blankEvidence).2.1 (by decide) (by decide) (by decide)
    (by decide) (by decide) ⟨_, rfl⟩ 1 "" rfl (by decide) (by decide)

/-! ### The handoff to the issue tracker -/

/-- C29: for every verdict whose binding flag is false or whose decision is deferred,
`CreateBeadForVerdict` returns the status `skipped` and no error, and makes no call to
the runner. -/
theorem createBead_skipped (L : Stdlib) (athenaWorkspace : String) (runner : Runner)
    (workspaceDir : String) (verdict : Senate.Verdict)
    (h : verdict.Binding = false ∨ verdict.Verdict = DecisionDefer) :
    (CreateBeadForVerdict L athenaWorkspace runner workspaceDir verdict).1.1 =
      { BeadID := "", Title := "", Status := "skipped" } ∧
    (CreateBeadForVerdict L athenaWorkspace runner workspaceDir verdict).1.2 = none ∧
    (CreateBeadForVerdict L athenaWorkspace runner workspaceDir verdict).2 = [] := by
  unfold CreateBeadForVerdict
  have hc : (!verdict.Binding || decide (verdict.Verdict = DecisionDefer)) = true := by
    rcases h with h | h
    · rw [h]; rfl
    · rw [h]; simp
  rw [if_pos hc]
  exact ⟨rfl, rfl, rfl⟩

/-- Claim C29 at the verdict of `TestCreateBeadForVerdictSkipDefer`. -/
theorem createBead_skipped_witness :
    (CreateBeadForVerdict refStdlib "" (fakeRunner "athena-xyz") "" deferredVerdict).1.1 =
      { BeadID := "", Title := "", Status := "skipped" } ∧
    (CreateBeadForVerdict refStdlib "" (fakeRunner "athena-xyz") "" deferredVerdict).1.2 = none ∧
    (CreateBeadForVerdict refStdlib "" (fakeRunner "athena-xyz") "" deferredVerdict).2 = [] :=
  createBead_skipped refStdlib "" (fakeRunner "athena-xyz") "" deferredVerdict (Or.inr rfl)

/-- The runes of a block of the pattern are not white space. -/
theorem alnumDash_not_space (c : Char) (h : isAlnumDash c = true) : isSpace c = false := by
  unfold isAlnumDash isAlnum at h
  unfold isSpace
  have e1 : 'A'.toNat = 65 := rfl
  have e2 : 'Z'.toNat = 90 := rfl
  have e3 : 'a'.toNat = 97 := rfl
  have e4 : 'z'.toNat = 122 := rfl
  have e5 : '0'.toNat = 48 := rfl
  have e6 : '9'.toNat = 57 := rfl
  rw [e1, e2, e3, e4, e5, e6] at h
  simp only [Bool.or_eq_true, Bool.and_eq_true, decide_eq_true_eq] at h
  have hn : (48 ≤ c.toNat ∧ c.toNat ≤ 122) ∨ c.toNat = 45 := by
    rcases h with ((h | h) | h) | h
    · exact Or.inl ⟨by omega, by omega⟩
    · exact Or.inl ⟨by omega, by omega⟩
    · exact Or.inl ⟨by omega, by omega⟩
    · right; rw [h]; rfl
  simp only [Bool.or_eq_false_iff, Bool.and_eq_false_iff, decide_eq_false_iff_not]
  omega

/-- A match that starts at the first rune is a block of the pattern at the head of the
run. -/
theorem matchHere_some (l m : List Char) (h : matchHere l = some m) :
    MatchesPattern m ∧ ∃ post, l = m ++ post := by
  have hl : l.takeWhile isAlnum ++ l.dropWhile isAlnum = l := List.takeWhile_append_dropWhile _ _
  have ha : ∀ x ∈ l.takeWhile isAlnum, isAlnum x = true := fun x hx => List.mem_takeWhile_imp hx
  unfold matchHere at h
  split at h
  · rename_i a0 as b rest hta hdr
    split_ifs at h with hb
    have hm := Option.some.inj h
    refine ⟨⟨l.takeWhile isAlnum, b, rest.takeWhile isAlnumDash, hm.symm, ?_, ha, hb, ?_⟩, ?_⟩
    · rw [hta]; exact List.cons_ne_nil _ _
    · exact fun x hx => List.mem_takeWhile_imp hx
    · refine ⟨rest.dropWhile isAlnumDash, ?_⟩
      rw [← hm]
      conv_lhs => rw [← hl, hdr, ← List.takeWhile_append_dropWhile isAlnumDash rest]
      simp
  · cases h

/-- A block of the pattern at the head of a run is found there. -/
theorem matchHere_of_match (w post : List Char) (h : MatchesPattern w) :
    ∃ m, matchHere (w ++ post) = some m := by
  obtain ⟨a, b, c, hw, hne, ha, hb, _⟩ := h
  have hdash : isAlnum '-' = false := by decide
  have ht : (w ++ post).takeWhile isAlnum = a := by
    rw [hw, List.append_assoc, List.takeWhile_append_of_pos ha]
    simp [List.takeWhile, hdash]
  have hd : (w ++ post).dropWhile isAlnum = '-' :: b :: (c ++ post) := by
    rw [hw, List.append_assoc, List.dropWhile_append_of_pos ha]
    simp [List.dropWhile, hdash]
  obtain ⟨x, xs, hx⟩ := List.exists_cons_of_ne_nil hne
  unfold matchHere
  rw [ht, hd, hx]
  simp [hb]

/-- The leftmost match is a block of the pattern inside the run. -/
theorem findMatch_some (l m : List Char) (h : findMatch l = some m) :
    MatchesPattern m ∧ ∃ pre post, l = pre ++ m ++ post := by
  induction l with
  | nil => simp [findMatch] at h
  | cons c rest ih =>
    unfold findMatch at h
    cases hm : matchHere (c :: rest) with
    | some m2 =>
      rw [hm] at h
      have e := Option.some.inj h
      subst e
      obtain ⟨h1, post, h2⟩ := matchHere_some _ _ hm
      exact ⟨h1, [], post, by simpa using h2⟩
    | none =>
      rw [hm] at h
      obtain ⟨h1, pre, post, h2⟩ := ih h
      exact ⟨h1, c :: pre, post, by rw [h2]; simp⟩

/-- A run that holds a block of the pattern has a leftmost match. -/
theorem findMatch_of_hasMatch (l : List Char) (h : HasMatch l) : ∃ m, findMatch l = some m := by
  obtain ⟨pre, w, post, hl, hw⟩ := h
  subst hl
  induction pre with
  | nil =>
    obtain ⟨m, hm⟩ := matchHere_of_match w post hw
    obtain ⟨a, b, c, hwe, hne, _⟩ := hw
    obtain ⟨x, xs, hx⟩ := List.exists_cons_of_ne_nil hne
    have hcons : [] ++ w ++ post = x :: (xs ++ '-' :: b :: c ++ post) := by
      rw [hwe, hx]; simp
    have hm2 : matchHere (x :: (xs ++ '-' :: b :: c ++ post)) = some m := by
      rw [← hcons]; simpa using hm
    rw [hcons]
    unfold findMatch
    rw [hm2]
    exact ⟨m, rfl⟩
  | cons c pre ih =>
    obtain ⟨m, hm⟩ := ih
    have hcons : c :: pre ++ w ++ post = c :: (pre ++ w ++ post) := by simp
    rw [hcons]
    unfold findMatch
    cases hh : matchHere (c :: (pre ++ w ++ post)) with
    | some m2 => exact ⟨m2, rfl⟩
    | none => exact ⟨m, hm⟩

/-- The pattern matches a string exactly when the string holds a block of the pattern. -/
theorem matchString_iff (s : String) :
    beadIDPattern.MatchString s = true ↔ HasMatch s.data := by
  unfold beadIDPattern.MatchString
  constructor
  · intro h
    obtain ⟨m, hm⟩ := Option.isSome_iff_exists.mp h
    obtain ⟨h1, pre, post, h2⟩ := findMatch_some _ _ hm
    exact ⟨pre, m, post, h2, h1⟩
  · intro h
    obtain ⟨m, hm⟩ := findMatch_of_hasMatch _ h
    rw [hm]
    rfl

/-- The text that `FindString` returns for a string with a match is a block of the
pattern inside the string. -/
theorem findString_spec (s : String) (h : HasMatch s.data) :
    MatchesPattern (beadIDPattern.FindString s).data ∧
    (beadIDPattern.FindString s).data <:+: s.data := by
  obtain ⟨m, hm⟩ := findMatch_of_hasMatch _ h
  obtain ⟨h1, pre, post, h2⟩ := findMatch_some _ _ hm
  unfold beadIDPattern.FindString
  rw [hm]
  exact ⟨h1, pre, post, h2.symm⟩

/-- A block of the pattern is not empty. -/
theorem matchesPattern_ne_nil (w : List Char) (h : MatchesPattern w) : w ≠ [] := by
  obtain ⟨a, b, c, hw, _⟩ := h
  rw [hw]
  simp

/-- The lines of a text that starts with a newline. -/
theorem splitNewline_cons_newline (l : List Char) :
    splitNewline (newline :: l) = [] :: splitNewline l := by
  rw [splitNewline, if_pos rfl]

/-- A text has at least one line. -/
theorem splitNewline_ne_nil (l : List Char) : splitNewline l ≠ [] := by
  cases l with
  | nil => simp [splitNewline]
  | cons c rest =>
    rw [splitNewline]
    split_ifs
    · simp
    · split <;> simp

/-- The lines of a text that starts with another rune than the newline. -/
theorem splitNewline_cons_other (c : Char) (l : List Char) (h : c ≠ newline) :
    ∃ s ss, splitNewline l = s :: ss ∧ splitNewline (c :: l) = (c :: s) :: ss := by
  obtain ⟨s, ss, hs⟩ := List.exists_cons_of_ne_nil (splitNewline_ne_nil l)
  refine ⟨s, ss, hs, ?_⟩
  rw [splitNewline, if_neg h, hs]

/-- Splitting at the newlines splits at each of them. -/
theorem splitNewline_append (x y : List Char) :
    splitNewline (x ++ newline :: y) = splitNewline x ++ splitNewline y := by
  induction x with
  | nil => rw [List.nil_append, splitNewline_cons_newline]; rfl
  | cons d x ih =>
    rw [List.cons_append]
    by_cases h : d = newline
    · rw [h, splitNewline_cons_newline, splitNewline_cons_newline, ih]
      rfl
    · obtain ⟨s, ss, hs, hc⟩ := splitNewline_cons_other d x h
      obtain ⟨s2, ss2, hs2, hc2⟩ := splitNewline_cons_other d (x ++ newline :: y) h
      rw [hc, hc2]
      rw [ih, hs] at hs2
      simp only [List.cons_append, List.cons.injEq] at hs2
      rw [← hs2.1, ← hs2.2]
      rfl

/-- A run without newline is one line. -/
theorem splitNewline_single (l : List Char) (h : newline ∉ l) : splitNewline l = [l] := by
  induction l with
  | nil => rfl
  | cons d l ih =>
    have hd : d ≠ newline := fun e => h (by rw [e]; exact List.mem_cons_self _ _)
    obtain ⟨s, ss, hs, hc⟩ := splitNewline_cons_other d l hd
    rw [ih (fun hm => h (List.mem_cons_of_mem _ hm))] at hs
    simp only [List.cons.injEq] at hs
    rw [hc, ← hs.1, ← hs.2]

/-- A run has no newline, or a last one. -/
theorem last_newline (l : List Char) :
    newline ∉ l ∨ ∃ x y, l = x ++ newline :: y ∧ newline ∉ y := by
  induction l with
  | nil => left; simp
  | cons d l ih =>
    rcases ih with h | ⟨x, y, hl, hy⟩
    · by_cases hd : d = newline
      · right; exact ⟨[], l, by rw [hd]; rfl, h⟩
      · left
        intro hm
        rcases List.mem_cons.mp hm with e | e
        · exact hd e.symm
        · exact h e
    · right; exact ⟨d :: x, y, by rw [hl]; rfl, hy⟩

/-- A run has no newline, or a first one. -/
theorem first_newline (l : List Char) :
    newline ∉ l ∨ ∃ x y, l = x ++ newline :: y ∧ newline ∉ x := by
  induction l with
  | nil => left; simp
  | cons d l ih =>
    by_cases hd : d = newline
    · right; exact ⟨[], l, by rw [hd]; rfl, by simp⟩
    · rcases ih with h | ⟨x, y, hl, hx⟩
      · left
        intro hm
        rcases List.mem_cons.mp hm with e | e
        · exact hd e.symm
        · exact h e
      · right
        refine ⟨d :: x, y, by rw [hl]; rfl, ?_⟩
        intro hm
        rcases List.mem_cons.mp hm with e | e
        · exact hd e.symm
        · exact hx e

/-- White space in front of a run does not change what the run trims to. -/
theorem trimChars_cons_space (c : Char) (l : List Char) (hc : isSpace c = true) :
    trimChars (c :: l) = trimChars l := by
  unfold trimChars
  rw [List.dropWhile_cons_of_pos hc]

/-- White space behind a run does not change what the run trims to. -/
theorem trimChars_concat_space (c : Char) (l : List Char) (hc : isSpace c = true) :
    trimChars (l ++ [c]) = trimChars l := by
  unfold trimChars
  rw [List.dropWhile_append]
  split_ifs with h
  · have h2 : l.dropWhile isSpace = [] := List.isEmpty_iff.mp h
    rw [h2]
    simp [List.dropWhile, hc]
  · rw [List.reverse_append, List.reverse_singleton, List.singleton_append,
      List.dropWhile_cons_of_pos hc]

/-- The last non-blank line trims to the same run when the first line is replaced by
one that trims to the same run. -/
theorem lastNonBlank_congr_head (a b : List Char) (rest : List (List Char))
    (h : trimChars a = trimChars b) :
    trimChars (((a :: rest).filter nonBlank).getLast?.getD []) =
      trimChars (((b :: rest).filter nonBlank).getLast?.getD []) := by
  have hn : nonBlank a = nonBlank b := by unfold nonBlank; rw [h]
  rw [List.filter_cons, List.filter_cons, ← hn]
  cases hnb : nonBlank a with
  | false => rfl
  | true =>
    simp only [if_true]
    cases hr : rest.filter nonBlank with
    | nil => simpa using h
    | cons r rs => rw [List.getLast?_cons_cons, List.getLast?_cons_cons]

/-- The last non-blank line trims to the same run when the last line is replaced by
one that trims to the same run. -/
theorem lastNonBlank_congr_last (a b : List Char) (init : List (List Char))
    (h : trimChars a = trimChars b) :
    trimChars (((init ++ [a]).filter nonBlank).getLast?.getD []) =
      trimChars (((init ++ [b]).filter nonBlank).getLast?.getD []) := by
  have hn : nonBlank a = nonBlank b := by unfold nonBlank; rw [h]
  rw [List.filter_append, List.filter_append, List.filter_singleton, List.filter_singleton, ← hn]
  cases hnb : nonBlank a with
  | false => rfl
  | true =>
    simp only [Bool.true_eq, Bool.cond_true, if_true, ↓reduceIte]
    rw [List.getLast?_concat, List.getLast?_concat]
    simpa using h

/-- The empty line is blank. -/
theorem nonBlank_nil : nonBlank [] = false := by decide

/-- White space in front of a text does not change what its last non-blank line
trims to. -/
theorem lastNonBlank_cons_space (c : Char) (l : List Char) (hc : isSpace c = true) :
    trimChars (((splitNewline (c :: l)).filter nonBlank).getLast?.getD []) =
      trimChars (((splitNewline l).filter nonBlank).getLast?.getD []) := by
  by_cases hn : c = newline
  · have e : splitNewline (c :: l) = [] :: splitNewline l := by
      rw [hn, splitNewline_cons_newline]
    rw [e, List.filter_cons, nonBlank_nil]
    rfl
  · rcases first_newline l with h | ⟨x, y, hl, hx⟩
    · have hcl : newline ∉ c :: l := by
        intro hm
        rcases List.mem_cons.mp hm with e | e
        · exact hn e.symm
        · exact h e
      rw [splitNewline_single _ hcl, splitNewline_single _ h]
      exact lastNonBlank_congr_head _ _ [] (trimChars_cons_space c l hc)
    · have hcx : newline ∉ c :: x := by
        intro hm
        rcases List.mem_cons.mp hm with e | e
        · exact hn e.symm
        · exact hx e
      have e1 : c :: l = (c :: x) ++ newline :: y := by rw [hl]; rfl
      rw [e1, splitNewline_append, hl, splitNewline_append, splitNewline_single _ hcx,
        splitNewline_single _ hx]
      exact lastNonBlank_congr_head _ _ _ (trimChars_cons_space c x hc)

/-- White space behind a text does not change what its last non-blank line trims to. -/
theorem lastNonBlank_concat_space (c : Char) (l : List Char) (hc : isSpace c = true) :
    trimChars (((splitNewline (l ++ [c])).filter nonBlank).getLast?.getD []) =
      trimChars (((splitNewline l).filter nonBlank).getLast?.getD []) := by
  by_cases hn : c = newline
  · have e : splitNewline (l ++ [c]) = splitNewline l ++ [[]] := by
      rw [hn, splitNewline_append]; rfl
    rw [e, List.filter_append, List.filter_singleton, nonBlank_nil]
    simp
  · rcases last_newline l with h | ⟨x, y, hl, hy⟩
    · have hcl : newline ∉ l ++ [c] := by
        intro hm
        rcases List.mem_append.mp hm with e | e
        · exact h e
        · exact hn (List.mem_singleton.mp e).symm
      rw [splitNewline_single _ hcl, splitNewline_single _ h]
      exact lastNonBlank_congr_last _ _ [] (trimChars_concat_space c l hc)
    · have hcy : newline ∉ y ++ [c] := by
        intro hm
        rcases List.mem_append.mp hm with e | e
        · exact hy e
        · exact hn (List.mem_singleton.mp e).symm
      have e1 : l ++ [c] = x ++ newline :: (y ++ [c]) := by rw [hl]; simp
      rw [e1, splitNewline_append, hl, splitNewline_append, splitNewline_single _ hcy,
        splitNewline_single _ hy]
      exact lastNonBlank_congr_last _ _ _ (trimChars_concat_space c y hc)

/-- A run is white space, then what it trims to, then white space. -/
theorem trimChars_decompose (l : List Char) :
    ∃ pre post, l = pre ++ trimChars l ++ post ∧ (∀ c ∈ pre, isSpace c = true) ∧
      ∀ c ∈ post, isSpace c = true := by
  refine ⟨l.takeWhile isSpace, ((l.dropWhile isSpace).reverse.takeWhile isSpace).reverse, ?_,
    fun c hc => List.mem_takeWhile_imp hc,
    fun c hc => List.mem_takeWhile_imp (List.mem_reverse.mp hc)⟩
  unfold trimChars
  rw [List.append_assoc, ← List.reverse_append, List.takeWhile_append_dropWhile,
    List.reverse_reverse, List.takeWhile_append_dropWhile]

/-- White space around a text does not change what its last non-blank line trims to. -/
theorem lastNonBlank_around (pre m post : List Char) (hpre : ∀ c ∈ pre, isSpace c = true)
    (hpost : ∀ c ∈ post, isSpace c = true) :
    trimChars (((splitNewline (pre ++ m ++ post)).filter nonBlank).getLast?.getD []) =
      trimChars (((splitNewline m).filter nonBlank).getLast?.getD []) := by
  have h1 : ∀ (post : List Char), (∀ c ∈ post, isSpace c = true) →
      trimChars (((splitNewline (m ++ post)).filter nonBlank).getLast?.getD []) =
        trimChars (((splitNewline m).filter nonBlank).getLast?.getD []) := by
    intro post
    induction post using List.reverseRecOn with
    | nil => intro _; rw [List.append_nil]
    | append_singleton p c ih =>
      intro hp
      rw [← List.append_assoc, lastNonBlank_concat_space c _
        (hp c (List.mem_append.mpr (Or.inr (List.mem_singleton.mpr rfl))))]
      exact ih (fun d hd => hp d (List.mem_append.mpr (Or.inl hd)))
  induction pre with
  | nil => rw [List.nil_append]; exact h1 post hpost
  | cons c pre ih =>
    rw [List.cons_append, List.cons_append, lastNonBlank_cons_space c _
      (hpre c (List.mem_cons_self _ _))]
    exact ih (fun d hd => hpre d (List.mem_cons_of_mem _ hd))

/-- The last line of a trimmed text that is not empty is its last non-blank line. -/
theorem lastLine_of_trimmed (m : List Char) (ht : Trimmed m) (hne : m ≠ []) :
    ((splitNewline m).filter nonBlank).getLast?.getD [] = (splitNewline m).getLast?.getD [] ∧
    (splitNewline m).getLast?.getD [] <:+ m := by
  obtain ⟨z, hz⟩ : ∃ z, m.getLast? = some z := by
    cases hm : m.getLast? with
    | none => exact absurd (List.getLast?_eq_none_iff.mp hm) hne
    | some z => exact ⟨z, rfl⟩
  have hzs : isSpace z = false := ht.2 z hz
  have hzn : z ≠ newline := by
    intro e
    rw [e] at hzs
    revert hzs
    decide
  rcases last_newline m with h | ⟨x, y, hm, hy⟩
  · rw [splitNewline_single _ h]
    have hnb : nonBlank m = true := by
      unfold nonBlank
      rw [trimChars_of_trimmed m ht]
      simpa using hne
    rw [List.filter_singleton, hnb]
    exact ⟨rfl, List.suffix_refl _⟩
  · have hyne : y ≠ [] := by
      intro e
      rw [hm, e, List.getLast?_append_of_ne_nil _ (List.cons_ne_nil _ _)] at hz
      exact hzn (Option.some.inj hz).symm
    have hylast : y.getLast? = some z := by
      obtain ⟨y0, ys, hy0⟩ := List.exists_cons_of_ne_nil hyne
      rw [hm, List.getLast?_append_of_ne_nil _ (List.cons_ne_nil _ _), hy0,
        List.getLast?_cons_cons] at hz
      rw [hy0]
      exact hz
    have hnb : nonBlank y = true := by
      unfold nonBlank
      have := trimChars_ne_nil y z (List.mem_of_mem_getLast? hylast) hzs
      simpa using this
    rw [hm, splitNewline_append, splitNewline_single _ hy, List.filter_append,
      List.filter_singleton, hnb]
    exact ⟨by simp, x ++ [newline], by simp⟩

/-- The line that `parseBeadID` looks at first is the last non-blank line of the
output, trimmed; it lies inside the trimmed output. -/
theorem lastLine_eq (out : String) (h : TrimSpace out ≠ "") :
    TrimSpace (String.mk ((splitNewline (TrimSpace out).data).getLast?.getD [])) =
      TrimSpace (lastNonBlankLine out) ∧
    (TrimSpace (lastNonBlankLine out)).data <:+: (TrimSpace out).data := by
  have hne : trimChars out.data ≠ [] := by
    rw [← TrimSpace_data]
    exact string_data_ne_nil _ h
  obtain ⟨pre, post, hl, hpre, hpost⟩ := trimChars_decompose out.data
  obtain ⟨h1, h2⟩ := lastLine_of_trimmed _ (trimChars_trimmed out.data) hne
  have h3 := lastNonBlank_around pre (trimChars out.data) post hpre hpost
  rw [← hl, h1] at h3
  have h4 : TrimSpace (String.mk ((splitNewline (TrimSpace out).data).getLast?.getD [])) =
      TrimSpace (lastNonBlankLine out) := by
    apply String.ext
    rw [TrimSpace_data, TrimSpace_data, TrimSpace_data]
    exact h3.symm
  refine ⟨h4, ?_⟩
  rw [← h4, TrimSpace_data, TrimSpace_data]
  obtain ⟨p2, q2, hl2, _, _⟩ := trimChars_decompose ((splitNewline (trimChars out.data)).getLast?.getD [])
  obtain ⟨r, hr⟩ := h2
  refine ⟨r ++ p2, q2, ?_⟩
  have e : r ++ p2 ++ trimChars ((splitNewline (trimChars out.data)).getLast?.getD []) ++ q2 =
      r ++ (p2 ++ trimChars ((splitNewline (trimChars out.data)).getLast?.getD []) ++ q2) := by
    simp
  rw [e, ← hl2]
  exact hr

/-- A run that holds a run with a block of the pattern holds a block of the pattern. -/
theorem hasMatch_of_part (a l : List Char) (hi : a <:+: l) (h : HasMatch a) : HasMatch l := by
  obtain ⟨p, q, hl⟩ := hi
  obtain ⟨pre, w, post, ha, hw⟩ := h
  refine ⟨p ++ pre, w, post ++ q, ?_, hw⟩
  rw [← hl, ha]
  simp

/-- White space in front of a run holds no part of a block of the pattern. -/
theorem hasMatch_cons_space (c : Char) (l : List Char) (hc : isSpace c = true)
    (h : HasMatch (c :: l)) : HasMatch l := by
  obtain ⟨pre, w, post, hl, hw⟩ := h
  cases pre with
  | nil =>
    exfalso
    obtain ⟨a, b, d, hwe, hne, ha, _⟩ := hw
    obtain ⟨x, xs, hx⟩ := List.exists_cons_of_ne_nil hne
    rw [hwe, hx] at hl
    simp only [List.nil_append, List.cons_append, List.cons.injEq] at hl
    have hxa : isAlnum x = true := ha x (by rw [hx]; exact List.mem_cons_self _ _)
    have := alnumDash_not_space x (by unfold isAlnumDash; rw [hxa]; rfl)
    rw [← hl.1, hc] at this
    cases this
  | cons p ps =>
    simp only [List.cons_append, List.cons.injEq] at hl
    exact ⟨ps, w, post, hl.2, hw⟩

/-- White space behind a run holds no part of a block of the pattern. -/
theorem hasMatch_concat_space (c : Char) (l : List Char) (hc : isSpace c = true)
    (h : HasMatch (l ++ [c])) : HasMatch l := by
  obtain ⟨pre, w, post, hl, hw⟩ := h
  rcases List.eq_nil_or_concat post with hp | ⟨q, z, hp⟩
  · exfalso
    obtain ⟨a, b, d, hwe, hne, ha, hb, hd⟩ := hw
    have hlast : (pre ++ w ++ post).getLast? = some c := by rw [← hl, List.getLast?_concat]
    have hw2 : w = (a ++ ['-']) ++ (b :: d) := by rw [hwe]; simp
    rw [hp, List.append_nil, hw2, ← List.append_assoc,
      List.getLast?_append_of_ne_nil _ (List.cons_ne_nil _ _)] at hlast
    have hmem : c ∈ b :: d := List.mem_of_mem_getLast? hlast
    have hcd : isAlnumDash c = true := by
      rcases List.mem_cons.mp hmem with e | e
      · rw [e]; unfold isAlnumDash; rw [hb]; rfl
      · exact hd c e
    have := alnumDash_not_space c hcd
    rw [hc] at this
    cases this
  · rw [hp, List.concat_eq_append, ← List.append_assoc] at hl
    have := List.append_inj_left' hl rfl
    exact ⟨pre, w, q, this, hw⟩

/-- A run holds a block of the pattern exactly when what it trims to holds one. -/
theorem hasMatch_trim (l : List Char) : HasMatch (trimChars l) ↔ HasMatch l := by
  obtain ⟨pre, post, hl, hpre, hpost⟩ := trimChars_decompose l
  constructor
  · exact hasMatch_of_part _ _ ⟨pre, post, hl.symm⟩
  · intro h
    rw [hl] at h
    have h1 : ∀ (post : List Char), (∀ c ∈ post, isSpace c = true) →
        HasMatch (trimChars l ++ post) → HasMatch (trimChars l) := by
      intro post
      induction post using List.reverseRecOn with
      | nil => intro _ hm; rwa [List.append_nil] at hm
      | append_singleton p c ih =>
        intro hp hm
        rw [← List.append_assoc] at hm
        exact ih (fun d hd => hp d (List.mem_append.mpr (Or.inl hd)))
          (hasMatch_concat_space c _
            (hp c (List.mem_append.mpr (Or.inr (List.mem_singleton.mpr rfl)))) hm)
    have h2 : ∀ (pre : List Char), (∀ c ∈ pre, isSpace c = true) →
        HasMatch (pre ++ (trimChars l ++ post)) → HasMatch (trimChars l ++ post) := by
      intro pre
      induction pre with
      | nil => intro _ hm; exact hm
      | cons c pre ih =>
        intro hp hm
        exact ih (fun d hd => hp d (List.mem_cons_of_mem _ hd))
          (hasMatch_cons_space c _ (hp c (List.mem_cons_self _ _)) hm)
    rw [List.append_assoc] at h
    exact h1 post hpost (h2 pre hpre h)

/-- The function `parseBeadID`: when the trimmed output holds a block of the pattern,
the leftmost one of the last non-blank line if that line holds one, and the leftmost one
of the trimmed output otherwise; the empty string when the output holds none. -/
theorem parseBeadID_spec (out : String) :
    (HasMatch (TrimSpace out).data →
      parseBeadID out ≠ "" ∧ MatchesPattern (parseBeadID out).data ∧
      (HasMatch (lastNonBlankLine out).data →
        parseBeadID out = beadIDPattern.FindString (TrimSpace (lastNonBlankLine out)) ∧
        (parseBeadID out).data <:+: (lastNonBlankLine out).data) ∧
      (¬ HasMatch (lastNonBlankLine out).data →
        parseBeadID out = beadIDPattern.FindString (TrimSpace out) ∧
        (parseBeadID out).data <:+: out.data)) ∧
    (¬ HasMatch (TrimSpace out).data → parseBeadID out = "") := by
  have hnil : ¬ HasMatch [] := by
    rintro ⟨pre, w, post, hl, hw⟩
    have := matchesPattern_ne_nil w hw
    have h3 : pre ++ w ++ post = [] := hl.symm
    simp only [List.append_eq_nil] at h3
    exact this h3.1.2
  have hne_of : ∀ s : String, MatchesPattern s.data → s ≠ "" := by
    intro s hs e
    rw [e] at hs
    exact matchesPattern_ne_nil _ hs rfl
  by_cases hclean : TrimSpace out = ""
  · constructor
    · intro h
      rw [hclean] at h
      exact absurd h hnil
    · intro _
      unfold parseBeadID
      simp only
      rw [if_pos hclean]
  · obtain ⟨hlast, hinfix⟩ := lastLine_eq out hclean
    have htl : HasMatch (TrimSpace (lastNonBlankLine out)).data ↔
        HasMatch (lastNonBlankLine out).data := by
      rw [TrimSpace_data]
      exact hasMatch_trim _
    have hto : (TrimSpace out).data <:+: out.data := by
      obtain ⟨pre, post, hl, _, _⟩ := trimChars_decompose out.data
      rw [TrimSpace_data]
      exact ⟨pre, post, hl.symm⟩
    have htli : (TrimSpace (lastNonBlankLine out)).data <:+: (lastNonBlankLine out).data := by
      obtain ⟨pre, post, hl, _, _⟩ := trimChars_decompose (lastNonBlankLine out).data
      rw [TrimSpace_data]
      exact ⟨pre, post, hl.symm⟩
    have hp : parseBeadID out =
        if beadIDPattern.MatchString (TrimSpace (lastNonBlankLine out)) = true then
          beadIDPattern.FindString (TrimSpace (lastNonBlankLine out))
        else if beadIDPattern.MatchString (TrimSpace out) = true then
          beadIDPattern.FindString (TrimSpace out)
        else "" := by
      unfold parseBeadID
      simp only
      rw [if_neg hclean, hlast]
    rw [hp]
    constructor
    · intro h
      by_cases hl : HasMatch (lastNonBlankLine out).data
      · have hl2 := htl.mpr hl
        rw [if_pos ((matchString_iff _).mpr hl2)]
        obtain ⟨h1, h2⟩ := findString_spec _ hl2
        exact ⟨hne_of _ h1, h1, fun _ => ⟨rfl, h2.trans htli⟩, fun hn => absurd hl hn⟩
      · have hl2 : ¬ beadIDPattern.MatchString (TrimSpace (lastNonBlankLine out)) = true :=
          fun hm => hl (htl.mp ((matchString_iff _).mp hm))
        rw [if_neg hl2, if_pos ((matchString_iff _).mpr h)]
        obtain ⟨h1, h2⟩ := findString_spec _ h
        exact ⟨hne_of _ h1, h1, fun hy => absurd hy hl, fun _ => ⟨rfl, h2.trans hto⟩⟩
    · intro h
      have h1 : ¬ beadIDPattern.MatchString (TrimSpace out) = true :=
        fun hm => h ((matchString_iff _).mp hm)
      have h2 : ¬ beadIDPattern.MatchString (TrimSpace (lastNonBlankLine out)) = true :=
        fun hm => h (hasMatch_of_part _ _ hinfix ((matchString_iff _).mp hm))
      rw [if_neg h2, if_neg h1]

/-- What `CreateBeadForVerdict` does for a binding verdict that is not deferred: one
call to the runner, and a result that depends on what the call returns. -/
theorem createBead_eq (L : Stdlib) (athenaWorkspace : String) (runner : Runner)
    (workspaceDir : String) (verdict : Senate.Verdict)
    (hb : verdict.Binding = true) (hd : verdict.Verdict ≠ DecisionDefer) :
    ∃ call title,
      CreateBeadForVerdict L athenaWorkspace runner workspaceDir verdict =
        match runner call.name call.args call.dir with
        | (out, some err) =>
          (({ BeadID := "", Title := "", Status := "" },
            some ("bd create failed: " ++ err ++ " (" ++ TrimSpace out ++ ")")), [call])
        | (out, none) =>
          if parseBeadID out = "" then
            (({ BeadID := "", Title := "", Status := "" },
              some ("unable to parse bead id from output " ++ L.quote (TrimSpace out))), [call])
          else (({ BeadID := parseBeadID out, Title := title, Status := "created" }, none),
            [call]) := by
  unfold CreateBeadForVerdict
  have hc : ¬ (!verdict.Binding || decide (verdict.Verdict = DecisionDefer)) = true := by
    rw [hb]
    simpa using hd
  rw [if_neg hc]
  dsimp only
  exact ⟨⟨"bd", _, _⟩, _, rfl⟩

/-- C30: for every binding verdict that is not deferred and every output of a runner
call that succeeds: when the trimmed output holds a block of the form one or more
of `[A-Za-z0-9]`, a hyphen, one of `[A-Za-z0-9]`, any number of `[A-Za-z0-9-]`,
`CreateBeadForVerdict` returns no error and the status `created`, with a bead id of that
form, taken from the last non-blank line of the output when that line holds such a
block, and from the whole output otherwise; when the output holds no such block, it
returns an error and no bead id. -/
theorem createBead_created (L : Stdlib) (athenaWorkspace : String) (runner : Runner)
    (workspaceDir : String) (verdict : Senate.Verdict) (out : String)
    (hb : verdict.Binding = true) (hd : verdict.Verdict ≠ DecisionDefer)
    (hrun : ∀ call ∈ (CreateBeadForVerdict L athenaWorkspace runner workspaceDir verdict).2,
      runner call.name call.args call.dir = (out, none)) :
    (HasMatch (TrimSpace out).data →
      (CreateBeadForVerdict L athenaWorkspace runner workspaceDir verdict).1.2 = none ∧
      (CreateBeadForVerdict L athenaWorkspace runner workspaceDir verdict).1.1.Status
        = "created" ∧
      MatchesPattern
        (CreateBeadForVerdict L athenaWorkspace runner workspaceDir verdict).1.1.BeadID.data ∧
      (HasMatch (lastNonBlankLine out).data →
        (CreateBeadForVerdict L athenaWorkspace runner workspaceDir verdict).1.1.BeadID =
          beadIDPattern.FindString (TrimSpace (lastNonBlankLine out)) ∧
        (CreateBeadForVerdict L athenaWorkspace runner workspaceDir verdict).1.1.BeadID.data
          <:+: (lastNonBlankLine out).data) ∧
      (¬ HasMatch (lastNonBlankLine out).data →
        (CreateBeadForVerdict L athenaWorkspace runner workspaceDir verdict).1.1.BeadID =
          beadIDPattern.FindString (TrimSpace out) ∧
        (CreateBeadForVerdict L athenaWorkspace runner workspaceDir verdict).1.1.BeadID.data
          <:+: out.data)) ∧
    (¬ HasMatch (TrimSpace out).data →
      (∃ err, (CreateBeadForVerdict L athenaWorkspace runner workspaceDir verdict).1.2
        = some err) ∧
      (CreateBeadForVerdict L athenaWorkspace runner workspaceDir verdict).1.1.BeadID = "") ∧
    (HasMatch (TrimSpace out).data ↔ HasMatch out.data) ∧
    (CreateBeadForVerdict L athenaWorkspace runner workspaceDir verdict).2.length = 1 := by
  obtain ⟨call, title, heq⟩ := createBead_eq L athenaWorkspace runner workspaceDir verdict hb hd
  have hcalls : (CreateBeadForVerdict L athenaWorkspace runner workspaceDir verdict).2 = [call] := by
    rw [heq]
    rcases runner call.name call.args call.dir with ⟨o, _ | err⟩
    · dsimp only
      split_ifs <;> rfl
    · rfl
  have hr := hrun call (by rw [hcalls]; exact List.mem_singleton.mpr rfl)
  rw [hr] at heq
  dsimp only at heq
  obtain ⟨h1, h2⟩ := parseBeadID_spec out
  refine ⟨fun h => ?_, fun h => ?_, ?_, by rw [hcalls]; rfl⟩
  · obtain ⟨hne, hm, hl, hw⟩ := h1 h
    rw [if_neg hne] at heq
    rw [heq]
    exact ⟨rfl, rfl, hm, hl, hw⟩
  · rw [if_pos (h2 h)] at heq
    rw [heq]
    exact ⟨⟨_, rfl⟩, rfl⟩
  · rw [TrimSpace_data]
    exact hasMatch_trim _

/-- Claim C30 at the verdict and the runner of `TestCreateBeadForVerdictCreated`, whose
output is the line `athena-xyz`. -/
theorem createBead_created_witness :
    (CreateBeadForVerdict refStdlib "" (fakeRunner "athena-xyz\n") "/tmp/workspace"
      bindingVerdict).2.length = 1 ∧
    (CreateBeadForVerdict refStdlib "" (fakeRunner "athena-xyz\n") "/tmp/workspace"
      bindingVerdict).1 =
      ({ BeadID := "athena-xyz", Title := "[truthsayer] Senate senate-9: Amend silent fallback",
         Status := "created" }, none) :=
  ⟨(createBead_created refStdlib "" (fakeRunner "athena-xyz\n") "/tmp/workspace" bindingVerdict
      "athena-xyz\n" rfl (by decide) (fun _ _ => rfl)).2.2.2, by decide⟩

/-! ### The JSON functions -/

/-- The scanner cuts the text before a newline into its lines, and goes on behind it. -/
theorem scanLines_append (x y : List Char) :
    scanLines (x ++ newline :: y) = splitNewline x ++ scanLines y := by
  induction x with
  | nil =>
    rw [List.nil_append, scanLines, if_pos rfl]
    rfl
  | cons d x ih =>
    rw [List.cons_append]
    by_cases h : d = newline
    · rw [h, splitNewline_cons_newline, scanLines, if_pos rfl, ih]
      rfl
    · obtain ⟨s, ss, hs, hc⟩ := splitNewline_cons_other d x h
      rw [scanLines, if_neg h, ih, hc, hs]
      rfl

/-- An invalid record: `Store.Add` returns the error of `Record.Validate` and leaves
the log file as it is. -/
theorem add_of_invalid (L : Stdlib) (J : Json) (faults : AddFaults) (log : Option String)
    (r : Record) (err : String) (h : r.Validate L = some err) :
    Store.Add L J faults log r = (some err, log) := by
  unfold Store.Add
  rw [h]

/-- One turn of the loop of `Store.LoadAll`. -/
theorem loadLoop_cons (L : Stdlib) (J : Json) (out : List Record) (raw : List Char)
    (rest : List (List Char)) :
    loadLoop L J out (raw :: rest) =
      if maxScanTokenSize ≤ (String.mk raw).utf8ByteSize then
        .error "bufio.Scanner: token too long"
      else if TrimSpace (String.mk (dropCR raw)) = "" then loadLoop L J out rest
      else
        match J.unmarshal (TrimSpace (String.mk (dropCR raw))) with
        | none => loadLoop L J out rest
        | some rec =>
          match rec.Validate L with
          | some _ => loadLoop L J out rest
          | none => loadLoop L J (out ++ [rec]) rest := by
  rw [loadLoop]

/-- A line that does not fit the buffer of the scanner makes the loop of
`Store.LoadAll` fail, whatever the other lines are. -/
theorem loadLoop_too_long (L : Stdlib) (J : Json) (out : List Record)
    (lines : List (List Char))
    (h : ∃ raw ∈ lines, maxScanTokenSize ≤ (String.mk raw).utf8ByteSize) :
    loadLoop L J out lines = .error "bufio.Scanner: token too long" := by
  induction lines generalizing out with
  | nil => obtain ⟨raw, hr, _⟩ := h; cases hr
  | cons t ts ih =>
    rw [loadLoop_cons]
    by_cases h1 : maxScanTokenSize ≤ (String.mk t).utf8ByteSize
    · rw [if_pos h1]
    · have h2 : ∃ raw ∈ ts, maxScanTokenSize ≤ (String.mk raw).utf8ByteSize := by
        obtain ⟨raw, hr, hlen⟩ := h
        rcases List.mem_cons.mp hr with e | e
        · rw [e] at hlen; exact absurd hlen h1
        · exact ⟨raw, e, hlen⟩
      rw [if_neg h1]
      split_ifs
      · exact ih out h2
      · cases J.unmarshal (TrimSpace (String.mk (dropCR t))) with
        | none => exact ih out h2
        | some rec =>
          dsimp only
          cases rec.Validate L with
          | some e => exact ih out h2
          | none => exact ih _ h2

/-- The records that fail `Record.Validate`. -/
theorem record_validate_error (L : Stdlib) (r : Record) :
    r.Validate L ≠ none ↔
      TrimSpace r.CaseID = "" ∨ TrimSpace r.Type_ = "" ∨ TrimSpace r.Summary = "" ∨
      r.Verdict ∉ fourDecisions ∨ TrimSpace r.VerdictAt = "" ∨
      ∃ msg, L.parseRFC3339 r.VerdictAt = .error msg := by
  have hd : Decision.Validate L r.Verdict = none ↔ r.Verdict ∈ fourDecisions := by
    unfold Decision.Validate fourDecisions
    split_ifs with h
    · simp [h]
    · simp only [reduceCtorEq, false_iff]
      intro hm
      apply h
      simpa using hm
  unfold Record.Validate
  by_cases h1 : TrimSpace r.CaseID = ""
  · simp [h1]
  by_cases h2 : TrimSpace r.Type_ = ""
  · simp [h1, h2]
  by_cases h3 : TrimSpace r.Summary = ""
  · simp [h1, h2, h3]
  rw [if_neg h1, if_neg h2, if_neg h3]
  cases hv : Decision.Validate L r.Verdict with
  | some err =>
    have : r.Verdict ∉ fourDecisions := fun hm => by rw [hd.mpr hm] at hv; cases hv
    simp [this]
  | none =>
    have hm := hd.mp hv
    dsimp only
    by_cases h5 : TrimSpace r.VerdictAt = ""
    · simp [h5]
    rw [if_neg h5]
    cases hp : L.parseRFC3339 r.VerdictAt with
    | error msg => simp
    | ok t => simp [h1, h2, h3, hm, h5]

/-- C23: the records that fail `Record.Validate` are those whose case id, type or
summary is blank, whose decision is not one of the four decisions, or whose verdict
timestamp is blank or does not parse as RFC 3339; for every such record `Store.Add`
returns an error, the one of `Record.Validate`, and leaves the log file as it is. -/
theorem add_invalid (L : Stdlib) (J : Json) (faults : AddFaults) (log : Option String)
    (r : Record) :
    (r.Validate L ≠ none ↔
      TrimSpace r.CaseID = "" ∨ TrimSpace r.Type_ = "" ∨ TrimSpace r.Summary = "" ∨
      r.Verdict ∉ fourDecisions ∨ TrimSpace r.VerdictAt = "" ∨
      ∃ msg, L.parseRFC3339 r.VerdictAt = .error msg) ∧
    (r.Validate L ≠ none →
      (∃ err, (Store.Add L J faults log r).1 = some err) ∧
      (Store.Add L J faults log r).1 = r.Validate L ∧
      (Store.Add L J faults log r).2 = log) := by
  refine ⟨record_validate_error L r, fun hv => ?_⟩
  obtain ⟨err, he⟩ := Option.ne_none_iff_exists'.mp hv
  rw [add_of_invalid L J faults log r err he, he]
  exact ⟨⟨err, rfl⟩, rfl, rfl⟩

/-- Claim C23 at the first sample record with a blank case id and the log file that
holds the line of the first sample record. -/
theorem add_invalid_witness :
    (Store.Add refStdlib refJson noFaults sampleLog blankRecord).1
      = some "record.case_id is required" ∧
    (Store.Add refStdlib refJson noFaults sampleLog blankRecord).2 = sampleLog :=
  have h := (add_invalid refStdlib refJson noFaults sampleLog blankRecord).2 (by decide)
  ⟨h.2.1.trans (by decide), h.2.2⟩

/-- The line of the log file that `Store.LoadAll` keeps: the record that the trimmed
line decodes to, when it passes `Record.Validate`. -/
theorem loadLoop_of_fit (L : Stdlib) (J : Json) (out : List Record) (lines : List (List Char))
    (hfit : ∀ raw ∈ lines, (String.mk raw).utf8ByteSize < maxScanTokenSize) :
    loadLoop L J out lines = .ok (out ++ lines.filterMap (fun raw =>
      if TrimSpace (String.mk (dropCR raw)) = "" then none
      else
        match J.unmarshal (TrimSpace (String.mk (dropCR raw))) with
        | none => none
        | some rec => if rec.Validate L = none then some rec else none)) := by
  induction lines generalizing out with
  | nil => simp [loadLoop]
  | cons t ts ih =>
    have h1 : ¬ maxScanTokenSize ≤ (String.mk t).utf8ByteSize := by
      have := hfit t (List.mem_cons_self _ _)
      omega
    have hts : ∀ raw ∈ ts, (String.mk raw).utf8ByteSize < maxScanTokenSize :=
      fun raw hr => hfit raw (List.mem_cons_of_mem _ hr)
    rw [loadLoop_cons, if_neg h1, List.filterMap_cons]
    by_cases h2 : TrimSpace (String.mk (dropCR t)) = ""
    · rw [if_pos h2, if_pos h2]
      exact ih out hts
    · rw [if_neg h2, if_neg h2]
      cases J.unmarshal (TrimSpace (String.mk (dropCR t))) with
      | none => exact ih out hts
      | some rec =>
        dsimp only
        cases hv : rec.Validate L with
        | some e =>
          rw [if_neg (by simp)]
          exact ih out hts
        | none =>
          dsimp only
          rw [ih _ hts]
          simp

/-- C24, the behaviour of the code where it departs from the claim: the log file that
holds the line of the first sample record is loaded as that record; with a line of
65536 letters behind it, `LoadAll` returns the error of the scanner, and no record,
instead of skipping the line that does not decode. -/
theorem loadAll_token_too_long :
    (Store.LoadAll refStdlib refJson none sampleLog).toOption = some [sampleRecord] ∧
    ∀ (L : Stdlib) (J : Json),
      Store.LoadAll L J none
        (some (encodeRecord sampleRecord ++ String.mk [newline] ++ longLine ++
          String.mk [newline]))
        = .error "bufio.Scanner: token too long" := by
  refine ⟨by decide, fun L J => ?_⟩
  unfold Store.LoadAll
  dsimp only
  apply loadLoop_too_long
  refine ⟨List.replicate 65536 'a', ?_, ?_⟩
  · have hn : newline ∉ List.replicate 65536 'a' := by
      intro hm
      have := (List.mem_replicate.mp hm).2
      revert this
      decide
    have e : (encodeRecord sampleRecord ++ String.mk [newline] ++ longLine ++
        String.mk [newline]).data =
        (encodeRecord sampleRecord).data ++
          newline :: (List.replicate 65536 'a' ++ newline :: []) := by
      simp only [String.data_append, longLine, List.append_assoc, List.singleton_append,
        List.nil_append, List.cons_append]
    rw [e, scanLines_append, scanLines_append, splitNewline_single _ hn]
    exact List.mem_append.mpr (Or.inr (List.mem_append.mpr (Or.inl (List.mem_singleton.mpr rfl))))
  · have hb : (String.mk (List.replicate 65536 'a')).utf8ByteSize = 65536 := by
      show String.utf8ByteSize.go (List.replicate 65536 'a') = 65536
      rw [utf8ByteSize_ascii, List.length_replicate]
      intro c hc
      rw [(List.mem_replicate.mp hc).2]
      decide
    rw [hb]
    decide

/-! ### The frame of the consensus finalizer -/

/-- What the body of the first loop of `finalizePositions` keeps and what it changes. -/
theorem finalizeOne_frame (majority : Decision) (p : Position) :
    (finalizeOne majority p).AgentID = p.AgentID ∧
    (finalizeOne majority p).Model = p.Model ∧
    (finalizeOne majority p).Perspective = p.Perspective ∧
    (finalizeOne majority p).Concerns = p.Concerns ∧
    (finalizeOne majority p).Round = "final" ∧
    ((finalizeOne majority p).Stance = p.Stance ∧
        (finalizeOne majority p).Reasoning = p.Reasoning ∨
      (finalizeOne majority p).Stance = DecisionAmend ∧
        (p.Stance = DecisionApprove ∨ p.Stance = DecisionReject)) := by
  by_cases h : (p.Stance = DecisionApprove ∧
      (majority = DecisionReject ∨ majority = DecisionDefer)) ∨
      (p.Stance = DecisionReject ∧ majority = DecisionApprove)
  · have hs := (finalizeOne_spec majority p).1 h
    have hp : p.Stance = DecisionApprove ∨ p.Stance = DecisionReject := by
      rcases h with h | h
      · exact Or.inl h.1
      · exact Or.inr h.1
    refine ⟨?_, ?_, ?_, ?_, ?_, Or.inr ⟨hs, hp⟩⟩ <;>
      (unfold finalizeOne; dsimp only; split_ifs <;> rfl)
  · rw [(finalizeOne_spec majority p).2 h]
    exact ⟨rfl, rfl, rfl, rfl, rfl, Or.inl ⟨rfl, rfl⟩⟩

/-- What the body of the second loop of `finalizePositions` keeps and what it changes. -/
theorem forceAmend_frame (p : Position) :
    (forceAmend p).AgentID = p.AgentID ∧ (forceAmend p).Model = p.Model ∧
    (forceAmend p).Perspective = p.Perspective ∧ (forceAmend p).Concerns = p.Concerns ∧
    (forceAmend p).Round = p.Round ∧
    ((forceAmend p).Stance = p.Stance ∧ (forceAmend p).Reasoning = p.Reasoning ∨
      (forceAmend p).Stance = DecisionAmend ∧ p.Stance = DecisionApprove) := by
  by_cases h : p.Stance = DecisionApprove
  · rw [(forceAmend_spec p).2.1 h]
    exact ⟨rfl, rfl, rfl, rfl, rfl, Or.inr ⟨rfl, h⟩⟩
  · rw [(forceAmend_spec p).2.2 h]
    exact ⟨rfl, rfl, rfl, rfl, rfl, Or.inl ⟨rfl, rfl⟩⟩

/-- The function `finalizePositions` maps one function over the initial positions; the
function keeps the agent id, the model, the perspective and the concerns, sets the
round, and either keeps the stance and the reasoning or turns an approved or rejected
stance into amended. -/
theorem finalizePositions_map (c : Case) (initial : List Position) (challenges : List Challenge) :
    ∃ g : Position → Position,
      finalizePositions c initial challenges = initial.map g ∧
      ∀ p, (g p).AgentID = p.AgentID ∧ (g p).Model = p.Model ∧
        (g p).Perspective = p.Perspective ∧ (g p).Concerns = p.Concerns ∧
        (g p).Round = "final" ∧
        ((g p).Stance = p.Stance ∧ (g p).Reasoning = p.Reasoning ∨
          (g p).Stance = DecisionAmend ∧
            (p.Stance = DecisionApprove ∨ p.Stance = DecisionReject)) := by
  unfold finalizePositions finalizeFirstPass
  dsimp only
  split_ifs with h
  · refine ⟨fun p => forceAmend (finalizeOne (majorityDecision (countDecisions initial)) p),
      by rw [List.map_map]; rfl, fun p => ?_⟩
    dsimp only
    obtain ⟨a1, a2, a3, a4, a5, a6⟩ :=
      finalizeOne_frame (majorityDecision (countDecisions initial)) p
    obtain ⟨b1, b2, b3, b4, b5, b6⟩ :=
      forceAmend_frame (finalizeOne (majorityDecision (countDecisions initial)) p)
    refine ⟨b1.trans a1, b2.trans a2, b3.trans a3, b4.trans a4, b5.trans a5, ?_⟩
    rcases b6 with ⟨hs, hr⟩ | ⟨hs, hq⟩
    · rcases a6 with ⟨hs2, hr2⟩ | ⟨hs2, hp⟩
      · exact Or.inl ⟨hs.trans hs2, hr.trans hr2⟩
      · exact Or.inr ⟨hs.trans hs2, hp⟩
    · rcases a6 with ⟨hs2, _⟩ | ⟨hs2, _⟩
      · exact Or.inr ⟨hs, Or.inl (hs2.symm.trans hq)⟩
      · rw [hs2] at hq
        exact absurd hq (by decide)
  · exact ⟨finalizeOne (majorityDecision (countDecisions initial)), rfl,
      fun p => finalizeOne_frame _ p⟩

/-- C33: for every case, list of initial positions and list of challenges,
`finalizePositions` returns a list of the same length in which position `i` keeps the
agent id, the model, the perspective and the concerns of initial position `i`, has the
round `final`, and has a stance that is its initial stance or amended; its reasoning
differs from the initial reasoning only if its stance differs from the initial stance. -/
theorem finalizePositions_frame (c : Case) (initial : List Position)
    (challenges : List Challenge) :
    (finalizePositions c initial challenges).length = initial.length ∧
    ∀ (i : Nat) (p : Position), initial[i]? = some p →
      ∃ q, (finalizePositions c initial challenges)[i]? = some q ∧
        q.AgentID = p.AgentID ∧ q.Model = p.Model ∧ q.Perspective = p.Perspective ∧
        q.Concerns = p.Concerns ∧ q.Round = "final" ∧
        (q.Stance = p.Stance ∨ q.Stance = DecisionAmend) ∧
        (q.Reasoning ≠ p.Reasoning → q.Stance ≠ p.Stance) := by
  obtain ⟨g, hg, hframe⟩ := finalizePositions_map c initial challenges
  rw [hg]
  refine ⟨List.length_map _ _, fun i p hp => ⟨g p, ?_, ?_⟩⟩
  · rw [List.getElem?_map, hp]
    rfl
  · obtain ⟨a1, a2, a3, a4, a5, a6⟩ := hframe p
    refine ⟨a1, a2, a3, a4, a5, ?_, ?_⟩
    · rcases a6 with ⟨hs, _⟩ | ⟨hs, _⟩
      · exact Or.inl hs
      · exact Or.inr hs
    · intro hr
      rcases a6 with ⟨_, hr2⟩ | ⟨hs, hp2⟩
      · exact absurd hr2 hr
      · rw [hs]
        rcases hp2 with h | h <;> rw [h] <;> decide

/-- Claim C33 at three positions, two rejected and one approved, and a case with two
evidence entries: the approved position comes back amended, with a new reasoning. -/
theorem finalizePositions_frame_witness :
    ∃ q, (finalizePositions scenarioB mixedPositions [])[0]? = some q ∧
      q.AgentID = "agent-1" ∧ q.Model = "claude:sonnet" ∧ q.Perspective = "pragmatist" ∧
      q.Concerns = "none" ∧ q.Round = "final" ∧
      (q.Stance = DecisionApprove ∨ q.Stance = DecisionAmend) ∧
      (q.Reasoning ≠ "ship it" → q.Stance ≠ DecisionApprove) :=
  (finalizePositions_frame scenarioB mixedPositions []).2 0 _ rfl

/-! ### The shape of the challenge list -/

/-- The search for a position of another stance fails exactly when every stance of the
list is the given one. -/
theorem find_differing_none (initial : List Position) (s : Decision) :
    initial.find? (fun q => decide (q.Stance ≠ s)) = none ↔
      ∀ q ∈ initial, q.Stance = s := by
  rw [List.find?_eq_none]
  constructor
  · intro h q hq
    have := h q hq
    simpa using this
  · intro h q hq
    simpa using h q hq

/-- C32: for every list of positions whose agent ids are not empty and pairwise
different, `buildChallenges` returns no challenge, which it does exactly when all
stances are equal, or one challenge per position, in the order of the positions; no
challenge has the same seat as source and target; every challenge targets the first
position of the list or the first position whose stance differs from the stance of the
first position. -/
theorem buildChallenges_shape (L : Stdlib) (c : Case) (initial : List Position)
    (hids : ∀ p ∈ initial, p.AgentID ≠ "")
    (hdistinct : (initial.map (fun p => p.AgentID)).Nodup) :
    (buildChallenges L c initial = [] ↔
      ∀ p ∈ initial, ∀ q ∈ initial, p.Stance = q.Stance) ∧
    (buildChallenges L c initial = [] ∨
      (buildChallenges L c initial).map (fun ch => ch.From)
        = initial.map (fun p => p.AgentID)) ∧
    (∀ ch ∈ buildChallenges L c initial, ch.From ≠ ch.To) ∧
    (∀ ch ∈ buildChallenges L c initial, ∀ first, initial.head? = some first →
      ch.To = first.AgentID ∨
      ∃ q, initial.find? (fun q => decide (q.Stance ≠ first.Stance)) = some q ∧
        ch.To = q.AgentID) := by
  have hpairs := buildChallengesLoop_pairs L c initial initial hids
  have hmem : ∀ ch ∈ buildChallenges L c initial, ∃ P ∈ initial, ∃ q,
      initial.find? (fun q => decide (q.Stance ≠ P.Stance)) = some q ∧
      ch.From = P.AgentID ∧ ch.To = q.AgentID := by
    intro ch hch
    have h1 : (ch.From, ch.To) ∈
        (buildChallengesLoop L c initial initial).map (fun ch => (ch.From, ch.To)) :=
      List.mem_map.mpr ⟨ch, hch, rfl⟩
    rw [hpairs, List.mem_filterMap] at h1
    obtain ⟨P, hP, h2⟩ := h1
    cases hf : initial.find? (fun q => decide (q.Stance ≠ P.Stance)) with
    | none => rw [hf] at h2; cases h2
    | some q =>
      rw [hf] at h2
      simp only [Option.map_some', Option.some.injEq, Prod.mk.injEq] at h2
      exact ⟨P, hP, q, hf, h2.1.symm, h2.2.symm⟩
  have hall : (∀ p ∈ initial, ∀ q ∈ initial, p.Stance = q.Stance) →
      buildChallenges L c initial = [] := by
    intro h
    have h2 : (buildChallengesLoop L c initial initial).map (fun ch => (ch.From, ch.To)) = [] := by
      rw [hpairs, List.filterMap_eq_nil_iff]
      intro P hP
      rw [(find_differing_none initial P.Stance).mpr (fun q hq => h q hq P hP)]
      rfl
    exact List.map_eq_nil_iff.mp h2
  have hsome : (¬ ∀ p ∈ initial, ∀ q ∈ initial, p.Stance = q.Stance) →
      (buildChallenges L c initial).map (fun ch => ch.From)
        = initial.map (fun p => p.AgentID) := by
    intro h
    have hex : ∀ P ∈ initial, ∃ q,
        initial.find? (fun q => decide (q.Stance ≠ P.Stance)) = some q := by
      intro P hP
      cases hf : initial.find? (fun q => decide (q.Stance ≠ P.Stance)) with
      | some q => exact ⟨q, rfl⟩
      | none =>
        exfalso
        apply h
        intro p hp q hq
        have h3 := (find_differing_none initial P.Stance).mp hf
        rw [h3 p hp, h3 q hq]
    have h2 : ((buildChallenges L c initial).map (fun ch => (ch.From, ch.To))).map Prod.fst
        = initial.map (fun p => p.AgentID) := by
      unfold buildChallenges
      rw [hpairs]
      have h4 : ∀ (todo : List Position), (∀ P ∈ todo, P ∈ initial) →
          (todo.filterMap (fun P =>
            (initial.find? (fun q => decide (q.Stance ≠ P.Stance))).map
              (fun q => (P.AgentID, q.AgentID)))).map Prod.fst
            = todo.map (fun p => p.AgentID) := by
        intro todo
        induction todo with
        | nil => intro _; rfl
        | cons P rest ih =>
          intro hsub
          obtain ⟨q, hq⟩ := hex P (hsub P (List.mem_cons_self _ _))
          rw [List.filterMap_cons, hq]
          simp only [Option.map_some', List.map_cons]
          rw [ih (fun R hR => hsub R (List.mem_cons_of_mem _ hR))]
      exact h4 initial (fun P hP => hP)
    rw [List.map_map] at h2
    exact h2
  refine ⟨⟨fun h => ?_, hall⟩, ?_, ?_, ?_⟩
  · by_contra hne
    have h2 := hsome hne
    rw [h, List.map_nil] at h2
    have h3 : initial = [] := List.map_eq_nil_iff.mp h2.symm
    apply hne
    rw [h3]
    intro p hp
    cases hp
  · by_cases h : ∀ p ∈ initial, ∀ q ∈ initial, p.Stance = q.Stance
    · exact Or.inl (hall h)
    · exact Or.inr (hsome h)
  · intro ch hch
    obtain ⟨P, hP, q, hfind, hfrom, hto⟩ := hmem ch hch
    rw [hfrom, hto]
    intro he
    have hq : q ∈ initial := List.mem_of_find?_eq_some hfind
    have hqs : q.Stance ≠ P.Stance := by
      have := List.find?_some hfind
      simpa using this
    have hPq : P = q := List.inj_on_of_nodup_map hdistinct hP hq he
    rw [hPq] at hqs
    exact hqs rfl
  · intro ch hch first hfirst
    obtain ⟨P, hP, q, hfind, _, hto⟩ := hmem ch hch
    obtain ⟨rest, hl⟩ : ∃ rest, initial = first :: rest := by
      cases initial with
      | nil => cases hfirst
      | cons a rest =>
        simp only [List.head?_cons, Option.some.injEq] at hfirst
        exact ⟨rest, by rw [hfirst]⟩
    by_cases hs : first.Stance = P.Stance
    · right
      refine ⟨q, ?_, hto⟩
      rw [hs]
      exact hfind
    · left
      rw [hl, List.find?_cons_of_pos] at hfind
      · rw [hto, ← Option.some.inj hfind]
      · simpa using hs

/-- Claim C32 at three positions, one approved and two rejected: three challenges, the
first to the second seat and the two others to the first seat. -/
theorem buildChallenges_shape_witness :
    (buildChallenges refStdlib scenarioB mixedPositions).map (fun ch => (ch.From, ch.To))
      = [("agent-1", "agent-2"), ("agent-2", "agent-1"), ("agent-3", "agent-1")] ∧
    ∀ ch ∈ buildChallenges refStdlib scenarioB mixedPositions, ch.From ≠ ch.To :=
  ⟨by decide,
    (buildChallenges_shape refStdlib scenarioB mixedPositions (by decide) (by decide)).2.2.1⟩

/-! ### A panel with at most one pragmatist never approves -/

/-- The stance of `evaluateInitial` is one of the four decisions, and it is approved
for a seat named pragmatist only. -/
theorem evaluateInitial_stance (L : Stdlib) (c : Case) (p : Perspective) :
    (evaluateInitial L c p).1 ∈ fourDecisions ∧
    ((evaluateInitial L c p).1 = DecisionApprove → p.Name = "pragmatist") := by
  unfold evaluateInitial
  dsimp only
  split_ifs <;> refine ⟨by decide, fun h => ?_⟩ <;>
    first
      | assumption
      | exact absurd h (by decide)

/-- The stances of the initial positions are those of `evaluateInitial` on the seats. -/
theorem initialPositions_stances (L : Stdlib) (c : Case) (panel : List Perspective) :
    (initialPositions L c panel).map (fun q => q.Stance)
      = panel.map (fun p => (evaluateInitial L c p).1) := by
  unfold initialPositions toPanelMembers
  generalize 0 = i
  induction panel generalizing i with
  | nil => rfl
  | cons p rest ih =>
    unfold toPanelMembersFrom
    rw [List.zipWith_cons_cons, List.map_cons, List.map_cons, ih]

/-- The number of positions with a stance, read off the list of stances. -/
theorem filter_stance_length (l : List Position) (d : Decision) :
    (l.filter (fun p => decide (p.Stance = d))).length
      = ((l.map (fun p => p.Stance)).filter (fun s => decide (s = d))).length := by
  rw [List.filter_map, List.length_map]
  rfl

/-- A single approval among at least two positions is not the majority. -/
theorem single_approval_no_majority (final : List Position)
    (hfour : ∀ p ∈ final, p.Stance ∈ fourDecisions) (hlen : 2 ≤ final.length)
    (hone : (final.filter (fun p => decide (p.Stance = DecisionApprove))).length ≤ 1) :
    majorityDecision (countDecisions final) ≠ DecisionApprove := by
  intro hmaj
  obtain ⟨x, y, _, hy, _, hmax, hsec, heq⟩ := majorityDecision_top (countDecisions final)
  rw [hmaj] at heq
  have hx0 : countDecisions final x ≠ 0 := by
    intro h0
    rw [if_pos h0] at heq
    revert heq
    decide
  rw [if_neg hx0] at heq
  have hne : countDecisions final x ≠ countDecisions final y := by
    intro he
    rw [if_pos he] at heq
    revert heq
    decide
  rw [if_neg hne] at heq
  have hxa : x = DecisionApprove := heq.symm
  have hcx : countDecisions final x ≤ 1 := by
    rw [hxa, countDecisions_eq]
    exact_mod_cast hone
  have hyx : countDecisions final y ≤ countDecisions final x := hmax y hy
  have hy0 : countDecisions final y = 0 := by
    have := countDecisions_nonneg final y
    unfold Counts at *
    omega
  have hall : ∀ p ∈ final, p.Stance = DecisionApprove := by
    intro p hp
    by_contra hpa
    have hz : p.Stance ≠ x := by rw [hxa]; exact hpa
    have h1 := hsec p.Stance (hfour p hp) hz
    have h2 : 1 ≤ countDecisions final p.Stance := by
      rw [countDecisions_eq]
      have : p ∈ final.filter (fun q => decide (q.Stance = p.Stance)) :=
        List.mem_filter.mpr ⟨hp, by simp⟩
      have := List.length_pos_of_mem this
      exact_mod_cast this
    unfold Counts at *
    omega
  have hfull : final.filter (fun p => decide (p.Stance = DecisionApprove)) = final :=
    List.filter_eq_self.mpr (fun p hp => by simpa using hall p hp)
  rw [hfull] at hone
  omega

/-- C31: for every valid case and every panel of at least two seats of which at most
one has the perspective name pragmatist, `Deliberate` returns a verdict that is not
approved: an initial position is approved only at a seat named pragmatist, a final
position is approved only where the initial position is, and a single approval among at
least two positions is not the majority. -/
theorem deliberate_never_approved (L : Stdlib) (e : Engine) (c : Case) (now : Time)
    (hvalid : c.Validate L = none) (hseats : 2 ≤ e.Panel.length)
    (hprag : (e.Panel.filter (fun p => decide (p.Name = "pragmatist"))).length ≤ 1) :
    ∃ t v, e.Deliberate L c now = .ok (t, v) ∧ v.Verdict ≠ DecisionApprove ∧
      (∀ (i : Nat) (q : Position), t.InitialPositions[i]? = some q →
        q.Stance = DecisionApprove → ∃ p, e.Panel[i]? = some p ∧ p.Name = "pragmatist") ∧
      (∀ (i : Nat) (q : Position), t.FinalPositions[i]? = some q →
        q.Stance = DecisionApprove →
        ∃ q0, t.InitialPositions[i]? = some q0 ∧ q0.Stance = DecisionApprove) ∧
      (t.FinalPositions.filter (fun q => decide (q.Stance = DecisionApprove))).length ≤ 1 := by
  refine ⟨_, _, deliberate_ok L e c now hvalid, ?_⟩
  dsimp only
  obtain ⟨g, hg, hframe⟩ := finalizePositions_map c (initialPositions L c e.Panel)
    (buildChallenges L c (initialPositions L c e.Panel))
  have hst := initialPositions_stances L c e.Panel
  have hlen0 : (initialPositions L c e.Panel).length = e.Panel.length := by
    have := congrArg List.length hst
    simpa using this
  have hgs : ∀ p, (g p).Stance = DecisionApprove → p.Stance = DecisionApprove := by
    intro p h
    rcases (hframe p).2.2.2.2.2 with ⟨hs, _⟩ | ⟨hs, _⟩
    · rw [← hs]; exact h
    · rw [hs] at h
      exact absurd h (by decide)
  have hinit : ((initialPositions L c e.Panel).filter
      (fun q => decide (q.Stance = DecisionApprove))).length ≤ 1 := by
    rw [filter_stance_length, hst, List.filter_map, List.length_map]
    refine le_trans (List.Sublist.length_le (List.monotone_filter_right e.Panel ?_)) hprag
    intro p hp
    have := (evaluateInitial_stance L c p).2 (by simpa using hp)
    simpa using this
  have hfin : ((finalizePositions c (initialPositions L c e.Panel)
      (buildChallenges L c (initialPositions L c e.Panel))).filter
      (fun q => decide (q.Stance = DecisionApprove))).length ≤ 1 := by
    rw [hg, List.filter_map, List.length_map]
    refine le_trans (List.Sublist.length_le
      (List.monotone_filter_right (initialPositions L c e.Panel) ?_)) hinit
    intro p hp
    have := hgs p (by simpa using hp)
    simpa using this
  have hfour : ∀ q ∈ finalizePositions c (initialPositions L c e.Panel)
      (buildChallenges L c (initialPositions L c e.Panel)), q.Stance ∈ fourDecisions := by
    intro q hq
    rw [hg] at hq
    obtain ⟨p, hp, rfl⟩ := List.mem_map.mp hq
    have hp4 : p.Stance ∈ fourDecisions := by
      have h1 : p.Stance ∈ (initialPositions L c e.Panel).map (fun q => q.Stance) :=
        List.mem_map.mpr ⟨p, hp, rfl⟩
      rw [hst] at h1
      obtain ⟨s, _, hs⟩ := List.mem_map.mp h1
      rw [← hs]
      exact (evaluateInitial_stance L c s).1
    rcases (hframe p).2.2.2.2.2 with ⟨hs, _⟩ | ⟨hs, _⟩
    · rw [hs]; exact hp4
    · rw [hs]; decide
  have hlen : 2 ≤ (finalizePositions c (initialPositions L c e.Panel)
      (buildChallenges L c (initialPositions L c e.Panel))).length := by
    rw [hg, List.length_map, hlen0]
    exact hseats
  refine ⟨?_, ?_, ?_, hfin⟩
  · rw [(synthesizeVerdict_decision L c _ e.JudgeModel (now + twoMinutes)).1]
    unfold synthesizeDecision
    dsimp only
    split_ifs with h0
    · decide
    · exact single_approval_no_majority _ hfour hlen hfin
  · intro i q hq hqa
    have h1 : ((initialPositions L c e.Panel).map (fun q => q.Stance))[i]? = some q.Stance := by
      rw [List.getElem?_map, hq]
      rfl
    rw [hst, List.getElem?_map] at h1
    cases hp : e.Panel[i]? with
    | none => rw [hp] at h1; cases h1
    | some p =>
      rw [hp] at h1
      simp only [Option.map_some', Option.some.injEq] at h1
      exact ⟨p, rfl, (evaluateInitial_stance L c p).2 (h1.trans hqa)⟩
  · intro i q hq hqa
    rw [hg, List.getElem?_map] at hq
    cases hq0 : (initialPositions L c e.Panel)[i]? with
    | none => rw [hq0] at hq; cases hq
    | some q0 =>
      rw [hq0] at hq
      simp only [Option.map_some', Option.some.injEq] at hq
      refine ⟨q0, rfl, hgs q0 ?_⟩
      rw [hq]
      exact hqa

/-- Claim C31 at the default panel of three seats and the case of Scenario B, in which
the pragmatist seat approves at first. -/
theorem deliberate_never_approved_witness :
    ∃ t v, (New []).Deliberate refStdlib scenarioB sampleNow = .ok (t, v) ∧
      v.Verdict ≠ DecisionApprove :=
  (deliberate_never_approved refStdlib (New []) scenarioB sampleNow (by decide) (by decide)
    (by decide)).imp (fun _ h => h.imp (fun _ hv => ⟨hv.1, hv.2.1⟩))

/-! ### The projection of a valid verdict -/

/-- What a verdict that passes `Verdict.Validate` satisfies. -/
theorem Verdict.validate_fields (L : Stdlib) (v : Senate.Verdict)
    (h : Verdict.Validate L v = none) :
    TrimSpace v.CaseID ≠ "" ∧ TrimSpace v.FiledAt ≠ "" ∧
    (∃ t, L.parseRFC3339 v.FiledAt = .ok t) ∧
    TrimSpace v.VerdictAt ≠ "" ∧ (∃ t, L.parseRFC3339 v.VerdictAt = .ok t) ∧
    TrimSpace v.Type_ ≠ "" ∧ TrimSpace v.Summary ≠ "" ∧
    Decision.Validate L v.Verdict = none ∧
    TrimSpace v.Reasoning ≠ "" ∧ TrimSpace v.Judge ≠ "" := by
  unfold Verdict.Validate at h
  by_cases h1 : TrimSpace v.CaseID = ""
  · rw [if_pos h1] at h; cases h
  rw [if_neg h1] at h
  by_cases h2 : TrimSpace v.FiledAt = ""
  · rw [if_pos h2] at h; cases h
  rw [if_neg h2] at h
  cases h3 : L.parseRFC3339 v.FiledAt with
  | error msg => rw [h3] at h; cases h
  | ok t1 =>
    rw [h3] at h
    dsimp only at h
    by_cases h4 : TrimSpace v.VerdictAt = ""
    · rw [if_pos h4] at h; cases h
    rw [if_neg h4] at h
    cases h5 : L.parseRFC3339 v.VerdictAt with
    | error msg => rw [h5] at h; cases h
    | ok t2 =>
      rw [h5] at h
      dsimp only at h
      by_cases h6 : TrimSpace v.Type_ = ""
      · rw [if_pos h6] at h; cases h
      rw [if_neg h6] at h
      by_cases h7 : TrimSpace v.Summary = ""
      · rw [if_pos h7] at h; cases h
      rw [if_neg h7] at h
      cases h8 : Decision.Validate L v.Verdict with
      | some msg => rw [h8] at h; cases h
      | none =>
        rw [h8] at h
        dsimp only at h
        by_cases h9 : TrimSpace v.Reasoning = ""
        · rw [if_pos h9] at h; cases h
        rw [if_neg h9] at h
        by_cases h10 : TrimSpace v.Judge = ""
        · rw [if_pos h10] at h; cases h
        exact ⟨h1, h2, ⟨t1, rfl⟩, h4, ⟨t2, rfl⟩, h6, h7, rfl, h9, h10⟩

/-- The error of `Store.Add` on a record that passes `Record.Validate` is one that the
operating system returned. -/
theorem add_error_of_valid (L : Stdlib) (J : Json) (faults : AddFaults) (log : Option String)
    (r : Record) (hv : r.Validate L = none) (err : String)
    (h : (Store.Add L J faults log r).1 = some err) :
    faults.mkdirAll = some err ∨ faults.openFile = some err ∨
      ∃ n, faults.write = some (n, err) := by
  unfold Store.Add at h
  rw [hv] at h
  dsimp only at h
  cases hm : faults.mkdirAll with
  | some e1 =>
    rw [hm] at h
    exact Or.inl h
  | none =>
    rw [hm] at h
    dsimp only at h
    cases ho : faults.openFile with
    | some e2 =>
      rw [ho] at h
      exact Or.inr (Or.inl h)
    | none =>
      rw [ho] at h
      dsimp only at h
      cases hw : faults.write with
      | none => rw [hw] at h; cases h
      | some pr =>
        rw [hw] at h
        obtain ⟨n, e3⟩ := pr
        dsimp only at h
        exact Or.inr (Or.inr ⟨n, by rw [← Option.some.inj h]⟩)

/-- C34: for every verdict that passes `Verdict.Validate`, the record `FromVerdict(v)`
passes `Record.Validate`; `Store.Add` of that record therefore returns no error of
validation: the error that it returns, if any, is one that the operating system
returned, and without such an error it succeeds. -/
theorem fromVerdict_valid (L : Stdlib) (v : Senate.Verdict)
    (h : Verdict.Validate L v = none) :
    (FromVerdict L v).Validate L = none ∧
    (∀ (J : Json) (faults : AddFaults) (log : Option String) (err : String),
      (Store.Add L J faults log (FromVerdict L v)).1 = some err →
      faults.mkdirAll = some err ∨ faults.openFile = some err ∨
        ∃ n, faults.write = some (n, err)) ∧
    (∀ (J : Json) (log : Option String),
      (Store.Add L J { mkdirAll := none, openFile := none, write := none } log
        (FromVerdict L v)).1 = none) := by
  obtain ⟨h1, _, _, h4, ⟨t, h5⟩, h6, h7, h8, _, _⟩ := Verdict.validate_fields L v h
  have e1 : (FromVerdict L v).CaseID = v.CaseID := by unfold FromVerdict; cases v.Handoff <;> rfl
  have e2 : (FromVerdict L v).Type_ = v.Type_ := by unfold FromVerdict; cases v.Handoff <;> rfl
  have e3 : (FromVerdict L v).Summary = v.Summary := by
    unfold FromVerdict; cases v.Handoff <;> rfl
  have e4 : (FromVerdict L v).Verdict = v.Verdict := by
    unfold FromVerdict; cases v.Handoff <;> rfl
  have e5 : (FromVerdict L v).VerdictAt = v.VerdictAt := by
    unfold FromVerdict; cases v.Handoff <;> rfl
  have hrec : (FromVerdict L v).Validate L = none := by
    unfold Record.Validate
    rw [e1, e2, e3, e4, e5, if_neg h1, if_neg h6, if_neg h7, h8]
    dsimp only
    rw [if_neg h4, h5]
  refine ⟨hrec, fun J faults log err he => add_error_of_valid L J faults log _ hrec err he,
    fun J log => ?_⟩
  cases hadd : (Store.Add L J { mkdirAll := none, openFile := none, write := none } log
      (FromVerdict L v)).1 with
  | none => rfl
  | some err =>
    rcases add_error_of_valid L J _ log _ hrec err hadd with h | h | ⟨n, h⟩ <;> cases h

/-- Claim C34 at a valid verdict with a handoff. -/
theorem fromVerdict_valid_witness :
    (FromVerdict refStdlib handedOff).Validate refStdlib = none ∧
    (Store.Add refStdlib refJson noFaults sampleLog (FromVerdict refStdlib handedOff)).1 = none :=
  have h := fromVerdict_valid refStdlib handedOff (by decide)
  ⟨h.1, h.2.2 refJson sampleLog⟩

/-! ### The score of a record against the keywords of its own summary -/

/-- The function `strings.Contains` tells whether the substring is a contiguous block of
the string. -/
theorem containsChars_iff (text sub : List Char) :
    containsChars text sub = true ↔ sub <:+: text := by
  unfold containsChars
  rw [List.any_eq_true, List.infix_iff_prefix_suffix]
  constructor
  · rintro ⟨t, ht, hp⟩
    exact ⟨t, List.isPrefixOf_iff_prefix.mp hp, (List.mem_tails t text).mp ht⟩
  · rintro ⟨t, hp, ht⟩
    exact ⟨t, (List.mem_tails t text).mpr ht, List.isPrefixOf_iff_prefix.mpr hp⟩

/-- A field is a contiguous block of the text. -/
theorem fieldsFrom_part (cur l : List Char) :
    ∀ p ∈ fieldsFrom cur l, p.data <:+: cur.reverse ++ l := by
  induction l generalizing cur with
  | nil =>
    intro p hp
    unfold fieldsFrom at hp
    split_ifs at hp with h
    · cases hp
    · rw [List.mem_singleton.mp hp, List.append_nil]
  | cons c rest ih =>
    intro p hp
    have hrest : ∀ q : List Char, q <:+: rest → q <:+: cur.reverse ++ c :: rest := by
      rintro q ⟨a, b, hq⟩
      exact ⟨cur.reverse ++ c :: a, b, by rw [← hq]; simp⟩
    unfold fieldsFrom at hp
    split_ifs at hp with h1 h2
    · have := ih [] p hp
      exact hrest _ (by simpa using this)
    · rcases List.mem_cons.mp hp with e | e
      · rw [e]
        exact ⟨[], c :: rest, by simp⟩
      · have := ih [] p e
        exact hrest _ (by simpa using this)
    · have := ih (c :: cur) p hp
      simpa using this

/-- A block of a mapped run whose runes the map leaves alone is a block of the run. -/
theorem part_of_map (f : Char → Char) (q l : List Char) (h : q <:+: l.map f)
    (hfix : ∀ x, f x ∈ q → f x = x) : q <:+: l := by
  obtain ⟨a, b, hab⟩ := h
  obtain ⟨l12, l3, hl, h12, _⟩ := List.map_eq_append_iff.mp hab.symm
  obtain ⟨l1, l2, hl2, _, hq⟩ := List.map_eq_append_iff.mp h12
  have hid : l2.map f = l2 := by
    conv_rhs => rw [← List.map_id l2]
    apply List.map_congr_left
    intro x hx
    have : f x ∈ q := by rw [← hq]; exact List.mem_map.mpr ⟨x, hx, rfl⟩
    exact hfix x this
  refine ⟨l1, l3, ?_⟩
  rw [hl, hl2, ← hq, hid]

/-- A keyword of a text is a contiguous block of the lower-cased text. -/
theorem keyword_part (L : Stdlib) (text : String) (q : String)
    (hq : q ∈ extractKeywords L text) : q.data <:+: (ToLower L text).data := by
  rw [extractKeywords_eq] at hq
  have hmem : q ∈ tokens L text := (List.mem_filter.mp (distinctFrom_subset _ _ q hq)).1
  have hrunes := tokens_runes L text q hmem
  have h1 : q.data <:+: (replacePunctuation (ToLower L text)).data := by
    have := fieldsFrom_part [] _ q hmem
    simpa using this
  unfold replacePunctuation at h1
  apply part_of_map _ _ _ h1
  intro x hx
  split_ifs at hx ⊢ with hr
  · exact absurd (hrunes _ hx).1 (by decide)
  · rfl

/-- The bag of a record holds its lower-cased summary. -/
theorem recordBag_summary (L : Stdlib) (rec : Record) :
    (ToLower L rec.Summary).data <:+: (recordBag L rec).data := by
  unfold recordBag ToLower
  apply List.IsInfix.map
  refine ⟨rec.CaseID.data ++ ' ' :: rec.Type_.data ++ [' '],
    ' ' :: (rec.Reasoning.data ++ ' ' :: (rec.Implementation.data ++ ' ' ::
      (rec.Dissent.data ++ ' ' :: (Join rec.Keywords " ").data))), ?_⟩
  simp [Join, String.intercalate, String.intercalate.go]

/-- The summary of the record of a verdict is that of the verdict. -/
theorem fromVerdict_summary (L : Stdlib) (v : Senate.Verdict) :
    (FromVerdict L v).Summary = v.Summary := by
  unfold FromVerdict
  cases v.Handoff <;> rfl

/-- The score of a record is at most the number of query tokens, or 1 without tokens. -/
theorem scoreRecord_le (L : Stdlib) (rec : Record) (tokens : List String) :
    scoreRecord L rec tokens ≤ if tokens = [] then 1 else (tokens.length : Int) := by
  split_ifs with h
  · rw [h]
    exact le_of_eq rfl
  · rw [scoreRecord_count L rec tokens h]
    exact_mod_cast List.length_filter_le _ _

/-- C35, amended: for every verdict, each keyword extracted from its summary occurs in
the bag of its own projection; when the summary has at least one keyword, the score of
the projection against these keywords is their number, and when it has none the score
is 1; no record has a higher score against these keywords, and a search with them does
not skip the projection unless a filter on the type or on the decision excludes it. -/
theorem scoreRecord_own_summary (L : Stdlib) (v : Senate.Verdict) :
    (∀ q ∈ extractKeywords L v.Summary, Contains (recordBag L (FromVerdict L v)) q = true) ∧
    (extractKeywords L v.Summary ≠ [] →
      scoreRecord L (FromVerdict L v) (extractKeywords L v.Summary)
        = ((extractKeywords L v.Summary).length : Int)) ∧
    (extractKeywords L v.Summary = [] →
      scoreRecord L (FromVerdict L v) (extractKeywords L v.Summary) = 1) ∧
    (∀ rec : Record, scoreRecord L rec (extractKeywords L v.Summary)
      ≤ scoreRecord L (FromVerdict L v) (extractKeywords L v.Summary)) ∧
    (∀ opts : SearchOptions,
      (opts.Type_ = "" ∨ v.Type_ = opts.Type_) →
      (opts.Verdict = "" ∨ v.Verdict = opts.Verdict) →
      searchEntry L (extractKeywords L v.Summary) opts (FromVerdict L v)
        = some { record := FromVerdict L v,
                 score := scoreRecord L (FromVerdict L v) (extractKeywords L v.Summary),
                 time := parseOrZero L (FromVerdict L v).VerdictAt }) := by
  have hcont : ∀ q ∈ extractKeywords L v.Summary,
      Contains (recordBag L (FromVerdict L v)) q = true := by
    intro q hq
    unfold Contains
    rw [containsChars_iff]
    have h1 := keyword_part L v.Summary q hq
    have h2 := recordBag_summary L (FromVerdict L v)
    rw [fromVerdict_summary] at h2
    exact h1.trans h2
  have hscore : extractKeywords L v.Summary ≠ [] →
      scoreRecord L (FromVerdict L v) (extractKeywords L v.Summary)
        = ((extractKeywords L v.Summary).length : Int) := by
    intro hne
    rw [scoreRecord_count L _ _ hne, List.filter_eq_self.mpr hcont]
  have hone : extractKeywords L v.Summary = [] →
      scoreRecord L (FromVerdict L v) (extractKeywords L v.Summary) = 1 := by
    intro he
    rw [he]
    rfl
  refine ⟨hcont, hscore, hone, fun rec => ?_, fun opts ht hd => ?_⟩
  · have hle := scoreRecord_le L rec (extractKeywords L v.Summary)
    by_cases he : extractKeywords L v.Summary = []
    · rw [if_pos he] at hle
      rw [hone he]
      exact hle
    · rw [if_neg he] at hle
      rw [hscore he]
      exact hle
  · rw [searchEntry_some]
    have e2 : (FromVerdict L v).Type_ = v.Type_ := by
      unfold FromVerdict; cases v.Handoff <;> rfl
    have e4 : (FromVerdict L v).Verdict = v.Verdict := by
      unfold FromVerdict; cases v.Handoff <;> rfl
    refine ⟨rfl, by rw [e2]; exact ht, by rw [e4]; exact hd, fun hne => ?_⟩
    rw [hscore hne]
    have : 0 < (extractKeywords L v.Summary).length := List.length_pos.mpr hne
    omega

/-- Claim C35, refuted as stated: the summary of this valid verdict holds the two
stopwords `the` and `case` and so has no keyword; `scoreRecord` returns 1 for an empty
list of query tokens, not the number of keywords, which is 0. -/
theorem scoreRecord_keywordless_summary :
    Verdict.Validate refStdlib keywordless = none ∧
    extractKeywords refStdlib keywordless.Summary = [] ∧
    scoreRecord refStdlib (FromVerdict refStdlib keywordless)
      (extractKeywords refStdlib keywordless.Summary) = 1 ∧
    ((extractKeywords refStdlib keywordless.Summary).length : Int) = 0 := by
  decide

/-- Claim C35, amended, at a verdict whose summary has three keywords. -/
theorem scoreRecord_own_summary_witness :
    extractKeywords refStdlib handedOff.Summary = ["amend", "silent", "fallback"] ∧
    scoreRecord refStdlib (FromVerdict refStdlib handedOff)
      (extractKeywords refStdlib handedOff.Summary) = 3 :=
  ⟨by decide,
    ((scoreRecord_own_summary refStdlib handedOff).2.1 (by decide)).trans (by decide)⟩

end Senate
